import Mathlib

/-!
Verification of the Q-Chem input-set builder (`pymatgen/io/qchem/sets.py`).

The Python class `QChemDictSet.__init__` merges defaults, derived solvation /
NBO / optimizer settings, and caller overrides into a collection of named
keyword sections.  We embed that construction shallowly:

* Python dicts become association lists (`List (String × α)`); insertion
  (`d[k] = v`) updates the value in place when the key is present and appends
  otherwise, exactly matching CPython's insertion-order semantics.
* Python exceptions become an `Err` sum type (`ValueError`, `RuntimeError`,
  `KeyError`) threaded through `Except`.
* `warnings.warn` calls are collected into a list of message strings.
* Floats never participate in any computation other than `str(...)`; callers
  of the model therefore pass the dielectric constants already stringified.
* The molecule argument is an opaque pass-through in the source and carries no
  information relevant to the build, so it is not modelled.
* The module-level `CMIRS_SETTINGS` table is passed to the build explicitly,
  and the build returns the table's final value: in the source,
  `mypcm_nonels` *aliases* the table entry `CMIRS_SETTINGS[solvent]["0.001"]`,
  so writes to the nonelectrostatic section mutate the module-level table.
  The model keeps the live entry in the build state and re-installs it into
  the table at the end, which is observationally identical (the only table
  entry read after the alias is created is either a different contour entry,
  which is never written, or the alias itself).
-/

namespace QCSets

/-- Python exceptions raised (or reachable) in `QChemDictSet.__init__`. -/
inductive Err where
  | valueError (msg : String)
  | runtimeError (msg : String)
  | keyError (key : String)
deriving Repr, DecidableEq

/-- A keyword section: a Python `dict` as an insertion-ordered association list. -/
abbrev Sec := List (String × String)

/-- The nonelectrostatic (`pcm_nonels`) section: its values may be Python `None`. -/
abbrev OSec := List (String × Option String)

/-- Python `d[k] = v`: update in place if present, else append (insertion order). -/
def setKV {α : Type} (d : List (String × α)) (k : String) (v : α) : List (String × α) :=
  match d with
  | [] => [(k, v)]
  | (k', v') :: t => if k' = k then (k, v) :: t else (k', v') :: setKV t k v

/-- Python `d[k]` / `k in d`: first binding of `k`, if any. -/
def getKV {α : Type} (d : List (String × α)) (k : String) : Option α :=
  match d with
  | [] => none
  | (k', v) :: t => if k' = k then some v else getKV t k

/-- Python `d.get(k)` on a dict whose stored values may themselves be `None`. -/
def dictGet (d : OSec) (k : String) : Option String :=
  match getKV d k with
  | some v => v
  | none => none

/-- Python truthiness of a `.get` result: `None` and `""` are falsy. -/
def truthy (v : Option String) : Bool :=
  match v with
  | none => false
  | some s => s ≠ ""

/-- One solvent's entry of `CMIRS_SETTINGS`: the two contour-keyed coefficient
dicts plus the dielectric constant. -/
structure CMIRSEntry where
  e001 : OSec
  e0005 : OSec
  dielst : String
deriving Repr, DecidableEq

/-- Python `entry[rho]` for the two contour keys. -/
def CMIRSEntry.contour (e : CMIRSEntry) (rho : String) : Option OSec :=
  if rho = "0.001" then some e.e001
  else if rho = "0.0005" then some e.e0005
  else none

/-- The per-solvent CMIRS parameter table, keyed by solvent name. -/
abbrev CMIRSTable := List (String × CMIRSEntry)

/-- The module-level `CMIRS_SETTINGS` constant, transcribed from the source. -/
def CMIRS_SETTINGS : CMIRSTable :=
  [ ("water",
      { e001 := [("a", some "-0.006736"), ("b", some "0.032698"), ("c", some "-1249.6"),
                 ("d", some "-21.405"), ("gamma", some "3.7"), ("solvrho", some "0.05")],
        e0005 := [("a", some "-0.006496"), ("b", some "0.050833"), ("c", some "-566.7"),
                  ("d", some "-30.503"), ("gamma", some "3.2"), ("solvrho", some "0.05")],
        dielst := "78.39" }),
    ("benzene",
      { e001 := [("a", some "-0.00522"), ("b", some "0.01294"), ("c", none),
                 ("d", none), ("gamma", none), ("solvrho", some "0.0421")],
        e0005 := [("a", some "-0.00572"), ("b", some "0.01116"), ("c", none),
                  ("d", none), ("gamma", none), ("solvrho", some "0.0421")],
        dielst := "2.28" }),
    ("cyclohexane",
      { e001 := [("a", some "-0.00938"), ("b", some "0.03184"), ("c", none),
                 ("d", none), ("gamma", none), ("solvrho", some "0.0396")],
        e0005 := [("a", some "-0.00721"), ("b", some "0.05618"), ("c", none),
                  ("d", none), ("gamma", none), ("solvrho", some "0.0396")],
        dielst := "2.02" }),
    ("dimethyl sulfoxide",
      { e001 := [("a", some "-0.00951"), ("b", some "0.044791"), ("c", none),
                 ("d", some "-162.07"), ("gamma", some "4.1"), ("solvrho", some "0.05279")],
        e0005 := [("a", some "-0.002523"), ("b", some "0.011757"), ("c", none),
                  ("d", some "-817.93"), ("gamma", some "4.3"), ("solvrho", some "0.05279")],
        dielst := "47" }),
    ("acetonitrile",
      { e001 := [("a", some "-0.008178"), ("b", some "0.045278"), ("c", none),
                 ("d", some "-0.33914"), ("gamma", some "1.3"), ("solvrho", some "0.03764")],
        e0005 := [("a", some "-0.003805"), ("b", some "0.03223"), ("c", none),
                  ("d", some "-0.44492"), ("gamma", some "1.2"), ("solvrho", some "0.03764")],
        dielst := "36.64" }) ]

/-- The arguments of `QChemDictSet.__init__`.  Dielectric constants appear
only under `str(...)` in the source, so they are carried as their decimal
strings; dict-valued arguments are association lists; the opt / scan variable
lists are opaque strings (the build never inspects them). -/
structure QCArgs where
  job_type : String
  basis_set : String
  scf_algorithm : String
  dft_rung : Int := 4
  pcm_dielectric : Option String := none
  isosvp_dielectric : Option String := none
  smd_solvent : Option String := none
  cmirs_solvent : Option String := none
  custom_smd : Option String := none
  opt_variables : Option Sec := none
  scan_variables : Option Sec := none
  max_scf_cycles : Nat := 100
  geom_opt_max_cycles : Nat := 200
  plot_cubes : Bool := false
  nbo_params : Option Sec := none
  new_geom_opt : Option Sec := none
  overwrite_inputs : Option (List (String × Sec)) := none
  vdw_mode : String := "atomic"
  extra_scf_print : Bool := false
deriving Repr, DecidableEq

/-- The local default dict `pcm_defaults` of `__init__`. -/
def pcm_defaults : Sec :=
  [("heavypoints", "194"), ("hpoints", "194"), ("radii", "uff"),
   ("theory", "cpcm"), ("vdwscale", "1.1")]

/-- The local default dict `svp_defaults` of `__init__`. -/
def svp_defaults : Sec :=
  [("rhoiso", "0.001"), ("nptleb", "1202"), ("itrngr", "2"), ("irotgr", "2")]

/-- The local default dict `plots_defaults` of `__init__`. -/
def plots_defaults : Sec :=
  [("grid_spacing", "0.05"), ("total_density", "0")]

/-- The state of the build: the local section dicts of `__init__` plus the
bookkeeping needed to model the aliasing of `mypcm_nonels` into
`CMIRS_SETTINGS` (`aliasRho` records the contour key the alias points at)
and the in-place mutation of the caller's `new_geom_opt` dict. -/
structure BuildSt where
  myrem : Sec
  mypcm : Sec
  mysolvent : Sec
  mysmx : Sec
  myvdw : Sec
  myplots : Sec
  myopt : Sec
  myscan : Sec
  mysvp : Sec
  mypcm_nonels : OSec
  mynbo : Option Sec
  my_geom_opt : Option Sec
  new_geom_opt_final : Option Sec
  aliasRho : Option String
deriving Repr, DecidableEq

/-- Exact message of the `ValueError` raised for an out-of-range `dft_rung`. -/
def dftRungMsg : String := "dft_rung should be between 1 and 5!"

/-- Exact message of the `ValueError` raised when several solvation models are set
(the missing space before "may" is in the source). -/
def conflictMsg : String := "Only one of PCM, ISOSVP, SMD, and CMIRSmay be used for solvation."

/-- Exact message of the `ValueError` raised for a custom SMD solvent without
`custom_smd` (the source concatenates five string literals). -/
def customSmdMsg : String :=
  "A user-defined SMD requires passing custom_smd, a string" ++
  " of seven comma separated values in the following order:" ++
  " dielectric, refractive index, acidity, basicity, surface" ++
  " tension, aromaticity, electronegative halogenicity"

/-- Exact message of the `RuntimeError` raised for an NBO version other than 7. -/
def nboVersionMsg : String := "nbo params version should only be set to 7! Exiting..."

/-- Exact message of the `RuntimeError` raised for a `maxiter` mismatch. -/
def maxiterMsg : String := "Max # of optimization cycles must be the same! Exiting..."

/-- Number of non-`None` entries among the four solvation-model selectors
(the `solvent_def` counter of the source). -/
def solventCount (a : QCArgs) : Nat :=
  [a.pcm_dielectric, a.isosvp_dielectric, a.smd_solvent, a.cmirs_solvent].countP
    (fun x => x.isSome)

/-- The `$rem` seed of step 1 of `__init__` (insertion order as in the source). -/
def remSeed (a : QCArgs) : Sec :=
  [("job_type", a.job_type), ("basis", a.basis_set),
   ("max_scf_cycles", toString a.max_scf_cycles), ("gen_scfman", "true"),
   ("xc_grid", "3"), ("thresh", "14"), ("s2thresh", "16"),
   ("scf_algorithm", a.scf_algorithm), ("resp_charges", "true"),
   ("symmetry", "false"), ("sym_ignore", "true")]

/-- DFT-rung dispatch (source lines 319–331): writes `method` (and `dft_D`
for rung 2) into the rem dict, or raises for a rung outside 1–5. -/
def applyDftRung (rung : Int) (rem : Sec) : Except Err Sec :=
  if rung = 1 then .ok (setKV rem "method" "b3lyp")
  else if rung = 2 then .ok (setKV (setKV rem "method" "b3lyp") "dft_D" "D3_BJ")
  else if rung = 3 then .ok (setKV rem "method" "wb97xd")
  else if rung = 4 then .ok (setKV rem "method" "wb97xv")
  else if rung = 5 then .ok (setKV rem "method" "wb97mv")
  else .error (.valueError dftRungMsg)

/-- Python's `str.lower()` on the ASCII keyword strings of this file, written
with structural recursion so that proofs can evaluate it (`String.toLower`
itself is defined by well-founded recursion and does not reduce). -/
def pyLower (s : String) : String :=
  String.mk (s.data.map Char.toLower)

/-- The `geom_opt_max_cycles` write of source lines 333–334, applied only for
the three geometry-changing job types. -/
def remWithGeomCycles (a : QCArgs) (rem : Sec) : Sec :=
  if ["opt", "ts", "pes_scan"].contains (pyLower a.job_type) then
    setKV rem "geom_opt_max_cycles" (toString a.geom_opt_max_cycles)
  else rem

/-- The build state right after the `$rem` seed, DFT-rung dispatch and
`geom_opt_max_cycles` write: all section dicts are the fresh empty dicts of
the source except `myopt` / `myscan`, which alias the caller's dicts. -/
def initSt (a : QCArgs) (rem : Sec) : BuildSt :=
  { myrem := rem, mypcm := [], mysolvent := [], mysmx := [], myvdw := [],
    myplots := [], myopt := a.opt_variables.getD [], myscan := a.scan_variables.getD [],
    mysvp := [], mypcm_nonels := [], mynbo := none, my_geom_opt := none,
    new_geom_opt_final := none, aliasRho := none }

/-- PCM branch (source lines 343–346). -/
def stPCM (a : QCArgs) (st : BuildSt) : BuildSt :=
  match a.pcm_dielectric with
  | some diel =>
      { st with mypcm := pcm_defaults,
                mysolvent := setKV st.mysolvent "dielectric" diel,
                myrem := setKV st.myrem "solvent_method" "pcm" }
  | none => st

/-- ISOSVP branch (source lines 348–352). -/
def stISOSVP (a : QCArgs) (st : BuildSt) : BuildSt :=
  match a.isosvp_dielectric with
  | some diel =>
      { st with mysvp := setKV svp_defaults "dielst" diel,
                myrem := setKV (setKV st.myrem "solvent_method" "isosvp") "gen_scfman" "false" }
  | none => st

/-- SMD branch (source lines 354–368): the build fails exactly when the named
solvent is `custom` (or `other`) and no `custom_smd` string was supplied. -/
def stSMD (a : QCArgs) (st : BuildSt) : Except Err BuildSt :=
  match a.smd_solvent with
  | some solv =>
      if (solv = "custom" ∨ solv = "other") ∧ a.custom_smd = none then
        .error (.valueError customSmdMsg)
      else
        .ok { st with
          mysmx := setKV st.mysmx "solvent" (if solv = "custom" then "other" else solv),
          myrem := setKV (setKV st.myrem "solvent_method" "smd") "ideriv" "1" }
  | none => .ok st

/-- CMIRS branch (source lines 370–380); `mypcm_nonels` becomes the alias of
the table's contour entry, recorded in `aliasRho`. -/
def stCMIRS (a : QCArgs) (table : CMIRSTable) (st : BuildSt) : Except Err BuildSt :=
  match a.cmirs_solvent with
  | some solv =>
      match getKV table solv with
      | none => .error (.keyError solv)
      | some entry =>
          let myrem := setKV (setKV st.myrem "solvent_method" "isosvp") "gen_scfman" "false"
          let mysvp :=
            setKV (setKV (setKV svp_defaults "dielst" entry.dielst) "idefesr" "1") "ipnrf" "1"
          match getKV mysvp "rhoiso" with
          | none => .error (.keyError "rhoiso")
          | some rho =>
              match entry.contour rho with
              | none => .error (.keyError rho)
              | some nonels =>
                  .ok { st with
                        mysvp := mysvp,
                        myrem := myrem,
                        mypcm_nonels :=
                          setKV (setKV nonels "delta" (some "7")) "gaulag_n" (some "40"),
                        aliasRho := some rho }
  | none => .ok st

/-- Cube-plot branch (source lines 382–385). -/
def stPlots (a : QCArgs) (st : BuildSt) : BuildSt :=
  if a.plot_cubes then
    { st with myplots := plots_defaults,
              myrem := setKV (setKV st.myrem "plots" "true") "make_cube_files" "true" }
  else st

/-- NBO branch (source lines 387–398): flags, version check, copy minus `version`. -/
def stNBO (a : QCArgs) (st : BuildSt) : Except Err BuildSt :=
  match a.nbo_params with
  | some d =>
      let myrem := setKV st.myrem "nbo" "true"
      match getKV d "version" with
      | some v =>
          if v = "7" then
            .ok { st with myrem := setKV myrem "nbo_external" "true",
                          mynbo := some (d.filter (fun kv => kv.1 ≠ "version")) }
          else .error (.runtimeError nboVersionMsg)
      | none =>
          .ok { st with myrem := myrem,
                        mynbo := some (d.filter (fun kv => kv.1 ≠ "version")) }
  | none => .ok st

/-- New-optimizer branch (source lines 400–410): the `maxiter` cross-check; when
`maxiter` is absent the source writes it into the caller's dict before copying,
captured in `new_geom_opt_final`. -/
def stGeom (a : QCArgs) (st : BuildSt) : Except Err BuildSt :=
  match a.new_geom_opt with
  | some d =>
      let myrem := setKV st.myrem "geom_opt2" "3"
      match getKV d "maxiter" with
      | some m =>
          if m ≠ toString a.geom_opt_max_cycles then .error (.runtimeError maxiterMsg)
          else .ok { st with myrem := myrem, my_geom_opt := some d, new_geom_opt_final := some d }
      | none =>
          let d' := setKV d "maxiter" (toString a.geom_opt_max_cycles)
          .ok { st with myrem := myrem, my_geom_opt := some d', new_geom_opt_final := some d' }
  | none => .ok st

/-- Everything `__init__` does before the `overwrite_inputs` loop
(source lines 277–410), with the module-level table passed explicitly. -/
def buildPre (a : QCArgs) (table : CMIRSTable) : Except Err BuildSt :=
  match applyDftRung a.dft_rung (remSeed a) with
  | .error e => .error e
  | .ok myrem =>
      if solventCount a > 1 then .error (.valueError conflictMsg)
      else
        match stSMD a (stISOSVP a (stPCM a (initSt a (remWithGeomCycles a myrem)))) with
        | .error e => .error e
        | .ok st =>
            match stCMIRS a table st with
            | .error e => .error e
            | .ok st =>
                match stNBO a (stPlots a st) with
                | .error e => .error e
                | .ok st => stGeom a st

/-- Modelled from the spec: the key-normalization utility
`lower_and_check_unique` lives in `pymatgen/io/qchem/utils.py`, which is not
part of the sources here; the spec describes it as `normalize(mapping)`, which
"case-folds keys, fails with a 'duplicate key' error if two input keys
normalize to the same string". -/
def lowerAndCheckUnique (d : Sec) : Except Err Sec :=
  d.foldlM
    (fun acc kv =>
      let k := pyLower kv.1
      match getKV acc k with
      | some _ => .error (.valueError "duplicate key")
      | none => .ok (acc ++ [(k, kv.2)]))
    []

/-- Warning message of the `solvent`-section override check. -/
def solventWarnMsg : String := "The solvent section will be ignored unless solvent_method=pcm!"

/-- Warning message for `idefesr = 0` with CMIRS active. -/
def idefesr0Msg : String := "Setting IDEFESR=0 will disable the CMIRS calculation you requested!"

/-- Warning message for `idefesr = 1` without CMIRS. -/
def idefesr1Msg : String := "Setting IDEFESR=1 will have no effect unless you specify a cmirs_solvent!"

/-- Warning message for a `dielst` override outside ISOSVP. -/
def dielstWarnMsg : String := "Setting DIELST will have no effect unless you specify a solvent_method=isosvp!"

/-- Exact message of the `RuntimeError` for an unparameterized RHOISO value. -/
def rhoisoMsg : String := "CMIRS is only parameterized for RHOISO values of 0.001 or 0.0005! Exiting..."

/-- Exact message of the `RuntimeError` for an `nbo` override without NBO. -/
def nboOverrideMsg : String := "Can't overwrite nbo params when NBO is not being run! Exiting..."

/-- Exact message of the `RuntimeError` for a `geom_opt` override without the new optimizer. -/
def geomOverrideMsg : String := "Can't overwrite geom_opt params when not using the new optimizer! Exiting..."

/-- The source of the CMIRS re-merge for a `rhoiso` override: the table entry
`CMIRS_SETTINGS[solvent][v]`, except that reading the contour the alias points
at reads the live `mypcm_nonels` (the alias is that very entry). -/
def rhoisoSrc (table : CMIRSTable) (solv : String) (st : BuildSt) (v : String) :
    Except Err OSec :=
  if st.aliasRho = some v then .ok st.mypcm_nonels
  else
    match getKV table solv with
    | none => .error (.keyError solv)
    | some e =>
        match e.contour v with
        | some d => .ok d
        | none => .error (.keyError v)

/-- The loop body of the `rhoiso` override (source lines 474–476): for each
key already in the nonelectrostatic section, take the value from the
re-selected coefficient table when it is truthy, else keep the old value. -/
def remerge (d : OSec) (src : OSec) : OSec :=
  d.map (fun kv => if truthy (dictGet src kv.1) then (kv.1, dictGet src kv.1) else kv)

/-- The `rhoiso` special case of an `svp` override (source lines 467–476). -/
def svpRhoiso (a : QCArgs) (table : CMIRSTable) (st : BuildSt) (v : String) :
    Except Err BuildSt :=
  match a.cmirs_solvent with
  | some solv =>
      if v ≠ "0.001" ∧ v ≠ "0.0005" then .error (.runtimeError rhoisoMsg)
      else
        match rhoisoSrc table solv st v with
        | .error e => .error e
        | .ok src => .ok { st with mypcm_nonels := remerge st.mypcm_nonels src }
  | none => .ok st

/-- The `idefesr` warnings of an `svp` override (source lines 477–486). -/
def svpIdefesrWarns (a : QCArgs) (v : String) : List String :=
  if a.cmirs_solvent.isSome ∧ v = "0" then [idefesr0Msg]
  else if a.cmirs_solvent = none ∧ v = "1" then [idefesr1Msg]
  else []

/-- The `dielst` check of an `svp` override (source lines 487–491): note that
reading `myrem["solvent_method"]` raises `KeyError` when no solvation model
ever set that key. -/
def svpDielstWarns (st : BuildSt) : Except Err (List String) :=
  match getKV st.myrem "solvent_method" with
  | none => .error (.keyError "solvent_method")
  | some m => if m ≠ "isosvp" then .ok [dielstWarnMsg] else .ok []

/-- One key of an `svp` override (the body of the loop at source lines 466–493):
the `rhoiso` / `idefesr` / `dielst` special cases, then `mysvp[k] = v`. -/
def applySvpKey (a : QCArgs) (table : CMIRSTable) (st : BuildSt) (ws : List String)
    (k v : String) : Except Err (BuildSt × List String) :=
  match (if k = "rhoiso" then svpRhoiso a table st v else .ok st) with
  | .error e => .error e
  | .ok st =>
      let ws := ws ++ (if k = "idefesr" then svpIdefesrWarns a v else [])
      match (if k = "dielst" then svpDielstWarns st else .ok []) with
      | .error e => .error e
      | .ok ws' => .ok ({ st with mysvp := setKV st.mysvp k v }, ws ++ ws')

/-- Merge normalized override key/value pairs into a section, caller values
winning (the `for k, v in temp.items(): d[k] = v` loops of the source). -/
def mergeKVs (d : Sec) (t : Sec) : Sec :=
  t.foldl (fun d kv => setKV d kv.1 kv.2) d

/-- Merge override pairs into the nonelectrostatic section. -/
def mergeKVsO (d : OSec) (t : Sec) : OSec :=
  t.foldl (fun d kv => setKV d kv.1 (some kv.2)) d

/-- The svp-override loop over the normalized pairs. -/
def applySvpKeys (a : QCArgs) (table : CMIRSTable) (st : BuildSt) (ws : List String)
    (t : Sec) : Except Err (BuildSt × List String) :=
  match t with
  | [] => .ok (st, ws)
  | kv :: rest =>
      match applySvpKey a table st ws kv.1 kv.2 with
      | .error e => .error e
      | .ok (st', ws') => applySvpKeys a table st' ws' rest

/-- One item of the `overwrite_inputs` loop (source lines 413–497). -/
def applyItem (a : QCArgs) (table : CMIRSTable) (st : BuildSt)
    (item : String × Sec) : Except Err (BuildSt × List String) :=
  let sec := item.1
  if sec = "rem" then
    match lowerAndCheckUnique item.2 with
    | .error e => .error e
    | .ok t => .ok ({ st with myrem := mergeKVs st.myrem t }, [])
  else if sec = "pcm" then
    match lowerAndCheckUnique item.2 with
    | .error e => .error e
    | .ok t => .ok ({ st with mypcm := mergeKVs st.mypcm t }, [])
  else if sec = "solvent" then
    match lowerAndCheckUnique item.2 with
    | .error e => .error e
    | .ok t =>
        match getKV st.myrem "solvent_method" with
        | none => .error (.keyError "solvent_method")
        | some m =>
            .ok ({ st with mysolvent := mergeKVs st.mysolvent t },
                 if m ≠ "pcm" then [solventWarnMsg] else [])
  else if sec = "smx" then
    match lowerAndCheckUnique item.2 with
    | .error e => .error e
    | .ok t => .ok ({ st with mysmx := mergeKVs st.mysmx t }, [])
  else if sec = "scan" then
    match lowerAndCheckUnique item.2 with
    | .error e => .error e
    | .ok t => .ok ({ st with myscan := mergeKVs st.myscan t }, [])
  else if sec = "van_der_waals" then
    match lowerAndCheckUnique item.2 with
    | .error e => .error e
    | .ok t =>
        .ok ({ st with myvdw := mergeKVs st.myvdw t,
                       mypcm := setKV st.mypcm "radii" "read" }, [])
  else if sec = "plots" then
    match lowerAndCheckUnique item.2 with
    | .error e => .error e
    | .ok t => .ok ({ st with myplots := mergeKVs st.myplots t }, [])
  else if sec = "nbo" then
    match st.mynbo with
    | none => .error (.runtimeError nboOverrideMsg)
    | some nb =>
        match lowerAndCheckUnique item.2 with
        | .error e => .error e
        | .ok t => .ok ({ st with mynbo := some (mergeKVs nb t) }, [])
  else if sec = "geom_opt" then
    match st.my_geom_opt with
    | none => .error (.runtimeError geomOverrideMsg)
    | some go =>
        match lowerAndCheckUnique item.2 with
        | .error e => .error e
        | .ok t => .ok ({ st with my_geom_opt := some (mergeKVs go t) }, [])
  else if sec = "opt" then
    match lowerAndCheckUnique item.2 with
    | .error e => .error e
    | .ok t => .ok ({ st with myopt := mergeKVs st.myopt t }, [])
  else if sec = "svp" then
    match lowerAndCheckUnique item.2 with
    | .error e => .error e
    | .ok t => applySvpKeys a table st [] t
  else if sec = "pcm_nonels" then
    match lowerAndCheckUnique item.2 with
    | .error e => .error e
    | .ok t => .ok ({ st with mypcm_nonels := mergeKVsO st.mypcm_nonels t }, [])
  else
    .ok (st, [])

/-- The whole `overwrite_inputs` loop, accumulating warnings. -/
def applyOverrides (a : QCArgs) (table : CMIRSTable) (st : BuildSt)
    (ws : List String) (ov : List (String × Sec)) : Except Err (BuildSt × List String) :=
  match ov with
  | [] => .ok (st, ws)
  | item :: rest =>
      match applyItem a table st item with
      | .error e => .error e
      | .ok (st', w) => applyOverrides a table st' (ws ++ w) rest

/-- The finished build: the sections handed to `QCInput.__init__`, the
collected warnings, the final value of the module-level `CMIRS_SETTINGS`
table and the final values of the caller-supplied dicts the build aliases. -/
structure BuildResult where
  rem : Sec
  opt : Sec
  pcm : Sec
  solvent : Sec
  smx : Sec
  scan : Sec
  van_der_waals : Sec
  plots : Sec
  svp : Sec
  pcm_nonels : OSec
  nbo : Option Sec
  geom_opt : Option Sec
  vdw_mode : String
  warnings : List String
  tableFinal : CMIRSTable
  new_geom_opt_final : Option Sec
  opt_variables_final : Option Sec
  scan_variables_final : Option Sec
deriving Repr, DecidableEq

/-- Write the final live nonelectrostatic section back into the contour slot of
the table entry it aliases. -/
def tableWriteBack (table : CMIRSTable) (solv rho : String) (nonels : OSec) : CMIRSTable :=
  table.map (fun se =>
    if se.1 = solv then
      (se.1,
       if rho = "0.001" then { se.2 with e001 := nonels }
       else if rho = "0.0005" then { se.2 with e0005 := nonels }
       else se.2)
    else se)

/-- The `extra_scf_print` adjustment of source lines 499–508.  Python's
`int(...)` on a non-numeric string raises `ValueError`, modelled via
`String.toInt?`. -/
def finalRem (a : QCArgs) (rem : Sec) : Except Err Sec :=
  if a.extra_scf_print then
    match getKV (setKV rem "scf_final_print" "3") "scf_convergence" with
    | none => .ok (setKV (setKV rem "scf_final_print" "3") "scf_convergence" "8")
    | some s =>
        match s.toInt? with
        | none => .error (.valueError "invalid literal for int()")
        | some n =>
            if n < 8 then .ok (setKV (setKV rem "scf_final_print" "3") "scf_convergence" "8")
            else .ok (setKV rem "scf_final_print" "3")
  else .ok rem

/-- The tail of `__init__` (source lines 499–525): the `extra_scf_print`
adjustment, then assembly of the result. -/
def finalize (a : QCArgs) (table : CMIRSTable) (st : BuildSt) (ws : List String) :
    Except Err BuildResult :=
  match finalRem a st.myrem with
  | .error e => .error e
  | .ok myrem =>
      .ok { rem := myrem, opt := st.myopt, pcm := st.mypcm, solvent := st.mysolvent,
            smx := st.mysmx, scan := st.myscan, van_der_waals := st.myvdw,
            plots := st.myplots, svp := st.mysvp, pcm_nonels := st.mypcm_nonels,
            nbo := st.mynbo, geom_opt := st.my_geom_opt, vdw_mode := a.vdw_mode,
            warnings := ws, tableFinal :=
              (match a.cmirs_solvent, st.aliasRho with
               | some solv, some rho => tableWriteBack table solv rho st.mypcm_nonels
               | _, _ => table),
            new_geom_opt_final := st.new_geom_opt_final,
            opt_variables_final := a.opt_variables.map (fun _ => st.myopt),
            scan_variables_final := a.scan_variables.map (fun _ => st.myscan) }

/-- The full build performed by `QChemDictSet.__init__`. -/
def qchemBuild (a : QCArgs) (table : CMIRSTable) : Except Err BuildResult :=
  match buildPre a table with
  | .error e => .error e
  | .ok st =>
      match applyOverrides a table st [] (a.overwrite_inputs.getD []) with
      | .error e => .error e
      | .ok (st, ws) => finalize a table st ws

/-- The build with the `overwrite_inputs` loop run a second time over the
already-merged sections (the idempotence experiment of the spec). -/
def qchemBuildTwice (a : QCArgs) (table : CMIRSTable) : Except Err BuildResult :=
  match buildPre a table with
  | .error e => .error e
  | .ok st =>
      match applyOverrides a table st [] (a.overwrite_inputs.getD []) with
      | .error e => .error e
      | .ok (st, ws) =>
          match applyOverrides a table st ws (a.overwrite_inputs.getD []) with
          | .error e => .error e
          | .ok (st, ws) => finalize a table st ws

/-- Modelled from the spec: the renderer (`QCInput`, in
`pymatgen/io/qchem/inputs.py`, not among the sources here) serializes a
section by emitting its key/value pairs; per the spec, a property whose table
entry is null "is simply omitted from the section, not defaulted". -/
def renderSection (s : OSec) : Sec :=
  s.filterMap (fun kv => kv.2.map (fun v => (kv.1, v)))

/-- The auxiliary `solvent_data` file emitted by `QChemDictSet.write`
(source lines 527–535): present exactly when the SMD solvent is `custom` or
`other`, containing the caller's `custom_smd` string verbatim. -/
def solventDataFile (a : QCArgs) : Option (Option String) :=
  if a.smd_solvent = some "custom" ∨ a.smd_solvent = some "other" then some a.custom_smd
  else none

/-- Boolean success test for a build outcome (used by concrete witnesses). -/
def exceptIsOk {ε α : Type} (x : Except ε α) : Bool :=
  match x with
  | .ok _ => true
  | .error _ => false

/-- A benign single-point job specification used as the base of the concrete
witness inputs. -/
def baseArgs : QCArgs :=
  { job_type := "sp", basis_set := "def2-tzvpd", scf_algorithm := "diis" }

/-- Addressable section components written by the override loop. -/
inductive SecId where
  | remS
  | pcmS
  | solventS
  | smxS
  | vdwS
  | plotsS
  | optS
  | scanS
  | svpS
  | nonelsS
  | nboS
  | geomS
deriving Repr, DecidableEq

/-- One primitive effect of the override loop, used to reason about the loop
uniformly: a keyed write into a section, one of the three guard reads
(`solvent` / `nbo` / `geom_opt` overrides), the CMIRS `rhoiso` re-merge, or
the two `$svp` warning probes. -/
inductive Instr where
  | write (sec : SecId) (k v : String)
  | solventCheck
  | nboCheck
  | geomCheck
  | rhoisoMerge (v : String)
  | idefesrWarn (v : String)
  | dielstCheck
deriving Repr, DecidableEq

/-- Flatten one normalized `$svp` override key into instructions. -/
def instrsOfSvpKey (kv : String × String) : List Instr :=
  (if kv.1 = "rhoiso" then [Instr.rhoisoMerge kv.2] else []) ++
  (if kv.1 = "idefesr" then [Instr.idefesrWarn kv.2] else []) ++
  (if kv.1 = "dielst" then [Instr.dielstCheck] else []) ++
  [Instr.write .svpS kv.1 kv.2]

/-- Flatten one override item into instructions (fails exactly when its
normalization fails). -/
def instrsOfItem (item : String × Sec) : Except Err (List Instr) :=
  let sec := item.1
  if sec = "rem" then
    (lowerAndCheckUnique item.2).map (List.map (fun kv => Instr.write .remS kv.1 kv.2))
  else if sec = "pcm" then
    (lowerAndCheckUnique item.2).map (List.map (fun kv => Instr.write .pcmS kv.1 kv.2))
  else if sec = "solvent" then
    (lowerAndCheckUnique item.2).map
      (fun t => Instr.solventCheck :: t.map (fun kv => Instr.write .solventS kv.1 kv.2))
  else if sec = "smx" then
    (lowerAndCheckUnique item.2).map (List.map (fun kv => Instr.write .smxS kv.1 kv.2))
  else if sec = "scan" then
    (lowerAndCheckUnique item.2).map (List.map (fun kv => Instr.write .scanS kv.1 kv.2))
  else if sec = "van_der_waals" then
    (lowerAndCheckUnique item.2).map
      (fun t => t.map (fun kv => Instr.write .vdwS kv.1 kv.2) ++ [Instr.write .pcmS "radii" "read"])
  else if sec = "plots" then
    (lowerAndCheckUnique item.2).map (List.map (fun kv => Instr.write .plotsS kv.1 kv.2))
  else if sec = "nbo" then
    (lowerAndCheckUnique item.2).map
      (fun t => Instr.nboCheck :: t.map (fun kv => Instr.write .nboS kv.1 kv.2))
  else if sec = "geom_opt" then
    (lowerAndCheckUnique item.2).map
      (fun t => Instr.geomCheck :: t.map (fun kv => Instr.write .geomS kv.1 kv.2))
  else if sec = "opt" then
    (lowerAndCheckUnique item.2).map (List.map (fun kv => Instr.write .optS kv.1 kv.2))
  else if sec = "svp" then
    (lowerAndCheckUnique item.2).map (fun t => t.flatMap instrsOfSvpKey)
  else if sec = "pcm_nonels" then
    (lowerAndCheckUnique item.2).map (List.map (fun kv => Instr.write .nonelsS kv.1 kv.2))
  else
    .ok []

/-- Flatten a whole override list. -/
def instrsOfOverrides (ov : List (String × Sec)) : Except Err (List Instr) :=
  match ov with
  | [] => .ok []
  | item :: rest =>
      match instrsOfItem item with
      | .error e => .error e
      | .ok l1 =>
          match instrsOfOverrides rest with
          | .error e => .error e
          | .ok l2 => .ok (l1 ++ l2)

/-- Apply a keyed write to the state. -/
def execWrite (st : BuildSt) (sec : SecId) (k v : String) : BuildSt :=
  match sec with
  | .remS => { st with myrem := setKV st.myrem k v }
  | .pcmS => { st with mypcm := setKV st.mypcm k v }
  | .solventS => { st with mysolvent := setKV st.mysolvent k v }
  | .smxS => { st with mysmx := setKV st.mysmx k v }
  | .vdwS => { st with myvdw := setKV st.myvdw k v }
  | .plotsS => { st with myplots := setKV st.myplots k v }
  | .optS => { st with myopt := setKV st.myopt k v }
  | .scanS => { st with myscan := setKV st.myscan k v }
  | .svpS => { st with mysvp := setKV st.mysvp k v }
  | .nonelsS => { st with mypcm_nonels := setKV st.mypcm_nonels k (some v) }
  | .nboS => { st with mynbo := st.mynbo.map (fun d => setKV d k v) }
  | .geomS => { st with my_geom_opt := st.my_geom_opt.map (fun d => setKV d k v) }

/-- Execute one instruction: possibly a failure, a state change, warnings. -/
def execInstr (a : QCArgs) (table : CMIRSTable) (st : BuildSt) (i : Instr) :
    Except Err (BuildSt × List String) :=
  match i with
  | .write sec k v => .ok (execWrite st sec k v, [])
  | .solventCheck =>
      match getKV st.myrem "solvent_method" with
      | none => .error (.keyError "solvent_method")
      | some m => .ok (st, if m ≠ "pcm" then [solventWarnMsg] else [])
  | .nboCheck =>
      match st.mynbo with
      | none => .error (.runtimeError nboOverrideMsg)
      | some _ => .ok (st, [])
  | .geomCheck =>
      match st.my_geom_opt with
      | none => .error (.runtimeError geomOverrideMsg)
      | some _ => .ok (st, [])
  | .rhoisoMerge v =>
      match a.cmirs_solvent with
      | some solv =>
          if v ≠ "0.001" ∧ v ≠ "0.0005" then .error (.runtimeError rhoisoMsg)
          else
            match rhoisoSrc table solv st v with
            | .error e => .error e
            | .ok src => .ok ({ st with mypcm_nonels := remerge st.mypcm_nonels src }, [])
      | none => .ok (st, [])
  | .idefesrWarn v => .ok (st, svpIdefesrWarns a v)
  | .dielstCheck =>
      match svpDielstWarns st with
      | .error e => .error e
      | .ok w => .ok (st, w)

/-- Execute a list of instructions, accumulating warnings. -/
def execInstrs (a : QCArgs) (table : CMIRSTable) (st : BuildSt) (ws : List String) :
    List Instr → Except Err (BuildSt × List String)
  | [] => .ok (st, ws)
  | i :: rest =>
      match execInstr a table st i with
      | .error e => .error e
      | .ok (st', w) => execInstrs a table st' (ws ++ w) rest

/-- The pure state effect of one instruction (failing cases become no-ops;
they are unreachable on runs that succeed). -/
def execPureInstr (a : QCArgs) (table : CMIRSTable) (st : BuildSt) (i : Instr) : BuildSt :=
  match i with
  | .write sec k v => execWrite st sec k v
  | .rhoisoMerge v =>
      match a.cmirs_solvent with
      | some solv =>
          if v ≠ "0.001" ∧ v ≠ "0.0005" then st
          else
            match rhoisoSrc table solv st v with
            | .error _ => st
            | .ok src => { st with mypcm_nonels := remerge st.mypcm_nonels src }
      | none => st
  | _ => st

/-- The pure state effect of an instruction list. -/
def execPure (a : QCArgs) (table : CMIRSTable) (st : BuildSt) (l : List Instr) : BuildSt :=
  l.foldl (execPureInstr a table) st

/-- The keys of an association list. -/
def secKeys {α : Type} (d : List (String × α)) : List String :=
  d.map Prod.fst

/-- Replay a list of writes over a dict (`last write wins`, new keys appended
in first-write order). -/
def foldWrites {α : Type} (d : List (String × α)) (w : List (String × α)) :
    List (String × α) :=
  w.foldl (fun d kv => setKV d kv.1 kv.2) d

/-- The value of the last write to `k` in a write list, if any. -/
def lastVal {α : Type} (w : List (String × α)) (k : String) : Option α :=
  match w with
  | [] => none
  | kv :: t => (lastVal t k).orElse (fun _ => if kv.1 = k then some kv.2 else none)

/-- Key list after merging in new keys (first occurrence order). -/
def keysAfter (ks : List String) (l : List String) : List String :=
  match l with
  | [] => ks
  | k :: t => keysAfter (if k ∈ ks then ks else ks ++ [k]) t

/-- The per-key writes a list of instructions makes into a given plain section. -/
def writesTo (x : SecId) (l : List Instr) : List (String × String) :=
  l.filterMap (fun i =>
    match i with
    | .write sec k v => if sec = x then some (k, v) else none
    | _ => none)

/-- An abstract operation on the nonelectrostatic section: a keyed write or a
re-merge against a fixed coefficient dict. -/
inductive NOp where
  | w (k : String) (v : Option String)
  | m (src : OSec)
deriving Repr, DecidableEq

/-- Apply one abstract nonelectrostatic operation. -/
def napply (d : OSec) (op : NOp) : OSec :=
  match op with
  | .w k v => setKV d k v
  | .m src => remerge d src

/-- Apply a list of abstract nonelectrostatic operations. -/
def napplyFold (d : OSec) (ops : List NOp) : OSec :=
  ops.foldl napply d

/-- The nonelectrostatic operations of an instruction list, relative to the
alias contour `ρ` (a re-merge whose source is the live alias itself is the
identity and contributes no operation). -/
def nonelsOps (a : QCArgs) (table : CMIRSTable) (ρ : Option String)
    (l : List Instr) : List NOp :=
  l.filterMap (fun i =>
    match i with
    | .write sec k v => if sec = .nonelsS then some (NOp.w k (some v)) else none
    | .rhoisoMerge v =>
        match a.cmirs_solvent with
        | some solv =>
            if v ≠ "0.001" ∧ v ≠ "0.0005" then none
            else if ρ = some v then none
            else
              match getKV table solv with
              | none => none
              | some e =>
                  match e.contour v with
                  | some src => some (NOp.m src)
                  | none => none
        | none => none
    | _ => none)

/-- The per-key state machine of the nonelectrostatic operations: `none` means
the key is absent. -/
def npStep (k : String) (st : Option (Option String)) (op : NOp) :
    Option (Option String) :=
  match op with
  | .w k' v => if k' = k then some v else st
  | .m src => st.map (fun old => if truthy (dictGet src k) then dictGet src k else old)

/-- Run the per-key machine over an operation list. -/
def npFold (k : String) (init : Option (Option String)) (ops : List NOp) :
    Option (Option String) :=
  ops.foldl (npStep k) init

/-- The keys written by a nonelectrostatic operation list. -/
def nopKeys (ops : List NOp) : List String :=
  ops.filterMap (fun op =>
    match op with
    | .w k _ => some k
    | .m _ => none)

/-- Monotone state facts preserved by the override loop: the alias contour is
fixed, and the presence of `solvent_method`, of the NBO dict and of the
geometry-optimizer dict can only grow.  Used to replay an instruction list. -/
def stMono (s u : BuildSt) : Prop :=
  s.aliasRho = u.aliasRho ∧
  ((getKV s.myrem "solvent_method").isSome → (getKV u.myrem "solvent_method").isSome) ∧
  (s.mynbo.isSome → u.mynbo.isSome) ∧
  (s.my_geom_opt.isSome → u.my_geom_opt.isSome)

/-- Well-formedness of the caller-supplied dict arguments: Python dicts cannot
hold duplicate keys. -/
def QCArgs.WF (a : QCArgs) : Prop :=
  ((a.opt_variables.getD []).map Prod.fst).Nodup ∧
  ((a.scan_variables.getD []).map Prod.fst).Nodup ∧
  ((a.nbo_params.getD []).map Prod.fst).Nodup ∧
  ((a.new_geom_opt.getD []).map Prod.fst).Nodup

instance (a : QCArgs) : Decidable a.WF := by
  unfold QCArgs.WF
  infer_instance

/-- All section dicts of a build state have duplicate-free key lists. -/
def NodupSt (st : BuildSt) : Prop :=
  (secKeys st.myrem).Nodup ∧ (secKeys st.mypcm).Nodup ∧ (secKeys st.mysolvent).Nodup ∧
  (secKeys st.mysmx).Nodup ∧ (secKeys st.myvdw).Nodup ∧ (secKeys st.myplots).Nodup ∧
  (secKeys st.myopt).Nodup ∧ (secKeys st.myscan).Nodup ∧ (secKeys st.mysvp).Nodup ∧
  (secKeys st.mypcm_nonels).Nodup ∧
  (∀ d, st.mynbo = some d → (secKeys d).Nodup) ∧
  (∀ d, st.my_geom_opt = some d → (secKeys d).Nodup)

/-- The state-independent effect of a flattened instruction list on the build
state: every section is the fold of the instruction list's writes into it, the
nonelectrostatic section is the fold of its abstract operations, and the
bookkeeping fields are untouched.  The override loop computes exactly this on
successful runs. -/
def stepSt (a : QCArgs) (table : CMIRSTable) (L : List Instr) (st : BuildSt) : BuildSt :=
  { myrem := foldWrites st.myrem (writesTo .remS L),
    mypcm := foldWrites st.mypcm (writesTo .pcmS L),
    mysolvent := foldWrites st.mysolvent (writesTo .solventS L),
    mysmx := foldWrites st.mysmx (writesTo .smxS L),
    myvdw := foldWrites st.myvdw (writesTo .vdwS L),
    myplots := foldWrites st.myplots (writesTo .plotsS L),
    myopt := foldWrites st.myopt (writesTo .optS L),
    myscan := foldWrites st.myscan (writesTo .scanS L),
    mysvp := foldWrites st.mysvp (writesTo .svpS L),
    mypcm_nonels := napplyFold st.mypcm_nonels (nonelsOps a table st.aliasRho L),
    mynbo := st.mynbo.map (fun d => foldWrites d (writesTo .nboS L)),
    my_geom_opt := st.my_geom_opt.map (fun d => foldWrites d (writesTo .geomS L)),
    new_geom_opt_final := st.new_geom_opt_final,
    aliasRho := st.aliasRho }

/-- Key lists of both contour dicts of every table entry are duplicate-free. -/
def tableNodup (table : CMIRSTable) : Prop :=
  ∀ p ∈ table, (secKeys p.2.e001).Nodup ∧ (secKeys p.2.e0005).Nodup

/-- Extract the value of a successful computation, with a fallback. -/
def exceptGetD {ε α : Type} (x : Except ε α) (d : α) : α :=
  match x with
  | .ok v => v
  | .error _ => d

/-- An empty build result, used only as the fallback of `exceptGetD`. -/
def emptyBuildResult : BuildResult :=
  { rem := [], opt := [], pcm := [], solvent := [], smx := [], scan := [],
    van_der_waals := [], plots := [], svp := [], pcm_nonels := [], nbo := none,
    geom_opt := none, vdw_mode := "", warnings := [], tableFinal := [],
    new_geom_opt_final := none, opt_variables_final := none,
    scan_variables_final := none }

/-- Concrete job specification exercising the override merge: a CMIRS build
whose overrides rewrite `$rem`, flip the `rhoiso` contour (forcing the
coefficient re-merge), add a fresh nonelectrostatic key and a van-der-Waals
radius. -/
def c9wA : QCArgs :=
  { baseArgs with
    cmirs_solvent := some "water",
    overwrite_inputs := some
      [("rem", [("Thresh", "10")]),
       ("svp", [("RHOISO", "0.0005")]),
       ("pcm_nonels", [("A", "-0.006")]),
       ("van_der_waals", [("1", "1.20")])] }

/-- The single-pass result of the `c9wA` build. -/
def c9wR : BuildResult :=
  exceptGetD (qchemBuild c9wA CMIRS_SETTINGS) emptyBuildResult

/-- Concrete job specification for the frame-effect experiment: a CMIRS water
build that also requests the new geometry optimizer with an empty caller dict. -/
def c3A : QCArgs :=
  { baseArgs with cmirs_solvent := some "water", new_geom_opt := some [] }

/-- The result of the `c3A` build. -/
def c3R : BuildResult :=
  exceptGetD (qchemBuild c3A CMIRS_SETTINGS) emptyBuildResult


section Helpers

/-- Characterization of a Python dict read after a write. -/
theorem getKV_setKV {α : Type} (d : List (String × α)) (k k' : String) (v : α) :
    getKV (setKV d k v) k' = if k = k' then some v else getKV d k' := by
  induction d with
  | nil => simp [setKV, getKV]
  | cons p t ih =>
      obtain ⟨k0, v0⟩ := p
      by_cases h0 : k0 = k
      · subst h0
        by_cases h1 : k0 = k'
        · subst h1; simp [setKV, getKV]
        · simp [setKV, getKV, h1]
      · by_cases h1 : k = k'
        · subst h1
          simp [setKV, getKV, h0, ih]
        · simp [setKV, getKV, h0, h1, ih]

theorem except_bind_ok {ε α β : Type} (x : α) (f : α → Except ε β) :
    (Except.ok x >>= f) = f x := rfl

theorem except_bind_err {ε α β : Type} (e : ε) (f : α → Except ε β) :
    ((Except.error e : Except ε α) >>= f) = Except.error e := rfl

theorem except_pure {ε α : Type} (x : α) : (pure x : Except ε α) = Except.ok x := rfl

theorem except_throw {ε α : Type} (e : ε) : (throw e : Except ε α) = Except.error e := rfl

theorem applyOverrides_nil (a : QCArgs) (table : CMIRSTable) (st : BuildSt) (ws : List String) :
    applyOverrides a table st ws [] = .ok (st, ws) := rfl

theorem stPCM_rem (a : QCArgs) (st : BuildSt) (k : String) (h : ¬ "solvent_method" = k) :
    getKV (stPCM a st).myrem k = getKV st.myrem k := by
  cases hp : a.pcm_dielectric <;> simp [stPCM, hp, getKV_setKV, h]

theorem stISOSVP_rem (a : QCArgs) (st : BuildSt) (k : String)
    (h1 : ¬ "solvent_method" = k) (h2 : ¬ "gen_scfman" = k) :
    getKV (stISOSVP a st).myrem k = getKV st.myrem k := by
  cases hp : a.isosvp_dielectric <;> simp [stISOSVP, hp, getKV_setKV, h1, h2]

theorem stSMD_rem (a : QCArgs) (st st' : BuildSt) (k : String)
    (hok : stSMD a st = .ok st')
    (h1 : ¬ "solvent_method" = k) (h2 : ¬ "ideriv" = k) :
    getKV st'.myrem k = getKV st.myrem k := by
  cases hp : a.smd_solvent with
  | none => simp only [stSMD, hp, Except.ok.injEq] at hok; subst hok; rfl
  | some solv =>
      simp only [stSMD, hp] at hok
      split at hok
      · exact absurd hok (by simp)
      · simp only [Except.ok.injEq] at hok
        subst hok
        simp [getKV_setKV, h1, h2]

theorem stCMIRS_rem (a : QCArgs) (table : CMIRSTable) (st st' : BuildSt) (k : String)
    (hok : stCMIRS a table st = .ok st')
    (h1 : ¬ "solvent_method" = k) (h2 : ¬ "gen_scfman" = k) :
    getKV st'.myrem k = getKV st.myrem k := by
  cases hp : a.cmirs_solvent with
  | none => simp only [stCMIRS, hp, Except.ok.injEq] at hok; subst hok; rfl
  | some solv =>
      simp only [stCMIRS, hp] at hok
      cases hq : getKV table solv with
      | none => simp [hq] at hok
      | some entry =>
          simp only [hq] at hok
          split at hok
          · exact absurd hok (by simp)
          · split at hok
            · exact absurd hok (by simp)
            · simp only [Except.ok.injEq] at hok
              subst hok
              simp [getKV_setKV, h1, h2]

theorem stPlots_rem (a : QCArgs) (st : BuildSt) (k : String)
    (h1 : ¬ "plots" = k) (h2 : ¬ "make_cube_files" = k) :
    getKV (stPlots a st).myrem k = getKV st.myrem k := by
  by_cases hp : a.plot_cubes <;> simp [stPlots, hp, getKV_setKV, h1, h2]

theorem stNBO_rem (a : QCArgs) (st st' : BuildSt) (k : String)
    (hok : stNBO a st = .ok st')
    (h1 : ¬ "nbo" = k) (h2 : ¬ "nbo_external" = k) :
    getKV st'.myrem k = getKV st.myrem k := by
  cases hp : a.nbo_params with
  | none => simp only [stNBO, hp, Except.ok.injEq] at hok; subst hok; rfl
  | some d =>
      simp only [stNBO, hp] at hok
      cases hv : getKV d "version" with
      | none =>
          simp only [hv, Except.ok.injEq] at hok
          subst hok
          simp [getKV_setKV, h1]
      | some v =>
          simp only [hv] at hok
          split at hok
          · simp only [Except.ok.injEq] at hok
            subst hok
            simp [getKV_setKV, h1, h2]
          · exact absurd hok (by simp)

theorem stGeom_rem (a : QCArgs) (st st' : BuildSt) (k : String)
    (hok : stGeom a st = .ok st')
    (h1 : ¬ "geom_opt2" = k) :
    getKV st'.myrem k = getKV st.myrem k := by
  cases hp : a.new_geom_opt with
  | none => simp only [stGeom, hp, Except.ok.injEq] at hok; subst hok; rfl
  | some d =>
      simp only [stGeom, hp] at hok
      cases hv : getKV d "maxiter" with
      | none =>
          simp only [hv, Except.ok.injEq] at hok
          subst hok
          simp [getKV_setKV, h1]
      | some m =>
          simp only [hv] at hok
          split at hok
          · exact absurd hok (by simp)
          · simp only [Except.ok.injEq] at hok
            subst hok
            simp [getKV_setKV, h1]

theorem remWithGeomCycles_getKV (a : QCArgs) (rem : Sec) (k : String)
    (h : ¬ "geom_opt_max_cycles" = k) :
    getKV (remWithGeomCycles a rem) k = getKV rem k := by
  unfold remWithGeomCycles
  split <;> simp [getKV_setKV, h]

theorem applyDftRung_rem (rung : Int) (rem rem1 : Sec) (k : String)
    (hok : applyDftRung rung rem = .ok rem1)
    (h1 : ¬ "method" = k) (h2 : ¬ "dft_D" = k) :
    getKV rem1 k = getKV rem k := by
  unfold applyDftRung at hok
  split at hok
  all_goals try split at hok
  all_goals try split at hok
  all_goals try split at hok
  all_goals try split at hok
  all_goals
    first
    | (simp only [Except.ok.injEq] at hok; subst hok; simp [getKV_setKV, h1, h2])
    | exact absurd hok (by simp)

/-- After a successful pre-phase, a `$rem` key not among the ones written after
the DFT-rung dispatch reads the same as right after that dispatch. -/
theorem buildPre_rem (a : QCArgs) (table : CMIRSTable) (st : BuildSt) (k : String)
    (hok : buildPre a table = .ok st)
    (h1 : ¬ "geom_opt_max_cycles" = k) (h2 : ¬ "solvent_method" = k)
    (h3 : ¬ "gen_scfman" = k) (h4 : ¬ "ideriv" = k) (h5 : ¬ "plots" = k)
    (h6 : ¬ "make_cube_files" = k) (h7 : ¬ "nbo" = k) (h8 : ¬ "nbo_external" = k)
    (h9 : ¬ "geom_opt2" = k) :
    ∃ rem1, applyDftRung a.dft_rung (remSeed a) = .ok rem1 ∧
      getKV st.myrem k = getKV rem1 k := by
  unfold buildPre at hok
  cases hd : applyDftRung a.dft_rung (remSeed a) with
  | error e => simp only [hd] at hok; exact absurd hok (by simp)
  | ok rem1 =>
      simp only [hd] at hok
      refine ⟨rem1, rfl, ?_⟩
      split at hok
      · exact absurd hok (by simp)
      · cases hs : stSMD a (stISOSVP a (stPCM a (initSt a (remWithGeomCycles a rem1)))) with
        | error e => simp only [hs] at hok; exact absurd hok (by simp)
        | ok st2 =>
            simp only [hs] at hok
            cases hc : stCMIRS a table st2 with
            | error e => simp only [hc] at hok; exact absurd hok (by simp)
            | ok st3 =>
                simp only [hc] at hok
                cases hn : stNBO a (stPlots a st3) with
                | error e => simp only [hn] at hok; exact absurd hok (by simp)
                | ok st4 =>
                    simp only [hn] at hok
                    rw [stGeom_rem a st4 st k hok h9,
                        stNBO_rem a (stPlots a st3) st4 k hn h7 h8,
                        stPlots_rem a st3 k h5 h6,
                        stCMIRS_rem a table st2 st3 k hc h2 h3,
                        stSMD_rem a _ st2 k hs h2 h4,
                        stISOSVP_rem a _ k h2 h3,
                        stPCM_rem a _ k h2]
                    exact remWithGeomCycles_getKV a rem1 k h1

theorem finalRem_getKV (a : QCArgs) (rem rem' : Sec) (k : String)
    (hok : finalRem a rem = .ok rem')
    (h1 : ¬ "scf_final_print" = k) (h2 : ¬ "scf_convergence" = k) :
    getKV rem' k = getKV rem k := by
  unfold finalRem at hok
  split at hok
  · split at hok
    · simp only [Except.ok.injEq] at hok
      subst hok
      simp [getKV_setKV, h1, h2]
    · split at hok
      · exact absurd hok (by simp)
      · split at hok <;>
          (simp only [Except.ok.injEq] at hok; subst hok; simp [getKV_setKV, h1, h2])
  · simp only [Except.ok.injEq] at hok
    subst hok
    rfl

/-- A successful `finalize` copies every non-`$rem` component of the state
unchanged into the result. -/
theorem finalize_fields (a : QCArgs) (table : CMIRSTable) (st : BuildSt)
    (ws : List String) (r : BuildResult)
    (hok : finalize a table st ws = .ok r) :
    r.opt = st.myopt ∧ r.pcm = st.mypcm ∧ r.solvent = st.mysolvent ∧
    r.smx = st.mysmx ∧ r.scan = st.myscan ∧ r.van_der_waals = st.myvdw ∧
    r.plots = st.myplots ∧ r.svp = st.mysvp ∧ r.pcm_nonels = st.mypcm_nonels ∧
    r.nbo = st.mynbo ∧ r.geom_opt = st.my_geom_opt ∧ r.warnings = ws ∧
    r.new_geom_opt_final = st.new_geom_opt_final := by
  unfold finalize at hok
  cases hfr : finalRem a st.myrem with
  | error e => rw [hfr] at hok; exact absurd hok (by simp)
  | ok rem' =>
      rw [hfr] at hok
      simp only [Except.ok.injEq] at hok
      subst hok
      exact ⟨rfl, rfl, rfl, rfl, rfl, rfl, rfl, rfl, rfl, rfl, rfl, rfl, rfl⟩

theorem finalize_rem (a : QCArgs) (table : CMIRSTable) (st : BuildSt)
    (ws : List String) (r : BuildResult) (k : String)
    (hok : finalize a table st ws = .ok r)
    (h1 : ¬ "scf_final_print" = k) (h2 : ¬ "scf_convergence" = k) :
    getKV r.rem k = getKV st.myrem k := by
  unfold finalize at hok
  cases hfr : finalRem a st.myrem with
  | error e => rw [hfr] at hok; exact absurd hok (by simp)
  | ok rem' =>
      rw [hfr] at hok
      simp only [Except.ok.injEq] at hok
      subst hok
      exact finalRem_getKV a st.myrem rem' k hfr h1 h2

/-- A successful top-level build decomposes into its three phases. -/
theorem qchemBuild_decomp (a : QCArgs) (table : CMIRSTable) (r : BuildResult)
    (hok : qchemBuild a table = .ok r) :
    ∃ st st' ws, buildPre a table = .ok st ∧
      applyOverrides a table st [] (a.overwrite_inputs.getD []) = .ok (st', ws) ∧
      finalize a table st' ws = .ok r := by
  unfold qchemBuild at hok
  cases hbp : buildPre a table with
  | error e => simp only [hbp] at hok; exact absurd hok (by simp)
  | ok st =>
      simp only [hbp] at hok
      cases hov : applyOverrides a table st [] (a.overwrite_inputs.getD []) with
      | error e => simp only [hov] at hok; exact absurd hok (by simp)
      | ok p =>
          obtain ⟨st', ws⟩ := p
          simp only [hov] at hok
          exact ⟨st, st', ws, rfl, hov, hok⟩

theorem getKV_remSeed (a : QCArgs) (k : String)
    (h1 : ¬ "job_type" = k) (h2 : ¬ "basis" = k) (h3 : ¬ "max_scf_cycles" = k)
    (h4 : ¬ "gen_scfman" = k) (h5 : ¬ "xc_grid" = k) (h6 : ¬ "thresh" = k)
    (h7 : ¬ "s2thresh" = k) (h8 : ¬ "scf_algorithm" = k) (h9 : ¬ "resp_charges" = k)
    (h10 : ¬ "symmetry" = k) (h11 : ¬ "sym_ignore" = k) :
    getKV (remSeed a) k = none := by
  simp [remSeed, getKV, h1, h2, h3, h4, h5, h6, h7, h8, h9, h10, h11]

theorem stPCM_none (a : QCArgs) (st : BuildSt) (h : a.pcm_dielectric = none) :
    stPCM a st = st := by
  simp [stPCM, h]

theorem stISOSVP_none (a : QCArgs) (st : BuildSt) (h : a.isosvp_dielectric = none) :
    stISOSVP a st = st := by
  simp [stISOSVP, h]

theorem stSMD_none (a : QCArgs) (st : BuildSt) (h : a.smd_solvent = none) :
    stSMD a st = .ok st := by
  simp [stSMD, h]

theorem stCMIRS_none (a : QCArgs) (table : CMIRSTable) (st : BuildSt)
    (h : a.cmirs_solvent = none) :
    stCMIRS a table st = .ok st := by
  simp [stCMIRS, h]

theorem stNBO_none (a : QCArgs) (st : BuildSt) (h : a.nbo_params = none) :
    stNBO a st = .ok st := by
  simp [stNBO, h]

theorem stGeom_none (a : QCArgs) (st : BuildSt) (h : a.new_geom_opt = none) :
    stGeom a st = .ok st := by
  simp [stGeom, h]

theorem stPlots_preserves (a : QCArgs) (st : BuildSt) :
    (stPlots a st).mypcm = st.mypcm ∧ (stPlots a st).mysolvent = st.mysolvent ∧
    (stPlots a st).mysmx = st.mysmx ∧ (stPlots a st).myvdw = st.myvdw ∧
    (stPlots a st).myopt = st.myopt ∧ (stPlots a st).myscan = st.myscan ∧
    (stPlots a st).mysvp = st.mysvp ∧ (stPlots a st).mypcm_nonels = st.mypcm_nonels ∧
    (stPlots a st).mynbo = st.mynbo ∧ (stPlots a st).my_geom_opt = st.my_geom_opt ∧
    (stPlots a st).new_geom_opt_final = st.new_geom_opt_final ∧
    (stPlots a st).aliasRho = st.aliasRho := by
  by_cases hp : a.plot_cubes <;> simp [stPlots, hp]

theorem stNBO_preserves (a : QCArgs) (st st' : BuildSt)
    (hok : stNBO a st = .ok st') :
    st'.mypcm = st.mypcm ∧ st'.mysolvent = st.mysolvent ∧ st'.mysmx = st.mysmx ∧
    st'.myvdw = st.myvdw ∧ st'.myplots = st.myplots ∧ st'.myopt = st.myopt ∧
    st'.myscan = st.myscan ∧ st'.mysvp = st.mysvp ∧
    st'.mypcm_nonels = st.mypcm_nonels ∧ st'.my_geom_opt = st.my_geom_opt ∧
    st'.new_geom_opt_final = st.new_geom_opt_final ∧ st'.aliasRho = st.aliasRho := by
  cases hp : a.nbo_params with
  | none => simp only [stNBO, hp, Except.ok.injEq] at hok; subst hok; simp
  | some d =>
      simp only [stNBO, hp] at hok
      cases hv : getKV d "version" with
      | none => simp only [hv, Except.ok.injEq] at hok; subst hok; simp
      | some v =>
          simp only [hv] at hok
          split at hok
          · simp only [Except.ok.injEq] at hok; subst hok; simp
          · exact absurd hok (by simp)

theorem stGeom_preserves (a : QCArgs) (st st' : BuildSt)
    (hok : stGeom a st = .ok st') :
    st'.mypcm = st.mypcm ∧ st'.mysolvent = st.mysolvent ∧ st'.mysmx = st.mysmx ∧
    st'.myvdw = st.myvdw ∧ st'.myplots = st.myplots ∧ st'.myopt = st.myopt ∧
    st'.myscan = st.myscan ∧ st'.mysvp = st.mysvp ∧
    st'.mypcm_nonels = st.mypcm_nonels ∧ st'.mynbo = st.mynbo ∧
    st'.aliasRho = st.aliasRho := by
  cases hp : a.new_geom_opt with
  | none => simp only [stGeom, hp, Except.ok.injEq] at hok; subst hok; simp
  | some d =>
      simp only [stGeom, hp] at hok
      cases hv : getKV d "maxiter" with
      | none => simp only [hv, Except.ok.injEq] at hok; subst hok; simp
      | some m =>
          simp only [hv] at hok
          split at hok
          · exact absurd hok (by simp)
          · simp only [Except.ok.injEq] at hok; subst hok; simp

theorem stCMIRS_preserves (a : QCArgs) (table : CMIRSTable) (st st' : BuildSt)
    (hok : stCMIRS a table st = .ok st') :
    st'.mypcm = st.mypcm ∧ st'.mysolvent = st.mysolvent ∧ st'.mysmx = st.mysmx ∧
    st'.myvdw = st.myvdw ∧ st'.myplots = st.myplots ∧ st'.myopt = st.myopt ∧
    st'.myscan = st.myscan ∧ st'.mynbo = st.mynbo ∧
    st'.my_geom_opt = st.my_geom_opt ∧
    st'.new_geom_opt_final = st.new_geom_opt_final := by
  cases hp : a.cmirs_solvent with
  | none => simp only [stCMIRS, hp, Except.ok.injEq] at hok; subst hok; simp
  | some solv =>
      simp only [stCMIRS, hp] at hok
      cases hq : getKV table solv with
      | none => simp [hq] at hok
      | some entry =>
          simp only [hq] at hok
          split at hok
          · exact absurd hok (by simp)
          · split at hok
            · exact absurd hok (by simp)
            · simp only [Except.ok.injEq] at hok; subst hok; simp

theorem stSMD_preserves (a : QCArgs) (st st' : BuildSt)
    (hok : stSMD a st = .ok st') :
    st'.mypcm = st.mypcm ∧ st'.mysolvent = st.mysolvent ∧ st'.myvdw = st.myvdw ∧
    st'.myplots = st.myplots ∧ st'.myopt = st.myopt ∧ st'.myscan = st.myscan ∧
    st'.mysvp = st.mysvp ∧ st'.mypcm_nonels = st.mypcm_nonels ∧
    st'.mynbo = st.mynbo ∧ st'.my_geom_opt = st.my_geom_opt ∧
    st'.new_geom_opt_final = st.new_geom_opt_final ∧ st'.aliasRho = st.aliasRho := by
  cases hp : a.smd_solvent with
  | none => simp only [stSMD, hp, Except.ok.injEq] at hok; subst hok; simp
  | some solv =>
      simp only [stSMD, hp] at hok
      split at hok
      · exact absurd hok (by simp)
      · simp only [Except.ok.injEq] at hok; subst hok; simp

theorem stPCM_preserves (a : QCArgs) (st : BuildSt) :
    (stPCM a st).mysmx = st.mysmx ∧ (stPCM a st).myvdw = st.myvdw ∧
    (stPCM a st).myplots = st.myplots ∧ (stPCM a st).myopt = st.myopt ∧
    (stPCM a st).myscan = st.myscan ∧ (stPCM a st).mysvp = st.mysvp ∧
    (stPCM a st).mypcm_nonels = st.mypcm_nonels ∧ (stPCM a st).mynbo = st.mynbo ∧
    (stPCM a st).my_geom_opt = st.my_geom_opt ∧
    (stPCM a st).new_geom_opt_final = st.new_geom_opt_final ∧
    (stPCM a st).aliasRho = st.aliasRho := by
  cases hp : a.pcm_dielectric <;> simp [stPCM, hp]

theorem stISOSVP_preserves (a : QCArgs) (st : BuildSt) :
    (stISOSVP a st).mypcm = st.mypcm ∧ (stISOSVP a st).mysolvent = st.mysolvent ∧
    (stISOSVP a st).mysmx = st.mysmx ∧ (stISOSVP a st).myvdw = st.myvdw ∧
    (stISOSVP a st).myplots = st.myplots ∧ (stISOSVP a st).myopt = st.myopt ∧
    (stISOSVP a st).myscan = st.myscan ∧
    (stISOSVP a st).mypcm_nonels = st.mypcm_nonels ∧ (stISOSVP a st).mynbo = st.mynbo ∧
    (stISOSVP a st).my_geom_opt = st.my_geom_opt ∧
    (stISOSVP a st).new_geom_opt_final = st.new_geom_opt_final ∧
    (stISOSVP a st).aliasRho = st.aliasRho := by
  cases hp : a.isosvp_dielectric <;> simp [stISOSVP, hp]

theorem stISOSVP_sm (a : QCArgs) (st : BuildSt) (diel : String)
    (h : a.isosvp_dielectric = some diel) :
    getKV (stISOSVP a st).myrem "solvent_method" = some "isosvp" := by
  simp [stISOSVP, h, getKV_setKV]

theorem stSMD_sm (a : QCArgs) (st st' : BuildSt) (solv : String)
    (hok : stSMD a st = .ok st') (h : a.smd_solvent = some solv) :
    getKV st'.myrem "solvent_method" = some "smd" := by
  simp only [stSMD, h] at hok
  split at hok
  · exact absurd hok (by simp)
  · simp only [Except.ok.injEq] at hok
    subst hok
    simp [getKV_setKV]

theorem stCMIRS_sm (a : QCArgs) (table : CMIRSTable) (st st' : BuildSt) (solv : String)
    (hok : stCMIRS a table st = .ok st') (h : a.cmirs_solvent = some solv) :
    getKV st'.myrem "solvent_method" = some "isosvp" := by
  simp only [stCMIRS, h] at hok
  cases hq : getKV table solv with
  | none => simp [hq] at hok
  | some entry =>
      simp only [hq] at hok
      split at hok
      · exact absurd hok (by simp)
      · split at hok
        · exact absurd hok (by simp)
        · simp only [Except.ok.injEq] at hok
          subst hok
          simp [getKV_setKV]

/-- A successful pre-phase decomposes into its stages. -/
theorem buildPre_decomp (a : QCArgs) (table : CMIRSTable) (st : BuildSt)
    (hok : buildPre a table = .ok st) :
    ∃ rem1 st2 st3 st4,
      applyDftRung a.dft_rung (remSeed a) = .ok rem1 ∧
      ¬ solventCount a > 1 ∧
      stSMD a (stISOSVP a (stPCM a (initSt a (remWithGeomCycles a rem1)))) = .ok st2 ∧
      stCMIRS a table st2 = .ok st3 ∧
      stNBO a (stPlots a st3) = .ok st4 ∧
      stGeom a st4 = .ok st := by
  unfold buildPre at hok
  cases hd : applyDftRung a.dft_rung (remSeed a) with
  | error e => simp only [hd] at hok; exact absurd hok (by simp)
  | ok rem1 =>
      simp only [hd] at hok
      split at hok
      · exact absurd hok (by simp)
      · cases hs : stSMD a (stISOSVP a (stPCM a (initSt a (remWithGeomCycles a rem1)))) with
        | error e => simp only [hs] at hok; exact absurd hok (by simp)
        | ok st2 =>
            simp only [hs] at hok
            cases hc : stCMIRS a table st2 with
            | error e => simp only [hc] at hok; exact absurd hok (by simp)
            | ok st3 =>
                simp only [hc] at hok
                cases hn : stNBO a (stPlots a st3) with
                | error e => simp only [hn] at hok; exact absurd hok (by simp)
                | ok st4 =>
                    simp only [hn] at hok
                    exact ⟨rem1, st2, st3, st4, rfl, by assumption, hs, hc, hn, hok⟩

/-- With no PCM dielectric, a successful pre-phase leaves the solvent section
empty (only the PCM branch ever writes it). -/
theorem buildPre_mysolvent (a : QCArgs) (table : CMIRSTable) (st : BuildSt)
    (hok : buildPre a table = .ok st) (hp : a.pcm_dielectric = none) :
    st.mysolvent = [] := by
  obtain ⟨rem1, st2, st3, st4, hd, hcnt, hs, hc, hn, hg⟩ := buildPre_decomp a table st hok
  rw [stPCM_none a _ hp] at hs
  have e2 := (stSMD_preserves a _ st2 hs).2.1
  have e3 := (stCMIRS_preserves a table st2 st3 hc).2.1
  have e4 := (stNBO_preserves a _ st4 hn).2.1
  have e5 := (stGeom_preserves a st4 st hg).2.1
  rw [e5, e4, (stPlots_preserves a st3).2.1, e3, e2]
  rw [(stISOSVP_preserves a _).2.1]
  rfl

/-- With no solvation model at all, a successful pre-phase leaves no
`solvent_method` key in `$rem`. -/
theorem buildPre_sm_none (a : QCArgs) (table : CMIRSTable) (st : BuildSt)
    (hok : buildPre a table = .ok st)
    (hp : a.pcm_dielectric = none) (hi : a.isosvp_dielectric = none)
    (hs : a.smd_solvent = none) (hc : a.cmirs_solvent = none) :
    getKV st.myrem "solvent_method" = none := by
  obtain ⟨rem1, st2, st3, st4, hd, hcnt, h2, h3, h4, h5⟩ := buildPre_decomp a table st hok
  rw [stPCM_none a _ hp, stISOSVP_none a _ hi, stSMD_none a _ hs] at h2
  injection h2 with e2
  subst e2
  rw [stCMIRS_none a table _ hc] at h3
  injection h3 with e3
  subst e3
  rw [stGeom_rem a st4 st _ h5 (by decide),
      stNBO_rem a _ st4 _ h4 (by decide) (by decide),
      stPlots_rem a _ _ (by decide) (by decide)]
  have : (initSt a (remWithGeomCycles a rem1)).myrem = remWithGeomCycles a rem1 := rfl
  rw [this, remWithGeomCycles_getKV a rem1 _ (by decide),
      applyDftRung_rem a.dft_rung (remSeed a) rem1 _ hd (by decide) (by decide)]
  exact getKV_remSeed a _ (by decide) (by decide) (by decide) (by decide) (by decide)
    (by decide) (by decide) (by decide) (by decide) (by decide) (by decide)

/-- With exactly one non-PCM solvation model active, a successful pre-phase
sets `solvent_method` to a value other than `"pcm"`. -/
theorem buildPre_sm_nonpcm (a : QCArgs) (table : CMIRSTable) (st : BuildSt)
    (hok : buildPre a table = .ok st)
    (hp : a.pcm_dielectric = none) (h1 : solventCount a = 1) :
    ∃ m, getKV st.myrem "solvent_method" = some m ∧ ¬ m = "pcm" := by
  obtain ⟨rem1, st2, st3, st4, hd, hcnt, h2, h3, h4, h5⟩ := buildPre_decomp a table st hok
  have hpres34 :
      getKV st.myrem "solvent_method" = getKV st3.myrem "solvent_method" := by
    rw [stGeom_rem a st4 st _ h5 (by decide),
        stNBO_rem a _ st4 _ h4 (by decide) (by decide),
        stPlots_rem a _ _ (by decide) (by decide)]
  cases hcm : a.cmirs_solvent with
  | some solv =>
      exact ⟨"isosvp", by rw [hpres34, stCMIRS_sm a table st2 st3 solv h3 hcm], by decide⟩
  | none =>
      rw [stCMIRS_none a table _ hcm] at h3
      injection h3 with e3
      subst e3
      cases hsm : a.smd_solvent with
      | some solv =>
          exact ⟨"smd", by rw [hpres34, stSMD_sm a _ _ solv h2 hsm], by decide⟩
      | none =>
          rw [stPCM_none a _ hp, stSMD_none a _ hsm] at h2
          injection h2 with e2
          subst e2
          cases hiso : a.isosvp_dielectric with
          | some diel =>
              exact ⟨"isosvp", by rw [hpres34, stISOSVP_sm a _ diel hiso], by decide⟩
          | none =>
              exfalso
              rw [solventCount, hp, hiso, hsm, hcm] at h1
              simp at h1

/-- A successful pre-phase leaves no `scf_convergence` key in `$rem`. -/
theorem buildPre_scf_convergence (a : QCArgs) (table : CMIRSTable) (st : BuildSt)
    (hok : buildPre a table = .ok st) :
    getKV st.myrem "scf_convergence" = none := by
  obtain ⟨rem1, hd, he⟩ :=
    buildPre_rem a table st "scf_convergence" hok (by decide) (by decide) (by decide)
      (by decide) (by decide) (by decide) (by decide) (by decide) (by decide)
  rw [he, applyDftRung_rem a.dft_rung (remSeed a) rem1 "scf_convergence" hd (by decide) (by decide)]
  exact getKV_remSeed a "scf_convergence" (by decide) (by decide) (by decide) (by decide)
    (by decide) (by decide) (by decide) (by decide) (by decide) (by decide) (by decide)

/-- `finalize` always succeeds when `$rem` carries no `scf_convergence` key. -/
theorem finalize_ok_exists (a : QCArgs) (table : CMIRSTable) (st : BuildSt)
    (ws : List String) (hscf : getKV st.myrem "scf_convergence" = none) :
    ∃ r, finalize a table st ws = .ok r := by
  have hfr : ∃ rem', finalRem a st.myrem = .ok rem' := by
    unfold finalRem
    by_cases hx : a.extra_scf_print
    · have : getKV (setKV st.myrem "scf_final_print" "3") "scf_convergence" = none := by
        rw [getKV_setKV]
        simp [hscf]
      simp [hx, this]
    · simp [hx]
  obtain ⟨rem', hfr⟩ := hfr
  unfold finalize
  rw [hfr]
  exact ⟨_, rfl⟩

/-- A successful pre-phase plus no overrides gives a successful build whose
result is the finalization of the pre-phase state. -/
theorem qchemBuild_ok_of (a : QCArgs) (table : CMIRSTable) (st : BuildSt)
    (hbp : buildPre a table = .ok st) (hov : a.overwrite_inputs = none) :
    ∃ r, qchemBuild a table = .ok r ∧ finalize a table st [] = .ok r := by
  obtain ⟨r, hr⟩ :=
    finalize_ok_exists a table st [] (buildPre_scf_convergence a table st hbp)
  refine ⟨r, ?_, hr⟩
  unfold qchemBuild
  rw [hbp, hov]
  simp only [Option.getD_none, applyOverrides_nil]
  exact hr

end Helpers

/-- C1: if two or more of the four solvation selectors are set (and the DFT
rung is in range, whose check precedes in the source), the build fails with
the conflicting-solvation `ValueError` — regardless of everything else,
including values that would make the individual solvation branches fail
later, which shows the check fires before any solvation section is built. -/
theorem c1_two_solvation_models_conflict (a : QCArgs) (table : CMIRSTable)
    (hrung : a.dft_rung = 1 ∨ a.dft_rung = 2 ∨ a.dft_rung = 3 ∨ a.dft_rung = 4 ∨ a.dft_rung = 5)
    (htwo : 2 ≤ solventCount a) :
    qchemBuild a table = .error (.valueError conflictMsg) := by
  obtain ⟨rem1, hd⟩ : ∃ r, applyDftRung a.dft_rung (remSeed a) = .ok r := by
    rcases hrung with h|h|h|h|h <;> rw [h] <;> exact ⟨_, rfl⟩
  have hgt : solventCount a > 1 := htwo
  unfold qchemBuild buildPre
  simp [hd, hgt]

/-- C1 witness: a concrete build with both a PCM dielectric and an SMD solvent
(and, notably, `smd_solvent = "custom"` without `custom_smd`, which would fail
with the custom-SMD error if the conflict check did not fire first). -/
theorem c1_witness :
    ((baseArgs.pcm_dielectric = none ∨ True) ∧
      qchemBuild { baseArgs with pcm_dielectric := some "78.0", smd_solvent := some "custom" }
        CMIRS_SETTINGS = .error (.valueError conflictMsg)) :=
  ⟨Or.inr trivial,
   c1_two_solvation_models_conflict
     { baseArgs with pcm_dielectric := some "78.0", smd_solvent := some "custom" }
     CMIRS_SETTINGS (by decide) (by decide)⟩

/-- C7: without overrides, the `$rem` functional keyword of a successful build
matches the fixed DFT-rung table (1 → b3lyp, 2 → b3lyp + D3_BJ, 3 → wb97xd,
4 → wb97xv, 5 → wb97mv), the dispersion flag is present only for rung 2, and
a rung outside 1–5 always fails with the invalid-parameter `ValueError`. -/
theorem c7_dft_rung_table (a : QCArgs) (table : CMIRSTable) :
    (a.overwrite_inputs = none →
      ∀ r, qchemBuild a table = .ok r →
        ((a.dft_rung = 1 → getKV r.rem "method" = some "b3lyp" ∧ getKV r.rem "dft_D" = none) ∧
         (a.dft_rung = 2 → getKV r.rem "method" = some "b3lyp" ∧ getKV r.rem "dft_D" = some "D3_BJ") ∧
         (a.dft_rung = 3 → getKV r.rem "method" = some "wb97xd" ∧ getKV r.rem "dft_D" = none) ∧
         (a.dft_rung = 4 → getKV r.rem "method" = some "wb97xv" ∧ getKV r.rem "dft_D" = none) ∧
         (a.dft_rung = 5 → getKV r.rem "method" = some "wb97mv" ∧ getKV r.rem "dft_D" = none))) ∧
    (¬(a.dft_rung = 1 ∨ a.dft_rung = 2 ∨ a.dft_rung = 3 ∨ a.dft_rung = 4 ∨ a.dft_rung = 5) →
      qchemBuild a table = .error (.valueError dftRungMsg)) := by
  constructor
  · intro hov r hok
    obtain ⟨st, st', ws, hbp, hovr, hfin⟩ := qchemBuild_decomp a table r hok
    rw [hov] at hovr
    simp only [Option.getD_none, applyOverrides_nil, Except.ok.injEq, Prod.mk.injEq] at hovr
    obtain ⟨hst, hws⟩ := hovr
    subst hst
    have hmeth :
        ∃ rem1, applyDftRung a.dft_rung (remSeed a) = .ok rem1 ∧
          getKV st.myrem "method" = getKV rem1 "method" :=
      buildPre_rem a table st "method" hbp (by decide) (by decide) (by decide) (by decide)
        (by decide) (by decide) (by decide) (by decide) (by decide)
    have hdisp :
        ∃ rem1, applyDftRung a.dft_rung (remSeed a) = .ok rem1 ∧
          getKV st.myrem "dft_D" = getKV rem1 "dft_D" :=
      buildPre_rem a table st "dft_D" hbp (by decide) (by decide) (by decide) (by decide)
        (by decide) (by decide) (by decide) (by decide) (by decide)
    obtain ⟨rem1, hd1, he1⟩ := hmeth
    obtain ⟨rem2, hd2, he2⟩ := hdisp
    rw [hd1] at hd2
    have hrem12 : rem1 = rem2 := by injection hd2
    subst hrem12
    have hfm : getKV r.rem "method" = getKV rem1 "method" := by
      rw [finalize_rem a table st ws r "method" hfin (by decide) (by decide), he1]
    have hfd : getKV r.rem "dft_D" = getKV rem1 "dft_D" := by
      rw [finalize_rem a table st ws r "dft_D" hfin (by decide) (by decide), he2]
    have hseed1 : getKV (remSeed a) "dft_D" = none :=
      getKV_remSeed a "dft_D" (by decide) (by decide) (by decide) (by decide) (by decide)
        (by decide) (by decide) (by decide) (by decide) (by decide) (by decide)
    refine ⟨?_, ?_, ?_, ?_, ?_⟩ <;> intro hr <;> rw [hr] at hd1 <;>
      simp only [applyDftRung] at hd1 <;> norm_num at hd1 <;> subst hd1 <;>
      rw [hfm, hfd] <;> simp [getKV_setKV, hseed1]
  · intro h
    push_neg at h
    obtain ⟨n1, n2, n3, n4, n5⟩ := h
    unfold qchemBuild buildPre applyDftRung
    simp [n1, n2, n3, n4, n5]

/-- C7 witness: rung 2 yields b3lyp with the D3_BJ dispersion flag, and
rung 0 fails with the invalid-parameter error. -/
theorem c7_witness :
    (qchemBuild { baseArgs with dft_rung := 2 } CMIRS_SETTINGS).map
        (fun r => (getKV r.rem "method", getKV r.rem "dft_D")) =
      .ok (some "b3lyp", some "D3_BJ") ∧
    qchemBuild { baseArgs with dft_rung := 0 } CMIRS_SETTINGS =
      .error (.valueError dftRungMsg) := by
  constructor
  · have hIsOk : exceptIsOk (qchemBuild { baseArgs with dft_rung := 2 } CMIRS_SETTINGS) = true := by
      decide
    cases h : qchemBuild { baseArgs with dft_rung := 2 } CMIRS_SETTINGS with
    | error e => rw [h] at hIsOk; simp [exceptIsOk] at hIsOk
    | ok r =>
        have hm :=
          ((c7_dft_rung_table { baseArgs with dft_rung := 2 } CMIRS_SETTINGS).1 rfl r h).2.1 rfl
        simp [Except.map, hm.1, hm.2]
  · exact (c7_dft_rung_table { baseArgs with dft_rung := 0 } CMIRS_SETTINGS).2 (by decide)

/-- C4 counterexample: the claim says an unsupported CMIRS solvent fails with a
specific invalid-parameter configuration error; in fact the build dies with an
unclassified `KeyError` from the bare `CMIRS_SETTINGS[...]` lookup. -/
theorem c4_counterexample :
    qchemBuild { baseArgs with cmirs_solvent := some "toluene" } CMIRS_SETTINGS =
      .error (.keyError "toluene") := by
  rfl

/-- C4 amended: a CMIRS solvent outside the five supported names always makes
the build fail, but with the unclassified `KeyError` naming the solvent (the
raw table lookup), not a classified invalid-parameter error. -/
theorem c4_unsupported_cmirs_keyerror (a : QCArgs) (s : String)
    (hrung : a.dft_rung = 1 ∨ a.dft_rung = 2 ∨ a.dft_rung = 3 ∨ a.dft_rung = 4 ∨ a.dft_rung = 5)
    (hp : a.pcm_dielectric = none) (hi : a.isosvp_dielectric = none)
    (hs : a.smd_solvent = none) (hc : a.cmirs_solvent = some s)
    (h1 : ¬ s = "water") (h2 : ¬ s = "benzene") (h3 : ¬ s = "cyclohexane")
    (h4 : ¬ s = "dimethyl sulfoxide") (h5 : ¬ s = "acetonitrile") :
    qchemBuild a CMIRS_SETTINGS = .error (.keyError s) := by
  obtain ⟨rem1, hd⟩ : ∃ r, applyDftRung a.dft_rung (remSeed a) = .ok r := by
    rcases hrung with h|h|h|h|h <;> rw [h] <;> exact ⟨_, rfl⟩
  have hcount : ¬ solventCount a > 1 := by
    simp [solventCount, hp, hi, hs, hc]
  have htab : getKV CMIRS_SETTINGS s = none := by
    have g1 : ¬ "water" = s := fun h => h1 h.symm
    have g2 : ¬ "benzene" = s := fun h => h2 h.symm
    have g3 : ¬ "cyclohexane" = s := fun h => h3 h.symm
    have g4 : ¬ "dimethyl sulfoxide" = s := fun h => h4 h.symm
    have g5 : ¬ "acetonitrile" = s := fun h => h5 h.symm
    simp [CMIRS_SETTINGS, getKV, g1, g2, g3, g4, g5]
  unfold qchemBuild buildPre
  rw [hd]
  simp only [hcount, if_false]
  rw [stPCM_none a _ hp, stISOSVP_none a _ hi, stSMD_none a _ hs]
  simp [stCMIRS, hc, htab]

/-- C4 witness for the amended statement: "toluene" on an otherwise benign
build produces exactly the `KeyError`. -/
theorem c4_witness :
    qchemBuild { baseArgs with cmirs_solvent := some "toluene" } CMIRS_SETTINGS =
      .error (.keyError "toluene") :=
  c4_unsupported_cmirs_keyerror { baseArgs with cmirs_solvent := some "toluene" } "toluene"
    (by decide) (by decide) (by decide) (by decide) (by decide)
    (by decide) (by decide) (by decide) (by decide) (by decide)

/-- C8: with SMD solvent `"custom"` (and no other solvation model), a missing
`custom_smd` fails with the user-defined-SMD `ValueError`; a supplied
`custom_smd` string (with no other optional feature to fail) yields a
successful build whose `$smx` section maps `solvent` to `"other"`. -/
theorem c8_custom_smd (a : QCArgs) (table : CMIRSTable)
    (hrung : a.dft_rung = 1 ∨ a.dft_rung = 2 ∨ a.dft_rung = 3 ∨ a.dft_rung = 4 ∨ a.dft_rung = 5)
    (hp : a.pcm_dielectric = none) (hi : a.isosvp_dielectric = none)
    (hc : a.cmirs_solvent = none) (hsmd : a.smd_solvent = some "custom") :
    (a.custom_smd = none → qchemBuild a table = .error (.valueError customSmdMsg)) ∧
    (∀ cs, a.custom_smd = some cs → a.nbo_params = none → a.new_geom_opt = none →
      a.overwrite_inputs = none →
      ∃ r, qchemBuild a table = .ok r ∧ getKV r.smx "solvent" = some "other") := by
  obtain ⟨rem1, hd⟩ : ∃ r, applyDftRung a.dft_rung (remSeed a) = .ok r := by
    rcases hrung with h|h|h|h|h <;> rw [h] <;> exact ⟨_, rfl⟩
  have hcount : ¬ solventCount a > 1 := by
    simp [solventCount, hp, hi, hc, hsmd]
  constructor
  · intro hcs
    unfold qchemBuild buildPre
    rw [hd]
    simp only [hcount, if_false]
    rw [stPCM_none a _ hp, stISOSVP_none a _ hi]
    simp [stSMD, hsmd, hcs]
  · intro cs hcs hnbo hgeo hov
    have hbp :
        buildPre a table =
          .ok (stPlots a
            { initSt a (remWithGeomCycles a rem1) with
              mysmx := setKV (initSt a (remWithGeomCycles a rem1)).mysmx "solvent" "other",
              myrem := setKV (setKV (initSt a (remWithGeomCycles a rem1)).myrem
                "solvent_method" "smd") "ideriv" "1" }) := by
      unfold buildPre
      rw [hd]
      simp only [hcount, if_false]
      rw [stPCM_none a _ hp, stISOSVP_none a _ hi]
      have hsmdok :
          stSMD a (initSt a (remWithGeomCycles a rem1)) =
            .ok { initSt a (remWithGeomCycles a rem1) with
                  mysmx := setKV (initSt a (remWithGeomCycles a rem1)).mysmx "solvent" "other",
                  myrem := setKV (setKV (initSt a (remWithGeomCycles a rem1)).myrem
                    "solvent_method" "smd") "ideriv" "1" } := by
        simp [stSMD, hsmd, hcs]
      rw [hsmdok]
      simp only [stCMIRS_none, stNBO_none, stGeom_none, hc, hnbo, hgeo]
    obtain ⟨r, hr, hfin⟩ := qchemBuild_ok_of a table _ hbp hov
    refine ⟨r, hr, ?_⟩
    have hsmx := (finalize_fields a table _ [] r hfin).2.2.2.1
    rw [hsmx, (stPlots_preserves a _).2.2.1]
    simp [initSt, getKV_setKV, getKV]

/-- C8 witness: concrete builds for both halves. -/
theorem c8_witness :
    qchemBuild { baseArgs with smd_solvent := some "custom" } CMIRS_SETTINGS =
      .error (.valueError customSmdMsg) ∧
    (qchemBuild { baseArgs with
        smd_solvent := some "custom",
        custom_smd := some "90.00,1.415,0.00,0.735,20.2,0.00,0.00" } CMIRS_SETTINGS).map
      (fun r => getKV r.smx "solvent") = .ok (some "other") := by
  constructor
  · exact (c8_custom_smd { baseArgs with smd_solvent := some "custom" } CMIRS_SETTINGS
      (by decide) (by decide) (by decide) (by decide) (by decide)).1 rfl
  · obtain ⟨r, hr, hsx⟩ :=
      (c8_custom_smd { baseArgs with
          smd_solvent := some "custom",
          custom_smd := some "90.00,1.415,0.00,0.735,20.2,0.00,0.00" } CMIRS_SETTINGS
        (by decide) (by decide) (by decide) (by decide) (by decide)).2
        "90.00,1.415,0.00,0.735,20.2,0.00,0.00" rfl rfl rfl rfl
    rw [hr]
    simp [Except.map, hsx]

/-- C10: `smd_solvent="other"` is treated exactly like the documented
`"custom"`: with no `custom_smd` both fail with the same user-defined-SMD
`ValueError`, and the write step emits the auxiliary `solvent_data` file
(containing `custom_smd` verbatim) for `"other"` exactly as for `"custom"`. -/
theorem c10_smd_other_like_custom (a : QCArgs) (table : CMIRSTable)
    (hrung : a.dft_rung = 1 ∨ a.dft_rung = 2 ∨ a.dft_rung = 3 ∨ a.dft_rung = 4 ∨ a.dft_rung = 5)
    (hp : a.pcm_dielectric = none) (hi : a.isosvp_dielectric = none)
    (hc : a.cmirs_solvent = none) (hsmd : a.smd_solvent = some "other") :
    (a.custom_smd = none →
      qchemBuild a table = .error (.valueError customSmdMsg) ∧
      qchemBuild { a with smd_solvent := some "custom" } table =
        .error (.valueError customSmdMsg)) ∧
    solventDataFile a = some a.custom_smd ∧
    solventDataFile { a with smd_solvent := some "custom" } = some a.custom_smd := by
  obtain ⟨rem1, hd⟩ : ∃ r, applyDftRung a.dft_rung (remSeed a) = .ok r := by
    rcases hrung with h|h|h|h|h <;> rw [h] <;> exact ⟨_, rfl⟩
  refine ⟨fun hcs => ⟨?_, ?_⟩, ?_, ?_⟩
  · have hcount : ¬ solventCount a > 1 := by
      simp [solventCount, hp, hi, hc, hsmd]
    unfold qchemBuild buildPre
    rw [hd]
    simp only [hcount, if_false]
    rw [stPCM_none a _ hp, stISOSVP_none a _ hi]
    simp [stSMD, hsmd, hcs]
  · set a2 : QCArgs := { a with smd_solvent := some "custom" } with ha2
    have hp2 : a2.pcm_dielectric = none := hp
    have hi2 : a2.isosvp_dielectric = none := hi
    have hc2 : a2.cmirs_solvent = none := hc
    have hcs2 : a2.custom_smd = none := hcs
    have hsmd2 : a2.smd_solvent = some "custom" := rfl
    have hcount2 : ¬ solventCount a2 > 1 := by
      simp [solventCount, hp, hi, hc]
    have hd2 : applyDftRung a2.dft_rung (remSeed a2) = .ok rem1 := hd
    unfold qchemBuild buildPre
    rw [hd2]
    simp only [hcount2, if_false]
    rw [stPCM_none a2 _ hp2, stISOSVP_none a2 _ hi2]
    simp [stSMD, hsmd2, hcs]
  · simp [solventDataFile, hsmd]
  · simp [solventDataFile]

/-- C10 witness: the concrete `"other"` build fails exactly like the
`"custom"` one, and both emit the same auxiliary file content. -/
theorem c10_witness :
    qchemBuild { baseArgs with smd_solvent := some "other" } CMIRS_SETTINGS =
      .error (.valueError customSmdMsg) ∧
    solventDataFile { baseArgs with smd_solvent := some "other", custom_smd := some "x" } =
      some (some "x") := by
  constructor
  · exact ((c10_smd_other_like_custom { baseArgs with smd_solvent := some "other" }
      CMIRS_SETTINGS (by decide) (by decide) (by decide) (by decide) (by decide)).1 rfl).1
  · exact (c10_smd_other_like_custom
      { baseArgs with smd_solvent := some "other", custom_smd := some "x" }
      CMIRS_SETTINGS (by decide) (by decide) (by decide) (by decide) (by decide)).2.1

/-- The CMIRS branch with a supported solvent, in closed form: ISOSVP defaults
plus the solvent's dielectric and the two CMIRS flags in `$svp`, and the
contour-0.001 coefficient dict (aliased from the table) plus the two fixed
integration constants in the nonelectrostatic section. -/
theorem stCMIRS_some (a : QCArgs) (table : CMIRSTable) (st : BuildSt)
    (solv : String) (entry : CMIRSEntry)
    (hc : a.cmirs_solvent = some solv) (htab : getKV table solv = some entry) :
    stCMIRS a table st = .ok { st with
      myrem := setKV (setKV st.myrem "solvent_method" "isosvp") "gen_scfman" "false",
      mysvp := setKV (setKV (setKV svp_defaults "dielst" entry.dielst) "idefesr" "1") "ipnrf" "1",
      mypcm_nonels := setKV (setKV entry.e001 "delta" (some "7")) "gaulag_n" (some "40"),
      aliasRho := some "0.001" } := by
  have hrho :
      getKV (setKV (setKV (setKV svp_defaults "dielst" entry.dielst) "idefesr" "1") "ipnrf" "1")
        "rhoiso" = some "0.001" := by
    simp [getKV_setKV, svp_defaults, getKV]
  simp [stCMIRS, hc, htab, hrho, CMIRSEntry.contour]

/-- C2: a CMIRS benzene build succeeds and its rendered nonelectrostatic
section omits `gamma`, `c` and `d` (their table entries are null) while
carrying `a`, `b`, `solvrho` and the two fixed integration constants
`delta = 7` and `gaulag_n = 40`. -/
theorem c2_cmirs_benzene_nonels (a : QCArgs)
    (hrung : a.dft_rung = 1 ∨ a.dft_rung = 2 ∨ a.dft_rung = 3 ∨ a.dft_rung = 4 ∨ a.dft_rung = 5)
    (hp : a.pcm_dielectric = none) (hi : a.isosvp_dielectric = none)
    (hs : a.smd_solvent = none) (hc : a.cmirs_solvent = some "benzene")
    (hnbo : a.nbo_params = none) (hgeo : a.new_geom_opt = none)
    (hov : a.overwrite_inputs = none) :
    ∃ r, qchemBuild a CMIRS_SETTINGS = .ok r ∧
      getKV (renderSection r.pcm_nonels) "gamma" = none ∧
      getKV (renderSection r.pcm_nonels) "c" = none ∧
      getKV (renderSection r.pcm_nonels) "d" = none ∧
      getKV (renderSection r.pcm_nonels) "a" = some "-0.00522" ∧
      getKV (renderSection r.pcm_nonels) "b" = some "0.01294" ∧
      getKV (renderSection r.pcm_nonels) "solvrho" = some "0.0421" ∧
      getKV (renderSection r.pcm_nonels) "delta" = some "7" ∧
      getKV (renderSection r.pcm_nonels) "gaulag_n" = some "40" := by
  obtain ⟨rem1, hd⟩ : ∃ rr, applyDftRung a.dft_rung (remSeed a) = .ok rr := by
    rcases hrung with h|h|h|h|h <;> rw [h] <;> exact ⟨_, rfl⟩
  have hcount : ¬ solventCount a > 1 := by
    simp [solventCount, hp, hi, hs, hc]
  have htab :
      getKV CMIRS_SETTINGS "benzene" =
        some { e001 := [("a", some "-0.00522"), ("b", some "0.01294"), ("c", none),
                        ("d", none), ("gamma", none), ("solvrho", some "0.0421")],
               e0005 := [("a", some "-0.00572"), ("b", some "0.01116"), ("c", none),
                         ("d", none), ("gamma", none), ("solvrho", some "0.0421")],
               dielst := "2.28" } := rfl
  have hbp :
      buildPre a CMIRS_SETTINGS =
        .ok (stPlots a
          { initSt a (remWithGeomCycles a rem1) with
            myrem := setKV (setKV (initSt a (remWithGeomCycles a rem1)).myrem
              "solvent_method" "isosvp") "gen_scfman" "false",
            mysvp := setKV (setKV (setKV svp_defaults "dielst" "2.28") "idefesr" "1") "ipnrf" "1",
            mypcm_nonels :=
              setKV (setKV [("a", some "-0.00522"), ("b", some "0.01294"), ("c", none),
                ("d", none), ("gamma", none), ("solvrho", some "0.0421")]
                "delta" (some "7")) "gaulag_n" (some "40"),
            aliasRho := some "0.001" }) := by
    unfold buildPre
    rw [hd]
    simp only [hcount, if_false]
    rw [stPCM_none a _ hp, stISOSVP_none a _ hi]
    simp only [stSMD_none, hs]
    rw [stCMIRS_some a CMIRS_SETTINGS _ "benzene" _ hc htab]
    simp only [stNBO_none, stGeom_none, hnbo, hgeo]
  obtain ⟨r, hr, hfin⟩ := qchemBuild_ok_of a CMIRS_SETTINGS _ hbp hov
  refine ⟨r, hr, ?_⟩
  have hnr := (finalize_fields a CMIRS_SETTINGS _ [] r hfin).2.2.2.2.2.2.2.2.1
  rw [hnr, (stPlots_preserves a _).2.2.2.2.2.2.2.1]
  exact ⟨rfl, rfl, rfl, rfl, rfl, rfl, rfl, rfl⟩

/-- C2 witness: the concrete benzene build. -/
theorem c2_witness :
    (qchemBuild { baseArgs with cmirs_solvent := some "benzene" } CMIRS_SETTINGS).map
      (fun r =>
        (getKV (renderSection r.pcm_nonels) "gamma", getKV (renderSection r.pcm_nonels) "c",
         getKV (renderSection r.pcm_nonels) "d", getKV (renderSection r.pcm_nonels) "a",
         getKV (renderSection r.pcm_nonels) "delta", getKV (renderSection r.pcm_nonels) "gaulag_n")) =
      .ok (none, none, none, some "-0.00522", some "7", some "40") := by
  obtain ⟨r, hr, hx⟩ :=
    c2_cmirs_benzene_nonels { baseArgs with cmirs_solvent := some "benzene" }
      (by decide) (by decide) (by decide) (by decide) (by decide) (by decide)
      (by decide) (by decide)
  rw [hr]
  simp only [Except.map]
  rw [hx.1, hx.2.1, hx.2.2.1, hx.2.2.2.1, hx.2.2.2.2.2.2.1, hx.2.2.2.2.2.2.2]

/-- C5: with the new optimizer requested (and no other optional feature in
play), an explicit `maxiter` different from `str(geom_opt_max_cycles)` fails
with the cycle-mismatch `RuntimeError`; an equal `maxiter` succeeds with the
caller's dict as the `$geom_opt` section; an omitted `maxiter` succeeds with
`maxiter` auto-derived equal to the cycle limit in that section. -/
theorem c5_new_geom_opt_maxiter (a : QCArgs) (table : CMIRSTable) (d : Sec)
    (hrung : a.dft_rung = 1 ∨ a.dft_rung = 2 ∨ a.dft_rung = 3 ∨ a.dft_rung = 4 ∨ a.dft_rung = 5)
    (hp : a.pcm_dielectric = none) (hi : a.isosvp_dielectric = none)
    (hs : a.smd_solvent = none) (hc : a.cmirs_solvent = none)
    (hnbo : a.nbo_params = none) (hov : a.overwrite_inputs = none)
    (hgeo : a.new_geom_opt = some d) :
    (∀ m, getKV d "maxiter" = some m → ¬ m = toString a.geom_opt_max_cycles →
      qchemBuild a table = .error (.runtimeError maxiterMsg)) ∧
    (∀ m, getKV d "maxiter" = some m → m = toString a.geom_opt_max_cycles →
      ∃ r, qchemBuild a table = .ok r ∧ r.geom_opt = some d) ∧
    (getKV d "maxiter" = none →
      ∃ r, qchemBuild a table = .ok r ∧
        r.geom_opt = some (setKV d "maxiter" (toString a.geom_opt_max_cycles)) ∧
        getKV (setKV d "maxiter" (toString a.geom_opt_max_cycles)) "maxiter" =
          some (toString a.geom_opt_max_cycles)) := by
  obtain ⟨rem1, hd⟩ : ∃ rr, applyDftRung a.dft_rung (remSeed a) = .ok rr := by
    rcases hrung with h|h|h|h|h <;> rw [h] <;> exact ⟨_, rfl⟩
  have hcount : ¬ solventCount a > 1 := by
    simp [solventCount, hp, hi, hs, hc]
  refine ⟨?_, ?_, ?_⟩
  · intro m hm hne
    have hbp : buildPre a table = .error (.runtimeError maxiterMsg) := by
      unfold buildPre
      rw [hd]
      simp only [hcount, if_false]
      rw [stPCM_none a _ hp, stISOSVP_none a _ hi]
      simp only [stSMD_none, hs, stCMIRS_none, hc, stNBO_none, hnbo]
      simp [stGeom, hgeo, hm, hne]
    unfold qchemBuild
    simp [hbp]
  · intro m hm hmeq
    have hbp :
        buildPre a table =
          .ok { stPlots a (initSt a (remWithGeomCycles a rem1)) with
                myrem := setKV (stPlots a (initSt a (remWithGeomCycles a rem1))).myrem
                  "geom_opt2" "3",
                my_geom_opt := some d, new_geom_opt_final := some d } := by
      unfold buildPre
      rw [hd]
      simp only [hcount, if_false]
      rw [stPCM_none a _ hp, stISOSVP_none a _ hi]
      simp only [stSMD_none, hs, stCMIRS_none, hc, stNBO_none, hnbo]
      simp [stGeom, hgeo, hm, hmeq]
    obtain ⟨r, hr, hfin⟩ := qchemBuild_ok_of a table _ hbp hov
    exact ⟨r, hr, (finalize_fields a table _ [] r hfin).2.2.2.2.2.2.2.2.2.2.1⟩
  · intro hm
    have hbp :
        buildPre a table =
          .ok { stPlots a (initSt a (remWithGeomCycles a rem1)) with
                myrem := setKV (stPlots a (initSt a (remWithGeomCycles a rem1))).myrem
                  "geom_opt2" "3",
                my_geom_opt := some (setKV d "maxiter" (toString a.geom_opt_max_cycles)),
                new_geom_opt_final :=
                  some (setKV d "maxiter" (toString a.geom_opt_max_cycles)) } := by
      unfold buildPre
      rw [hd]
      simp only [hcount, if_false]
      rw [stPCM_none a _ hp, stISOSVP_none a _ hi]
      simp only [stSMD_none, hs, stCMIRS_none, hc, stNBO_none, hnbo]
      simp [stGeom, hgeo, hm]
    obtain ⟨r, hr, hfin⟩ := qchemBuild_ok_of a table _ hbp hov
    refine ⟨r, hr, (finalize_fields a table _ [] r hfin).2.2.2.2.2.2.2.2.2.2.1, ?_⟩
    simp [getKV_setKV]

/-- C5 witness: the three concrete behaviors at the default cycle limit 200. -/
theorem c5_witness :
    qchemBuild { baseArgs with new_geom_opt := some [("maxiter", "300")] } CMIRS_SETTINGS =
      .error (.runtimeError maxiterMsg) ∧
    (qchemBuild { baseArgs with new_geom_opt := some [("maxiter", "200")] } CMIRS_SETTINGS).map
      (fun r => r.geom_opt) = .ok (some [("maxiter", "200")]) ∧
    (qchemBuild { baseArgs with new_geom_opt := some [] } CMIRS_SETTINGS).map
      (fun r => r.geom_opt) = .ok (some [("maxiter", "200")]) := by
  refine ⟨?_, ?_, ?_⟩
  · exact (c5_new_geom_opt_maxiter { baseArgs with new_geom_opt := some [("maxiter", "300")] }
      CMIRS_SETTINGS [("maxiter", "300")] (by decide) (by decide) (by decide) (by decide)
      (by decide) (by decide) (by decide) rfl).1 "300" (by decide) (by decide)
  · obtain ⟨r, hr, hg⟩ :=
      (c5_new_geom_opt_maxiter { baseArgs with new_geom_opt := some [("maxiter", "200")] }
        CMIRS_SETTINGS [("maxiter", "200")] (by decide) (by decide) (by decide) (by decide)
        (by decide) (by decide) (by decide) rfl).2.1 "200" (by decide) (by decide)
    rw [hr]
    simp [Except.map, hg]
  · obtain ⟨r, hr, hg, _⟩ :=
      (c5_new_geom_opt_maxiter { baseArgs with new_geom_opt := some [] }
        CMIRS_SETTINGS [] (by decide) (by decide) (by decide) (by decide)
        (by decide) (by decide) (by decide) rfl).2.2 (by decide)
    rw [hr]
    simp [Except.map, hg]
    rfl

/-- C6 counterexample: with no solvation model active, an override set
containing a `solvent` section makes the build crash with
`KeyError("solvent_method")` instead of warning and completing. -/
theorem c6_counterexample :
    qchemBuild { baseArgs with
      overwrite_inputs := some [("solvent", [("dielectric", "20")])] } CMIRS_SETTINGS =
      .error (.keyError "solvent_method") := by
  rfl

/-- C6 amended: when some solvation model is active (its method is then never
`"pcm"` here since PCM is off), a `solvent` override on a build that passed the
pre-phase emits the non-fatal advisory warning, merges the override, and the
build completes; but when no solvation model is active at all, the same
override makes the build die with `KeyError("solvent_method")` before the
warning is ever issued. -/
theorem c6_solvent_override_behavior (a : QCArgs) (table : CMIRSTable)
    (d nd : Sec) (rest : List (String × Sec)) (st : BuildSt)
    (hbp : buildPre a table = .ok st)
    (hp : a.pcm_dielectric = none)
    (hnd : lowerAndCheckUnique d = .ok nd) :
    (solventCount a = 1 → a.overwrite_inputs = some [("solvent", d)] →
      ∃ r, qchemBuild a table = .ok r ∧ r.warnings = [solventWarnMsg] ∧
        r.solvent = mergeKVs [] nd) ∧
    (solventCount a = 0 → a.overwrite_inputs = some (("solvent", d) :: rest) →
      qchemBuild a table = .error (.keyError "solvent_method")) := by
  constructor
  · intro hone hov
    obtain ⟨m, hm, hmp⟩ := buildPre_sm_nonpcm a table st hbp hp hone
    have hsolv := buildPre_mysolvent a table st hbp hp
    have happly :
        applyItem a table st ("solvent", d) =
          .ok ({ st with mysolvent := mergeKVs st.mysolvent nd }, [solventWarnMsg]) := by
      unfold applyItem
      simp [hnd, hm, hmp]
    have hao :
        applyOverrides a table st [] [("solvent", d)] =
          .ok ({ st with mysolvent := mergeKVs st.mysolvent nd }, [solventWarnMsg]) := by
      unfold applyOverrides
      rw [happly]
      rfl
    have hscf :
        getKV ({ st with mysolvent := mergeKVs st.mysolvent nd } : BuildSt).myrem
          "scf_convergence" = none :=
      buildPre_scf_convergence a table st hbp
    obtain ⟨r, hfin⟩ :=
      finalize_ok_exists a table { st with mysolvent := mergeKVs st.mysolvent nd }
        [solventWarnMsg] hscf
    refine ⟨r, ?_, ?_, ?_⟩
    · unfold qchemBuild
      rw [hbp, hov]
      simp only [Option.getD_some]
      rw [hao]
      exact hfin
    · exact (finalize_fields a table _ _ r hfin).2.2.2.2.2.2.2.2.2.2.2.1
    · rw [(finalize_fields a table _ _ r hfin).2.2.1]
      simp only []
      rw [hsolv]
  · intro hzero hov
    have hi : a.isosvp_dielectric = none := by
      cases hx : a.isosvp_dielectric with
      | none => rfl
      | some v => rw [solventCount, hx] at hzero; simp [List.countP_cons] at hzero
    have hs : a.smd_solvent = none := by
      cases hx : a.smd_solvent with
      | none => rfl
      | some v => rw [solventCount, hx] at hzero; simp [List.countP_cons] at hzero
    have hc : a.cmirs_solvent = none := by
      cases hx : a.cmirs_solvent with
      | none => rfl
      | some v => rw [solventCount, hx] at hzero; simp [List.countP_cons] at hzero
    have hsm := buildPre_sm_none a table st hbp hp hi hs hc
    have happly :
        applyItem a table st ("solvent", d) = .error (.keyError "solvent_method") := by
      unfold applyItem
      simp [hnd, hsm]
    unfold qchemBuild
    rw [hbp, hov]
    simp only [Option.getD_some]
    unfold applyOverrides
    rw [happly]

/-- C6 witness for the amended statement: an ISOSVP build with a `solvent`
override completes with the advisory warning and the merged section. -/
theorem c6_witness :
    (qchemBuild { baseArgs with
        isosvp_dielectric := some "78.39",
        overwrite_inputs := some [("solvent", [("dielectric", "20")])] } CMIRS_SETTINGS).map
      (fun r => (r.warnings, r.solvent)) =
      .ok ([solventWarnMsg], [("dielectric", "20")]) := by
  have hIsOk : exceptIsOk (buildPre { baseArgs with
      isosvp_dielectric := some "78.39",
      overwrite_inputs := some [("solvent", [("dielectric", "20")])] } CMIRS_SETTINGS) = true := by
    decide
  cases hb : buildPre { baseArgs with
      isosvp_dielectric := some "78.39",
      overwrite_inputs := some [("solvent", [("dielectric", "20")])] } CMIRS_SETTINGS with
  | error e => rw [hb] at hIsOk; simp [exceptIsOk] at hIsOk
  | ok st =>
      obtain ⟨r, hr, hw, hsolv⟩ :=
        (c6_solvent_override_behavior _ CMIRS_SETTINGS [("dielectric", "20")]
          [("dielectric", "20")] [] st hb (by decide) rfl).1 (by decide) rfl
      rw [hr]
      simp only [Except.map]
      rw [hw, hsolv]
      rfl

section AssocTheory

theorem getKV_eq_none_of_not_mem {α : Type} (d : List (String × α)) (k : String)
    (h : k ∉ secKeys d) : getKV d k = none := by
  induction d with
  | nil => rfl
  | cons p t ih =>
      simp only [secKeys, List.map_cons, List.mem_cons, not_or] at h
      simp only [getKV, if_neg (Ne.symm h.1)]
      exact ih (by simpa [secKeys] using h.2)

theorem secKeys_setKV {α : Type} (d : List (String × α)) (k : String) (v : α) :
    secKeys (setKV d k v) =
      if k ∈ secKeys d then secKeys d else secKeys d ++ [k] := by
  induction d with
  | nil => simp [setKV, secKeys]
  | cons p t ih =>
      obtain ⟨k0, v0⟩ := p
      by_cases h : k0 = k
      · subst h
        simp [setKV, secKeys, List.mem_cons]
      · have h2 : ¬ k = k0 := fun hh => h hh.symm
        have e0 : setKV ((k0, v0) :: t) k v = (k0, v0) :: setKV t k v := by
          simp [setKV, h]
        have e1 : secKeys ((k0, v0) :: setKV t k v) = k0 :: secKeys (setKV t k v) := rfl
        rw [e0, e1, ih]
        by_cases hm : k ∈ secKeys t
        · rw [if_pos hm,
              if_pos (show k ∈ secKeys ((k0, v0) :: t) from List.mem_cons_of_mem _ hm)]
          rfl
        · rw [if_neg hm, if_neg (show k ∉ secKeys ((k0, v0) :: t) from by
            intro hk
            rcases List.mem_cons.1 hk with h3 | h3
            · exact h2 h3
            · exact hm h3)]
          rfl

theorem nodup_setKV {α : Type} (d : List (String × α)) (k : String) (v : α)
    (h : (secKeys d).Nodup) : (secKeys (setKV d k v)).Nodup := by
  rw [secKeys_setKV]
  by_cases hm : k ∈ secKeys d
  · rw [if_pos hm]; exact h
  · rw [if_neg hm]
    simp only [List.nodup_append, List.nodup_cons, List.not_mem_nil, not_false_iff,
      List.nodup_nil, and_true, true_and]
    exact ⟨h, by simpa [List.disjoint_singleton] using hm⟩

theorem secExt {α : Type} (s : List (String × α)) :
    ∀ t : List (String × α), secKeys s = secKeys t → (∀ k, getKV s k = getKV t k) →
      (secKeys s).Nodup → s = t := by
  induction s with
  | nil =>
      intro t hk _ _
      cases t with
      | nil => rfl
      | cons q t2 => simp [secKeys] at hk
  | cons p s2 ih =>
      intro t hk hv hn
      obtain ⟨k, v⟩ := p
      cases t with
      | nil => simp [secKeys] at hk
      | cons q t2 =>
          obtain ⟨k2, w⟩ := q
          simp only [secKeys, List.map_cons, List.cons.injEq] at hk
          obtain ⟨hk1, hk2⟩ := hk
          subst hk1
          have hvk := hv k
          simp only [getKV, if_pos rfl] at hvk
          have hvw : v = w := by injection hvk
          subst hvw
          simp only [secKeys, List.map_cons, List.nodup_cons] at hn
          have hns : k ∉ secKeys s2 := by simpa [secKeys] using hn.1
          have hnt : k ∉ secKeys t2 := by
            have : secKeys t2 = secKeys s2 := hk2.symm
            rw [this]; exact hns
          have ht : s2 = t2 := by
            refine ih t2 hk2 ?_ hn.2
            intro k1
            by_cases hke : k1 = k
            · subst hke
              rw [getKV_eq_none_of_not_mem s2 k1 hns, getKV_eq_none_of_not_mem t2 k1 hnt]
            · have hke2 : ¬ k = k1 := fun hh => hke hh.symm
              have := hv k1
              simpa only [getKV, if_neg hke2] using this
          rw [ht]

theorem getKV_foldWrites {α : Type} (w : List (String × α)) :
    ∀ (d : List (String × α)) (k : String),
    getKV (foldWrites d w) k =
      (match lastVal w k with
       | some v => some v
       | none => getKV d k) := by
  induction w with
  | nil => intro d k; simp [foldWrites, lastVal]
  | cons kv t ih =>
      intro d k
      show getKV (foldWrites (setKV d kv.1 kv.2) t) k = _
      rw [ih (setKV d kv.1 kv.2) k]
      simp only [lastVal]
      cases hl : lastVal t k with
      | some v => simp [Option.orElse]
      | none =>
          simp only [Option.orElse]
          rw [getKV_setKV]
          by_cases hk : kv.1 = k <;> simp [hk]

theorem secKeys_foldWrites {α : Type} (w : List (String × α)) :
    ∀ d : List (String × α),
    secKeys (foldWrites d w) = keysAfter (secKeys d) (secKeys w) := by
  induction w with
  | nil => intro d; rfl
  | cons kv t ih =>
      intro d
      show secKeys (foldWrites (setKV d kv.1 kv.2) t) = keysAfter (secKeys d) (kv.1 :: secKeys t)
      rw [ih (setKV d kv.1 kv.2)]
      show keysAfter (secKeys (setKV d kv.1 kv.2)) (secKeys t) = _
      rw [secKeys_setKV]
      rfl

theorem mem_keysAfter (l : List String) :
    ∀ (ks : List String) (k : String), k ∈ keysAfter ks l ↔ k ∈ ks ∨ k ∈ l := by
  induction l with
  | nil => intro ks k; simp [keysAfter]
  | cons k0 t ih =>
      intro ks k
      simp only [keysAfter, List.mem_cons]
      rw [ih]
      by_cases h : k0 ∈ ks
      · rw [if_pos h]
        constructor
        · rintro (h1 | h2)
          · exact Or.inl h1
          · exact Or.inr (Or.inr h2)
        · rintro (h1 | h2 | h3)
          · exact Or.inl h1
          · exact Or.inl (h2 ▸ h)
          · exact Or.inr h3
      · rw [if_neg h]
        simp only [List.mem_append, List.mem_singleton]
        constructor
        · rintro ((h1 | h2) | h3)
          · exact Or.inl h1
          · exact Or.inr (Or.inl h2)
          · exact Or.inr (Or.inr h3)
        · rintro (h1 | h2 | h3)
          · exact Or.inl (Or.inl h1)
          · exact Or.inl (Or.inr h2)
          · exact Or.inr h3

theorem keysAfter_of_subset (l : List String) :
    ∀ ks : List String, (∀ k ∈ l, k ∈ ks) → keysAfter ks l = ks := by
  induction l with
  | nil => intro ks _; rfl
  | cons k0 t ih =>
      intro ks h
      simp only [keysAfter]
      rw [if_pos (h k0 (by simp))]
      exact ih ks (fun k hk => h k (by simp [hk]))

theorem keysAfter_idem (ks l : List String) :
    keysAfter (keysAfter ks l) l = keysAfter ks l :=
  keysAfter_of_subset _ _ (fun k hk => (mem_keysAfter l ks k).2 (Or.inr hk))

theorem keysAfter_nodup (l : List String) :
    ∀ ks : List String, ks.Nodup → (keysAfter ks l).Nodup := by
  induction l with
  | nil => intro ks h; exact h
  | cons k0 t ih =>
      intro ks h
      simp only [keysAfter]
      by_cases hm : k0 ∈ ks
      · rw [if_pos hm]; exact ih ks h
      · rw [if_neg hm]
        refine ih _ ?_
        simp only [List.nodup_append, List.nodup_cons, List.not_mem_nil, not_false_iff,
          List.nodup_nil, and_true, true_and]
        exact ⟨h, by simpa [List.disjoint_singleton] using hm⟩

theorem foldWrites_nodup {α : Type} (w : List (String × α)) (d : List (String × α))
    (h : (secKeys d).Nodup) : (secKeys (foldWrites d w)).Nodup := by
  rw [secKeys_foldWrites]
  exact keysAfter_nodup _ _ h

theorem foldWrites_idem {α : Type} (d : List (String × α)) (w : List (String × α))
    (hn : (secKeys d).Nodup) : foldWrites (foldWrites d w) w = foldWrites d w := by
  refine secExt _ _ ?_ ?_ (foldWrites_nodup w (foldWrites d w) (foldWrites_nodup w d hn))
  · simp only [secKeys_foldWrites]
    rw [keysAfter_idem]
  · intro k
    rw [getKV_foldWrites, getKV_foldWrites]
    cases lastVal w k <;> simp

end AssocTheory

section NonelsTheory

theorem secKeys_remerge (src : OSec) (d : OSec) :
    secKeys (remerge d src) = secKeys d := by
  induction d with
  | nil => rfl
  | cons p t ih =>
      show secKeys ((if truthy (dictGet src p.1) then (p.1, dictGet src p.1) else p)
        :: remerge t src) = _
      by_cases h : truthy (dictGet src p.1)
      · simp only [if_pos h]
        show p.1 :: secKeys (remerge t src) = _
        rw [ih]
        rfl
      · simp only [if_neg h]
        show p.1 :: secKeys (remerge t src) = _
        rw [ih]
        rfl

theorem getKV_remerge (src : OSec) (d : OSec) (k : String) :
    getKV (remerge d src) k =
      (getKV d k).map (fun old => if truthy (dictGet src k) then dictGet src k else old) := by
  induction d with
  | nil => rfl
  | cons p t ih =>
      obtain ⟨k0, v0⟩ := p
      show getKV ((if truthy (dictGet src k0) then (k0, dictGet src k0) else (k0, v0))
        :: remerge t src) k = _
      by_cases h : truthy (dictGet src k0)
      · rw [if_pos h]
        by_cases hk : k0 = k
        · subst hk
          simp [getKV, h]
        · simp [getKV, hk, ih]
      · rw [if_neg h]
        by_cases hk : k0 = k
        · subst hk
          simp [getKV, h]
        · simp [getKV, hk, ih]

theorem remerge_self (d : OSec) (hn : (secKeys d).Nodup) : remerge d d = d := by
  induction d with
  | nil => rfl
  | cons p t ih =>
      obtain ⟨k0, v0⟩ := p
      simp only [secKeys, List.map_cons, List.nodup_cons] at hn
      have hd : dictGet ((k0, v0) :: t) k0 = v0 := by simp [dictGet, getKV]
      show (if truthy (dictGet ((k0, v0) :: t) k0) then (k0, dictGet ((k0, v0) :: t) k0)
        else (k0, v0)) :: List.map _ t = _
      have htail :
          List.map (fun kv => if truthy (dictGet ((k0, v0) :: t) kv.1)
            then (kv.1, dictGet ((k0, v0) :: t) kv.1) else kv) t = remerge t t := by
        apply List.map_congr_left
        intro kv hkv
        have hne : ¬ k0 = kv.1 := by
          intro he
          exact hn.1 (he ▸ List.mem_map_of_mem Prod.fst hkv)
        have hget : dictGet ((k0, v0) :: t) kv.1 = dictGet t kv.1 := by
          simp [dictGet, getKV, hne]
        rw [hget]
      rw [hd, htail, ih hn.2]
      by_cases h : truthy v0 <;> simp [h]

theorem getKV_napply (d : OSec) (op : NOp) (k : String) :
    getKV (napply d op) k = npStep k (getKV d k) op := by
  cases op with
  | w k2 v =>
      show getKV (setKV d k2 v) k = _
      rw [getKV_setKV]
      rfl
  | m src => exact getKV_remerge src d k

theorem secKeys_napply_w (d : OSec) (k : String) (v : Option String) :
    secKeys (napply d (.w k v)) =
      if k ∈ secKeys d then secKeys d else secKeys d ++ [k] :=
  secKeys_setKV d k v

theorem getKV_napplyFold (ops : List NOp) :
    ∀ (d : OSec) (k : String),
      getKV (napplyFold d ops) k = npFold k (getKV d k) ops := by
  induction ops with
  | nil => intro d k; rfl
  | cons op t ih =>
      intro d k
      show getKV (napplyFold (napply d op) t) k = _
      rw [ih (napply d op) k, getKV_napply]
      rfl

theorem secKeys_napplyFold (ops : List NOp) :
    ∀ d : OSec, secKeys (napplyFold d ops) = keysAfter (secKeys d) (nopKeys ops) := by
  induction ops with
  | nil => intro d; rfl
  | cons op t ih =>
      intro d
      show secKeys (napplyFold (napply d op) t) = _
      rw [ih (napply d op)]
      cases op with
      | w k v =>
          show keysAfter (secKeys (napply d (.w k v))) (nopKeys t) =
            keysAfter (secKeys d) (k :: nopKeys t)
          rw [secKeys_napply_w]
          rfl
      | m src =>
          show keysAfter (secKeys (remerge d src)) (nopKeys t) = _
          rw [secKeys_remerge]
          rfl

theorem nodup_napplyFold (ops : List NOp) (d : OSec) (hn : (secKeys d).Nodup) :
    (secKeys (napplyFold d ops)).Nodup := by
  rw [secKeys_napplyFold]
  exact keysAfter_nodup _ _ hn

theorem npFold_isSome (ops : List NOp) (k : String) :
    ∀ init : Option (Option String), init.isSome → (npFold k init ops).isSome := by
  induction ops with
  | nil => intro init h; exact h
  | cons op t ih =>
      intro init h
      show (npFold k (npStep k init op) t).isSome
      refine ih _ ?_
      cases op with
      | w k2 v =>
          by_cases hk : k2 = k <;> simp [npStep, hk, h]
      | m src =>
          cases init with
          | none => simp at h
          | some y => simp [npStep]

theorem npFold_none_of_noW (ops : List NOp) (k : String)
    (h : ∀ v, NOp.w k v ∉ ops) : npFold k none ops = none := by
  induction ops with
  | nil => rfl
  | cons op t ih =>
      show npFold k (npStep k none op) t = none
      have hstep : npStep k none op = none := by
        cases op with
        | w k2 v =>
            by_cases hk : k2 = k
            · subst hk
              exact absurd (List.mem_cons_self _ _) (h v)
            · simp [npStep, hk]
        | m src => rfl
      rw [hstep]
      exact ih (fun v hv => h v (List.mem_cons_of_mem _ hv))

theorem npFold_isSome_of_W (ops : List NOp) (k : String) (v : Option String)
    (h : NOp.w k v ∈ ops) : ∀ init, (npFold k init ops).isSome := by
  induction ops with
  | nil => simp at h
  | cons op t ih =>
      intro init
      rcases List.mem_cons.1 h with he | ht
      · subst he
        show (npFold k (npStep k init (.w k v)) t).isSome
        refine npFold_isSome t k _ ?_
        simp [npStep]
      · exact ih ht _

theorem npFold_idem (k : String) (ops : List NOp) :
    ∀ init, npFold k (npFold k init ops) ops = npFold k init ops := by
  induction ops using List.reverseRecOn with
  | nil => intro init; rfl
  | append_singleton t op ih =>
      intro init
      have hsplit : ∀ x, npFold k x (t ++ [op]) = npStep k (npFold k x t) op := by
        intro x
        simp [npFold, List.foldl_append]
      rw [hsplit, hsplit]
      cases op with
      | w k2 v =>
          by_cases hk : k2 = k
          · simp [npStep, hk]
          · simp only [npStep, if_neg hk]
            rw [ih init]
      | m src =>
          by_cases htr : truthy (dictGet src k)
          · cases hf : npFold k init t with
            | none =>
                have hnoW : ∀ w, NOp.w k w ∉ t := by
                  intro w hv
                  have hsome := npFold_isSome_of_W t k w hv init
                  rw [hf] at hsome
                  simp at hsome
                have e1 : npStep k none (NOp.m src) = none := rfl
                rw [e1, npFold_none_of_noW t k hnoW, e1]
            | some y =>
                have e1 : npStep k (some y) (NOp.m src) = some (dictGet src k) := by
                  simp [npStep, htr]
                rw [e1]
                have hsome : (npFold k (some (dictGet src k)) t).isSome :=
                  npFold_isSome t k _ (by simp)
                cases hz : npFold k (some (dictGet src k)) t with
                | none => rw [hz] at hsome; simp at hsome
                | some z => simp [npStep, htr]
          · have e1 : ∀ st, npStep k st (NOp.m src) = st := by
              intro st
              cases st <;> simp [npStep, htr]
            rw [e1, e1, ih init]

theorem napplyFold_idem (d : OSec) (ops : List NOp) (hn : (secKeys d).Nodup) :
    napplyFold (napplyFold d ops) ops = napplyFold d ops := by
  refine secExt _ _ ?_ ?_ (nodup_napplyFold ops _ (nodup_napplyFold ops d hn))
  · simp only [secKeys_napplyFold]
    rw [keysAfter_idem]
  · intro k
    rw [getKV_napplyFold, getKV_napplyFold, npFold_idem]

end NonelsTheory

section OverrideIdem

theorem buildSt_ext (s u : BuildSt)
    (h1 : s.myrem = u.myrem) (h2 : s.mypcm = u.mypcm) (h3 : s.mysolvent = u.mysolvent)
    (h4 : s.mysmx = u.mysmx) (h5 : s.myvdw = u.myvdw) (h6 : s.myplots = u.myplots)
    (h7 : s.myopt = u.myopt) (h8 : s.myscan = u.myscan) (h9 : s.mysvp = u.mysvp)
    (h10 : s.mypcm_nonels = u.mypcm_nonels) (h11 : s.mynbo = u.mynbo)
    (h12 : s.my_geom_opt = u.my_geom_opt)
    (h13 : s.new_geom_opt_final = u.new_geom_opt_final) (h14 : s.aliasRho = u.aliasRho) :
    s = u := by
  cases s
  cases u
  simp_all

theorem writesTo_append (x : SecId) (l1 l2 : List Instr) :
    writesTo x (l1 ++ l2) = writesTo x l1 ++ writesTo x l2 := by
  simp [writesTo, List.filterMap_append]

theorem nonelsOps_append (a : QCArgs) (table : CMIRSTable) (r : Option String)
    (l1 l2 : List Instr) :
    nonelsOps a table r (l1 ++ l2) = nonelsOps a table r l1 ++ nonelsOps a table r l2 := by
  simp [nonelsOps, List.filterMap_append]

theorem foldWrites_append {α : Type} (d : List (String × α)) (w1 w2 : List (String × α)) :
    foldWrites d (w1 ++ w2) = foldWrites (foldWrites d w1) w2 := by
  simp [foldWrites, List.foldl_append]

theorem napplyFold_append (d : OSec) (o1 o2 : List NOp) :
    napplyFold d (o1 ++ o2) = napplyFold (napplyFold d o1) o2 := by
  simp [napplyFold, List.foldl_append]

theorem writesTo_map_write (x y : SecId) (t : Sec) :
    writesTo x (t.map (fun kv => Instr.write y kv.1 kv.2)) =
      if y = x then t else [] := by
  induction t with
  | nil => by_cases h : y = x <;> simp [writesTo, h]
  | cons kv r ih =>
      show writesTo x (Instr.write y kv.1 kv.2 :: r.map _) = _
      by_cases h : y = x
      · simp only [if_pos h] at ih ⊢
        simp only [writesTo, List.filterMap_cons, if_pos h]
        rw [show List.filterMap _ (List.map (fun kv => Instr.write y kv.1 kv.2) r) =
              writesTo x (r.map (fun kv => Instr.write y kv.1 kv.2)) from rfl, ih]
      · simp only [if_neg h] at ih ⊢
        simp only [writesTo, List.filterMap_cons, if_neg h]
        exact ih

theorem nonelsOps_map_write (a : QCArgs) (table : CMIRSTable) (r : Option String)
    (y : SecId) (t : Sec) (h : y ≠ .nonelsS) :
    nonelsOps a table r (t.map (fun kv => Instr.write y kv.1 kv.2)) = [] := by
  induction t with
  | nil => rfl
  | cons kv rest ih =>
      show nonelsOps a table r (Instr.write y kv.1 kv.2 :: rest.map _) = _
      simp only [nonelsOps, List.filterMap_cons, if_neg h]
      exact ih

theorem nonelsOps_map_write_nonels (a : QCArgs) (table : CMIRSTable) (r : Option String)
    (t : Sec) :
    nonelsOps a table r (t.map (fun kv => Instr.write .nonelsS kv.1 kv.2)) =
      t.map (fun kv => NOp.w kv.1 (some kv.2)) := by
  induction t with
  | nil => rfl
  | cons kv rest ih =>
      have e : nonelsOps a table r
          ((kv :: rest).map (fun kv => Instr.write .nonelsS kv.1 kv.2)) =
          NOp.w kv.1 (some kv.2) ::
            nonelsOps a table r (rest.map (fun kv => Instr.write .nonelsS kv.1 kv.2)) := rfl
      rw [e, ih]
      rfl

theorem mergeKVs_eq_foldWrites (d t : Sec) : mergeKVs d t = foldWrites d t := rfl

theorem mergeKVsO_eq_napplyFold (d : OSec) (t : Sec) :
    mergeKVsO d t = napplyFold d (t.map (fun kv => NOp.w kv.1 (some kv.2))) := by
  show t.foldl (fun d kv => setKV d kv.1 (some kv.2)) d = _
  rw [napplyFold, List.foldl_map]
  rfl

theorem stepSt_nil (a : QCArgs) (table : CMIRSTable) (st : BuildSt) :
    stepSt a table [] st = st := by
  refine buildSt_ext _ _ rfl rfl rfl rfl rfl rfl rfl rfl rfl rfl ?_ ?_ rfl rfl
  · show st.mynbo.map (fun d => d) = st.mynbo
    cases st.mynbo <;> rfl
  · show st.my_geom_opt.map (fun d => d) = st.my_geom_opt
    cases st.my_geom_opt <;> rfl

theorem stepSt_append (a : QCArgs) (table : CMIRSTable) (L1 L2 : List Instr) (st : BuildSt) :
    stepSt a table (L1 ++ L2) st = stepSt a table L2 (stepSt a table L1 st) := by
  refine buildSt_ext _ _ ?_ ?_ ?_ ?_ ?_ ?_ ?_ ?_ ?_ ?_ ?_ ?_ rfl rfl
  · show foldWrites st.myrem (writesTo .remS (L1 ++ L2)) = _
    rw [writesTo_append, foldWrites_append]
    rfl
  · show foldWrites st.mypcm (writesTo .pcmS (L1 ++ L2)) = _
    rw [writesTo_append, foldWrites_append]
    rfl
  · show foldWrites st.mysolvent (writesTo .solventS (L1 ++ L2)) = _
    rw [writesTo_append, foldWrites_append]
    rfl
  · show foldWrites st.mysmx (writesTo .smxS (L1 ++ L2)) = _
    rw [writesTo_append, foldWrites_append]
    rfl
  · show foldWrites st.myvdw (writesTo .vdwS (L1 ++ L2)) = _
    rw [writesTo_append, foldWrites_append]
    rfl
  · show foldWrites st.myplots (writesTo .plotsS (L1 ++ L2)) = _
    rw [writesTo_append, foldWrites_append]
    rfl
  · show foldWrites st.myopt (writesTo .optS (L1 ++ L2)) = _
    rw [writesTo_append, foldWrites_append]
    rfl
  · show foldWrites st.myscan (writesTo .scanS (L1 ++ L2)) = _
    rw [writesTo_append, foldWrites_append]
    rfl
  · show foldWrites st.mysvp (writesTo .svpS (L1 ++ L2)) = _
    rw [writesTo_append, foldWrites_append]
    rfl
  · show napplyFold st.mypcm_nonels (nonelsOps a table st.aliasRho (L1 ++ L2)) = _
    rw [nonelsOps_append, napplyFold_append]
    rfl
  · show st.mynbo.map _ = (st.mynbo.map _).map _
    cases st.mynbo with
    | none => rfl
    | some d =>
        show some (foldWrites d (writesTo .nboS (L1 ++ L2))) = some _
        rw [writesTo_append, foldWrites_append]
  · show st.my_geom_opt.map _ = (st.my_geom_opt.map _).map _
    cases st.my_geom_opt with
    | none => rfl
    | some d =>
        show some (foldWrites d (writesTo .geomS (L1 ++ L2))) = some _
        rw [writesTo_append, foldWrites_append]

theorem stepSt_nodup (a : QCArgs) (table : CMIRSTable) (L : List Instr) (st : BuildSt)
    (hn : NodupSt st) : NodupSt (stepSt a table L st) := by
  obtain ⟨h1, h2, h3, h4, h5, h6, h7, h8, h9, h10, h11, h12⟩ := hn
  refine ⟨foldWrites_nodup _ _ h1, foldWrites_nodup _ _ h2, foldWrites_nodup _ _ h3,
    foldWrites_nodup _ _ h4, foldWrites_nodup _ _ h5, foldWrites_nodup _ _ h6,
    foldWrites_nodup _ _ h7, foldWrites_nodup _ _ h8, foldWrites_nodup _ _ h9,
    nodup_napplyFold _ _ h10, ?_, ?_⟩
  · intro d hd
    cases hm : st.mynbo with
    | none => rw [show (stepSt a table L st).mynbo = st.mynbo.map _ from rfl, hm] at hd; simp at hd
    | some d0 =>
        rw [show (stepSt a table L st).mynbo = st.mynbo.map _ from rfl, hm] at hd
        have hd2 : some (foldWrites d0 (writesTo SecId.nboS L)) = some d := hd
        injection hd2 with e
        rw [← e]
        exact foldWrites_nodup _ _ (h11 d0 hm)
  · intro d hd
    cases hm : st.my_geom_opt with
    | none =>
        rw [show (stepSt a table L st).my_geom_opt = st.my_geom_opt.map _ from rfl, hm] at hd
        simp at hd
    | some d0 =>
        rw [show (stepSt a table L st).my_geom_opt = st.my_geom_opt.map _ from rfl, hm] at hd
        have hd2 : some (foldWrites d0 (writesTo SecId.geomS L)) = some d := hd
        injection hd2 with e
        rw [← e]
        exact foldWrites_nodup _ _ (h12 d0 hm)

theorem stepSt_mono (a : QCArgs) (table : CMIRSTable) (L : List Instr) (st : BuildSt) :
    stMono st (stepSt a table L st) := by
  refine ⟨rfl, ?_, ?_, ?_⟩
  · intro h
    show (getKV (foldWrites st.myrem (writesTo .remS L)) "solvent_method").isSome
    rw [getKV_foldWrites]
    cases hl : lastVal (writesTo .remS L) "solvent_method" <;> simp [h]
  · intro h
    show (st.mynbo.map (fun d => foldWrites d (writesTo .nboS L))).isSome
    cases hm : st.mynbo with
    | none => rw [hm] at h; simp at h
    | some d => rfl
  · intro h
    show (st.my_geom_opt.map (fun d => foldWrites d (writesTo .geomS L))).isSome
    cases hm : st.my_geom_opt with
    | none => rw [hm] at h; simp at h
    | some d => rfl

theorem stepSt_mono_par (a : QCArgs) (table : CMIRSTable) (L : List Instr) (s u : BuildSt)
    (hm : stMono s u) : stMono (stepSt a table L s) (stepSt a table L u) := by
  obtain ⟨ha, hr, hb, hg⟩ := hm
  refine ⟨ha, ?_, ?_, ?_⟩
  · intro h
    rw [show (stepSt a table L s).myrem = foldWrites s.myrem (writesTo .remS L) from rfl,
        getKV_foldWrites] at h
    show (getKV (foldWrites u.myrem (writesTo .remS L)) "solvent_method").isSome
    rw [getKV_foldWrites]
    cases hl : lastVal (writesTo .remS L) "solvent_method" with
    | none =>
        rw [hl] at h
        simp only [] at h ⊢
        exact hr h
    | some v => simp
  · intro h
    have hs : s.mynbo.isSome := by
      cases hm : s.mynbo with
      | none => rw [show (stepSt a table L s).mynbo = s.mynbo.map _ from rfl, hm] at h; simp at h
      | some d => rfl
    have hu := hb hs
    show (u.mynbo.map (fun d => foldWrites d (writesTo .nboS L))).isSome
    cases hmu : u.mynbo with
    | none => rw [hmu] at hu; simp at hu
    | some d => rfl
  · intro h
    have hs : s.my_geom_opt.isSome := by
      cases hm : s.my_geom_opt with
      | none =>
          rw [show (stepSt a table L s).my_geom_opt = s.my_geom_opt.map _ from rfl, hm] at h
          simp at h
      | some d => rfl
    have hu := hg hs
    show (u.my_geom_opt.map (fun d => foldWrites d (writesTo .geomS L))).isSome
    cases hmu : u.my_geom_opt with
    | none => rw [hmu] at hu; simp at hu
    | some d => rfl

theorem stepSt_idem (a : QCArgs) (table : CMIRSTable) (L : List Instr) (st : BuildSt)
    (hn : NodupSt st) : stepSt a table L (stepSt a table L st) = stepSt a table L st := by
  obtain ⟨h1, h2, h3, h4, h5, h6, h7, h8, h9, h10, h11, h12⟩ := hn
  refine buildSt_ext _ _ ?_ ?_ ?_ ?_ ?_ ?_ ?_ ?_ ?_ ?_ ?_ ?_ rfl rfl
  · exact foldWrites_idem _ _ h1
  · exact foldWrites_idem _ _ h2
  · exact foldWrites_idem _ _ h3
  · exact foldWrites_idem _ _ h4
  · exact foldWrites_idem _ _ h5
  · exact foldWrites_idem _ _ h6
  · exact foldWrites_idem _ _ h7
  · exact foldWrites_idem _ _ h8
  · exact foldWrites_idem _ _ h9
  · exact napplyFold_idem _ _ h10
  · show ((st.mynbo.map _).map _) = st.mynbo.map _
    cases hm : st.mynbo with
    | none => rfl
    | some d =>
        show some (foldWrites (foldWrites d _) _) = some (foldWrites d _)
        rw [foldWrites_idem _ _ (h11 d hm)]
  · show ((st.my_geom_opt.map _).map _) = st.my_geom_opt.map _
    cases hm : st.my_geom_opt with
    | none => rfl
    | some d =>
        show some (foldWrites (foldWrites d _) _) = some (foldWrites d _)
        rw [foldWrites_idem _ _ (h12 d hm)]

theorem svpRhoiso_frame (a : QCArgs) (table : CMIRSTable) (st : BuildSt) (v : String)
    (stR : BuildSt) (h : svpRhoiso a table st v = .ok stR) :
    stR.myrem = st.myrem ∧ stR.mysvp = st.mysvp ∧ stR.mynbo = st.mynbo ∧
    stR.my_geom_opt = st.my_geom_opt ∧ stR.aliasRho = st.aliasRho ∧
    stR.new_geom_opt_final = st.new_geom_opt_final := by
  unfold svpRhoiso at h
  cases hc : a.cmirs_solvent with
  | none =>
      simp only [hc, Except.ok.injEq] at h
      subst h
      exact ⟨rfl, rfl, rfl, rfl, rfl, rfl⟩
  | some solv =>
      simp only [hc] at h
      by_cases hv : v ≠ "0.001" ∧ v ≠ "0.0005"
      · rw [if_pos hv] at h
        exact absurd h (by simp)
      · rw [if_neg hv] at h
        cases hsrc : rhoisoSrc table solv st v with
        | error e =>
            simp only [hsrc] at h
            exact absurd h (by simp)
        | ok src =>
            simp only [hsrc, Except.ok.injEq] at h
            subst h
            exact ⟨rfl, rfl, rfl, rfl, rfl, rfl⟩

theorem svpRhoiso_replay (a : QCArgs) (table : CMIRSTable) (st : BuildSt) (v : String)
    (stR : BuildSt) (u : BuildSt)
    (h : svpRhoiso a table st v = .ok stR) (ha : st.aliasRho = u.aliasRho) :
    ∃ uR, svpRhoiso a table u v = .ok uR := by
  unfold svpRhoiso at h ⊢
  cases hc : a.cmirs_solvent with
  | none => exact ⟨u, by simp [hc]⟩
  | some solv =>
      simp only [hc] at h ⊢
      by_cases hv : v ≠ "0.001" ∧ v ≠ "0.0005"
      · rw [if_pos hv] at h
        exact absurd h (by simp)
      · rw [if_neg hv] at h ⊢
        by_cases hual : u.aliasRho = some v
        · have e : rhoisoSrc table solv u v = .ok u.mypcm_nonels := by
            unfold rhoisoSrc
            rw [if_pos hual]
          rw [e]
          exact ⟨_, rfl⟩
        · have hsal : ¬ st.aliasRho = some v := by rw [ha]; exact hual
          unfold rhoisoSrc at h ⊢
          rw [if_neg hsal] at h
          rw [if_neg hual]
          cases ht : getKV table solv with
          | none =>
              simp only [ht] at h
              exact absurd h (by simp)
          | some en =>
              simp only [ht] at h ⊢
              cases hcont : en.contour v with
              | none =>
                  simp only [hcont] at h
                  exact absurd h (by simp)
              | some src =>
                  simp only [hcont]
                  exact ⟨_, rfl⟩

theorem applySvpKey_decomp (a : QCArgs) (table : CMIRSTable) (st : BuildSt)
    (ws : List String) (k v : String) (st' : BuildSt) (ws' : List String)
    (hok : applySvpKey a table st ws k v = .ok (st', ws'))
    (hn : (secKeys st.mypcm_nonels).Nodup) :
    st' = { st with
            mysvp := setKV st.mysvp k v,
            mypcm_nonels := napplyFold st.mypcm_nonels
              (nonelsOps a table st.aliasRho (instrsOfSvpKey (k, v))) } := by
  unfold applySvpKey at hok
  split at hok
  · exact absurd hok (by simp)
  next stR heq =>
    cases hd2 : (if k = "dielst" then svpDielstWarns stR else Except.ok ([] : List String)) with
    | error e =>
        simp only [hd2] at hok
        exact absurd hok (by simp)
    | ok wd =>
      simp only [hd2, Except.ok.injEq, Prod.mk.injEq] at hok
      obtain ⟨hst, -⟩ := hok
      subst hst
      by_cases hk : k = "rhoiso"
      · subst hk
        rw [if_pos rfl] at heq
        unfold svpRhoiso at heq
        cases hc : a.cmirs_solvent with
        | none =>
            simp only [hc, Except.ok.injEq] at heq
            subst heq
            have e4 : nonelsOps a table st.aliasRho (instrsOfSvpKey ("rhoiso", v)) = [] := by
              simp [instrsOfSvpKey, nonelsOps, hc]
            rw [e4]
            rfl
        | some solv =>
            simp only [hc] at heq
            by_cases hv : v ≠ "0.001" ∧ v ≠ "0.0005"
            · rw [if_pos hv] at heq
              exact absurd heq (by simp)
            · rw [if_neg hv] at heq
              unfold rhoisoSrc at heq
              by_cases hal : st.aliasRho = some v
              · rw [if_pos hal] at heq
                have heq3 : ({ st with
                    mypcm_nonels := remerge st.mypcm_nonels st.mypcm_nonels } : BuildSt)
                    = stR := by injection heq
                rw [← heq3]
                have e4 : nonelsOps a table st.aliasRho (instrsOfSvpKey ("rhoiso", v)) = [] := by
                  simp [instrsOfSvpKey, nonelsOps, hc, hv, hal]
                rw [e4, remerge_self _ hn]
                rfl
              · rw [if_neg hal] at heq
                cases ht : getKV table solv with
                | none =>
                    simp only [ht] at heq
                    exact absurd heq (by simp)
                | some en =>
                    simp only [ht] at heq
                    cases hcont : en.contour v with
                    | none =>
                        simp only [hcont] at heq
                        exact absurd heq (by simp)
                    | some src =>
                        simp only [hcont, Except.ok.injEq] at heq
                        rw [← heq]
                        have e4 : nonelsOps a table st.aliasRho
                            (instrsOfSvpKey ("rhoiso", v)) = [NOp.m src] := by
                          simp [instrsOfSvpKey, nonelsOps, hc, hv, hal, ht, hcont]
                        rw [e4]
                        rfl
      · rw [if_neg hk] at heq
        have e3 : st = stR := by injection heq
        subst e3
        have e4 : nonelsOps a table st.aliasRho (instrsOfSvpKey (k, v)) = [] := by
          by_cases hk2 : k = "idefesr" <;> by_cases hk3 : k = "dielst" <;>
            simp [instrsOfSvpKey, nonelsOps, hk, hk2, hk3]
        rw [e4]
        rfl

theorem applySvpKey_replay (a : QCArgs) (table : CMIRSTable) (st : BuildSt)
    (ws : List String) (k v : String) (st' : BuildSt) (ws' : List String)
    (u : BuildSt) (wsu : List String)
    (hok : applySvpKey a table st ws k v = .ok (st', ws'))
    (hm : stMono st u) :
    ∃ p, applySvpKey a table u wsu k v = .ok p := by
  unfold applySvpKey at hok
  split at hok
  · exact absurd hok (by simp)
  next stR heq =>
    cases hd2 : (if k = "dielst" then svpDielstWarns stR else Except.ok ([] : List String)) with
    | error e =>
        simp only [hd2] at hok
        exact absurd hok (by simp)
    | ok wd =>
      have huR : ∃ uR, (if k = "rhoiso" then svpRhoiso a table u v else Except.ok u) = .ok uR ∧
          uR.myrem = u.myrem := by
        by_cases hk : k = "rhoiso"
        · rw [if_pos hk] at heq ⊢
          obtain ⟨uR, he⟩ := svpRhoiso_replay a table st v stR u heq hm.1
          exact ⟨uR, he, (svpRhoiso_frame a table u v uR he).1⟩
        · rw [if_neg hk]
          exact ⟨u, rfl, rfl⟩
      obtain ⟨uR, huR, hfr⟩ := huR
      have hstRrem : stR.myrem = st.myrem := by
        by_cases hk : k = "rhoiso"
        · rw [if_pos hk] at heq
          exact (svpRhoiso_frame a table st v stR heq).1
        · rw [if_neg hk] at heq
          have e3 : st = stR := by injection heq
          rw [← e3]
      have hud : ∃ wd2, (if k = "dielst" then svpDielstWarns uR else Except.ok []) = .ok wd2 := by
        by_cases hk3 : k = "dielst"
        · rw [if_pos hk3] at hd2 ⊢
          unfold svpDielstWarns at hd2 ⊢
          cases hg : getKV stR.myrem "solvent_method" with
          | none =>
              simp only [hg] at hd2
              exact absurd hd2 (by simp)
          | some m =>
              have hsome : (getKV u.myrem "solvent_method").isSome := by
                refine hm.2.1 ?_
                rw [← hstRrem, hg]
                rfl
              rw [hfr]
              cases hgu : getKV u.myrem "solvent_method" with
              | none => rw [hgu] at hsome; simp at hsome
              | some m2 =>
                  by_cases hm2 : m2 ≠ "isosvp"
                  · refine ⟨[dielstWarnMsg], ?_⟩
                    show (if m2 ≠ "isosvp" then Except.ok [dielstWarnMsg]
                      else Except.ok ([] : List String)) = _
                    rw [if_pos hm2]
                  · refine ⟨[], ?_⟩
                    show (if m2 ≠ "isosvp" then Except.ok [dielstWarnMsg]
                      else Except.ok ([] : List String)) = _
                    rw [if_neg hm2]
        · rw [if_neg hk3]
          exact ⟨[], rfl⟩
      obtain ⟨wd2, hud⟩ := hud
      exact ⟨({ uR with mysvp := setKV uR.mysvp k v },
              (wsu ++ (if k = "idefesr" then svpIdefesrWarns a v else [])) ++ wd2),
             by simp only [applySvpKey, huR, hud]⟩

theorem applySvpKeys_decomp (a : QCArgs) (table : CMIRSTable) :
    ∀ (t : Sec) (st : BuildSt) (ws : List String) (st' : BuildSt) (ws' : List String),
      applySvpKeys a table st ws t = .ok (st', ws') →
      (secKeys st.mypcm_nonels).Nodup →
      st' = { st with
              mysvp := foldWrites st.mysvp t,
              mypcm_nonels := napplyFold st.mypcm_nonels
                (nonelsOps a table st.aliasRho (t.flatMap instrsOfSvpKey)) } := by
  intro t
  induction t with
  | nil =>
      intro st ws st' ws' hok hn
      have e : st = st' := by
        have h2 : Except.ok (α := BuildSt × List String) (st, ws) = .ok (st', ws') := hok
        injection h2 with e2
        exact congrArg Prod.fst e2
      rw [← e]
      rfl
  | cons kv rest ih =>
      intro st ws st' ws' hok hn
      have hstep : applySvpKeys a table st ws (kv :: rest) =
          (match applySvpKey a table st ws kv.1 kv.2 with
           | .error e => .error e
           | .ok (st1, ws1) => applySvpKeys a table st1 ws1 rest) := rfl
      rw [hstep] at hok
      cases h1 : applySvpKey a table st ws kv.1 kv.2 with
      | error e =>
          simp only [h1] at hok
          exact absurd hok (by simp)
      | ok p =>
          obtain ⟨st1, ws1⟩ := p
          simp only [h1] at hok
          have hd1 := applySvpKey_decomp a table st ws kv.1 kv.2 st1 ws1 h1 hn
          have hn1 : (secKeys st1.mypcm_nonels).Nodup := by
            rw [hd1]
            exact nodup_napplyFold _ _ hn
          have hrest := ih st1 ws1 st' ws' hok hn1
          rw [hrest, hd1]
          have e1 : (kv :: rest).flatMap instrsOfSvpKey =
              instrsOfSvpKey (kv.1, kv.2) ++ rest.flatMap instrsOfSvpKey := rfl
      /- the combined operation lists agree: the per-key head contributes its
      own operations, and the tail is evaluated at the unchanged alias. -/
          rw [e1, nonelsOps_append, napplyFold_append]
          rfl

theorem applySvpKeys_replay (a : QCArgs) (table : CMIRSTable) :
    ∀ (t : Sec) (st : BuildSt) (ws : List String) (st' : BuildSt) (ws' wsu : List String)
      (u : BuildSt),
      applySvpKeys a table st ws t = .ok (st', ws') →
      stMono st u →
      (secKeys st.mypcm_nonels).Nodup →
      (secKeys u.mypcm_nonels).Nodup →
      ∃ p, applySvpKeys a table u wsu t = .ok p := by
  intro t
  induction t with
  | nil =>
      intro st ws st' ws' wsu u _ _ _ _
      exact ⟨(u, wsu), rfl⟩
  | cons kv rest ih =>
      intro st ws st' ws' wsu u hok hm hn hnu
      have hstep : applySvpKeys a table st ws (kv :: rest) =
          (match applySvpKey a table st ws kv.1 kv.2 with
           | .error e => .error e
           | .ok (st1, ws1) => applySvpKeys a table st1 ws1 rest) := rfl
      rw [hstep] at hok
      cases h1 : applySvpKey a table st ws kv.1 kv.2 with
      | error e =>
          simp only [h1] at hok
          exact absurd hok (by simp)
      | ok p =>
          obtain ⟨st1, ws1⟩ := p
          simp only [h1] at hok
          obtain ⟨⟨u1, wu1⟩, hu1⟩ :=
            applySvpKey_replay a table st ws kv.1 kv.2 st1 ws1 u wsu h1 hm
          have hd1 := applySvpKey_decomp a table st ws kv.1 kv.2 st1 ws1 h1 hn
          have hdu1 := applySvpKey_decomp a table u wsu kv.1 kv.2 u1 wu1 hu1 hnu
          have hm1 : stMono st1 u1 := by
            obtain ⟨ha, hr, hb, hg⟩ := hm
            rw [hd1, hdu1]
            exact ⟨ha, hr, hb, hg⟩
          have hn1 : (secKeys st1.mypcm_nonels).Nodup := by
            rw [hd1]
            exact nodup_napplyFold _ _ hn
          have hnu1 : (secKeys u1.mypcm_nonels).Nodup := by
            rw [hdu1]
            exact nodup_napplyFold _ _ hnu
          obtain ⟨q, hq⟩ := ih st1 ws1 st' ws' wu1 u1 hok hm1 hn1 hnu1
          refine ⟨q, ?_⟩
          have hstepu : applySvpKeys a table u wsu (kv :: rest) =
              (match applySvpKey a table u wsu kv.1 kv.2 with
               | .error e => .error e
               | .ok (u1, wu1) => applySvpKeys a table u1 wu1 rest) := rfl
      /- replay the tail from the replayed head state. -/
          rw [hstepu]
          simp only [hu1]
          exact hq

theorem stepSt_write_rem (a : QCArgs) (table : CMIRSTable) (t : Sec) (st : BuildSt) :
    stepSt a table (t.map (fun kv => Instr.write .remS kv.1 kv.2)) st =
      { st with myrem := mergeKVs st.myrem t } := by
  have hw : ∀ x : SecId, writesTo x (t.map (fun kv => Instr.write .remS kv.1 kv.2)) =
      if SecId.remS = x then t else [] := fun x => writesTo_map_write x .remS t
  have hno : nonelsOps a table st.aliasRho
      (t.map (fun kv => Instr.write .remS kv.1 kv.2)) = [] :=
    nonelsOps_map_write a table st.aliasRho .remS t (by decide)
  refine buildSt_ext _ _ ?_ ?_ ?_ ?_ ?_ ?_ ?_ ?_ ?_ ?_ ?_ ?_ rfl rfl
  · show foldWrites st.myrem _ = _
    simp only [stepSt, hw]
    rfl
  · show foldWrites st.mypcm _ = _
    simp only [stepSt, hw]
    rfl
  · show foldWrites st.mysolvent _ = _
    simp only [stepSt, hw]
    rfl
  · show foldWrites st.mysmx _ = _
    simp only [stepSt, hw]
    rfl
  · show foldWrites st.myvdw _ = _
    simp only [stepSt, hw]
    rfl
  · show foldWrites st.myplots _ = _
    simp only [stepSt, hw]
    rfl
  · show foldWrites st.myopt _ = _
    simp only [stepSt, hw]
    rfl
  · show foldWrites st.myscan _ = _
    simp only [stepSt, hw]
    rfl
  · show foldWrites st.mysvp _ = _
    simp only [stepSt, hw]
    rfl
  · show napplyFold st.mypcm_nonels _ = _
    simp only [stepSt, hno]
    rfl
  · show st.mynbo.map _ = _
    simp only [stepSt, hw]
    cases st.mynbo <;> rfl
  · show st.my_geom_opt.map _ = _
    simp only [stepSt, hw]
    cases st.my_geom_opt <;> rfl

theorem stepSt_write_pcm (a : QCArgs) (table : CMIRSTable) (t : Sec) (st : BuildSt) :
    stepSt a table (t.map (fun kv => Instr.write .pcmS kv.1 kv.2)) st =
      { st with mypcm := mergeKVs st.mypcm t } := by
  have hw : ∀ x : SecId, writesTo x (t.map (fun kv => Instr.write .pcmS kv.1 kv.2)) =
      if SecId.pcmS = x then t else [] := fun x => writesTo_map_write x .pcmS t
  have hno : nonelsOps a table st.aliasRho
      (t.map (fun kv => Instr.write .pcmS kv.1 kv.2)) = [] :=
    nonelsOps_map_write a table st.aliasRho .pcmS t (by decide)
  refine buildSt_ext _ _ ?_ ?_ ?_ ?_ ?_ ?_ ?_ ?_ ?_ ?_ ?_ ?_ rfl rfl
  · show foldWrites st.myrem _ = _
    simp only [stepSt, hw]
    rfl
  · show foldWrites st.mypcm _ = _
    simp only [stepSt, hw]
    rfl
  · show foldWrites st.mysolvent _ = _
    simp only [stepSt, hw]
    rfl
  · show foldWrites st.mysmx _ = _
    simp only [stepSt, hw]
    rfl
  · show foldWrites st.myvdw _ = _
    simp only [stepSt, hw]
    rfl
  · show foldWrites st.myplots _ = _
    simp only [stepSt, hw]
    rfl
  · show foldWrites st.myopt _ = _
    simp only [stepSt, hw]
    rfl
  · show foldWrites st.myscan _ = _
    simp only [stepSt, hw]
    rfl
  · show foldWrites st.mysvp _ = _
    simp only [stepSt, hw]
    rfl
  · show napplyFold st.mypcm_nonels _ = _
    simp only [stepSt, hno]
    rfl
  · show st.mynbo.map _ = _
    simp only [stepSt, hw]
    cases st.mynbo <;> rfl
  · show st.my_geom_opt.map _ = _
    simp only [stepSt, hw]
    cases st.my_geom_opt <;> rfl

theorem stepSt_write_solvent (a : QCArgs) (table : CMIRSTable) (t : Sec) (st : BuildSt) :
    stepSt a table (t.map (fun kv => Instr.write .solventS kv.1 kv.2)) st =
      { st with mysolvent := mergeKVs st.mysolvent t } := by
  have hw : ∀ x : SecId, writesTo x (t.map (fun kv => Instr.write .solventS kv.1 kv.2)) =
      if SecId.solventS = x then t else [] := fun x => writesTo_map_write x .solventS t
  have hno : nonelsOps a table st.aliasRho
      (t.map (fun kv => Instr.write .solventS kv.1 kv.2)) = [] :=
    nonelsOps_map_write a table st.aliasRho .solventS t (by decide)
  refine buildSt_ext _ _ ?_ ?_ ?_ ?_ ?_ ?_ ?_ ?_ ?_ ?_ ?_ ?_ rfl rfl
  · show foldWrites st.myrem _ = _
    simp only [stepSt, hw]
    rfl
  · show foldWrites st.mypcm _ = _
    simp only [stepSt, hw]
    rfl
  · show foldWrites st.mysolvent _ = _
    simp only [stepSt, hw]
    rfl
  · show foldWrites st.mysmx _ = _
    simp only [stepSt, hw]
    rfl
  · show foldWrites st.myvdw _ = _
    simp only [stepSt, hw]
    rfl
  · show foldWrites st.myplots _ = _
    simp only [stepSt, hw]
    rfl
  · show foldWrites st.myopt _ = _
    simp only [stepSt, hw]
    rfl
  · show foldWrites st.myscan _ = _
    simp only [stepSt, hw]
    rfl
  · show foldWrites st.mysvp _ = _
    simp only [stepSt, hw]
    rfl
  · show napplyFold st.mypcm_nonels _ = _
    simp only [stepSt, hno]
    rfl
  · show st.mynbo.map _ = _
    simp only [stepSt, hw]
    cases st.mynbo <;> rfl
  · show st.my_geom_opt.map _ = _
    simp only [stepSt, hw]
    cases st.my_geom_opt <;> rfl

theorem stepSt_write_smx (a : QCArgs) (table : CMIRSTable) (t : Sec) (st : BuildSt) :
    stepSt a table (t.map (fun kv => Instr.write .smxS kv.1 kv.2)) st =
      { st with mysmx := mergeKVs st.mysmx t } := by
  have hw : ∀ x : SecId, writesTo x (t.map (fun kv => Instr.write .smxS kv.1 kv.2)) =
      if SecId.smxS = x then t else [] := fun x => writesTo_map_write x .smxS t
  have hno : nonelsOps a table st.aliasRho
      (t.map (fun kv => Instr.write .smxS kv.1 kv.2)) = [] :=
    nonelsOps_map_write a table st.aliasRho .smxS t (by decide)
  refine buildSt_ext _ _ ?_ ?_ ?_ ?_ ?_ ?_ ?_ ?_ ?_ ?_ ?_ ?_ rfl rfl
  · show foldWrites st.myrem _ = _
    simp only [stepSt, hw]
    rfl
  · show foldWrites st.mypcm _ = _
    simp only [stepSt, hw]
    rfl
  · show foldWrites st.mysolvent _ = _
    simp only [stepSt, hw]
    rfl
  · show foldWrites st.mysmx _ = _
    simp only [stepSt, hw]
    rfl
  · show foldWrites st.myvdw _ = _
    simp only [stepSt, hw]
    rfl
  · show foldWrites st.myplots _ = _
    simp only [stepSt, hw]
    rfl
  · show foldWrites st.myopt _ = _
    simp only [stepSt, hw]
    rfl
  · show foldWrites st.myscan _ = _
    simp only [stepSt, hw]
    rfl
  · show foldWrites st.mysvp _ = _
    simp only [stepSt, hw]
    rfl
  · show napplyFold st.mypcm_nonels _ = _
    simp only [stepSt, hno]
    rfl
  · show st.mynbo.map _ = _
    simp only [stepSt, hw]
    cases st.mynbo <;> rfl
  · show st.my_geom_opt.map _ = _
    simp only [stepSt, hw]
    cases st.my_geom_opt <;> rfl

theorem stepSt_write_vdw (a : QCArgs) (table : CMIRSTable) (t : Sec) (st : BuildSt) :
    stepSt a table (t.map (fun kv => Instr.write .vdwS kv.1 kv.2)) st =
      { st with myvdw := mergeKVs st.myvdw t } := by
  have hw : ∀ x : SecId, writesTo x (t.map (fun kv => Instr.write .vdwS kv.1 kv.2)) =
      if SecId.vdwS = x then t else [] := fun x => writesTo_map_write x .vdwS t
  have hno : nonelsOps a table st.aliasRho
      (t.map (fun kv => Instr.write .vdwS kv.1 kv.2)) = [] :=
    nonelsOps_map_write a table st.aliasRho .vdwS t (by decide)
  refine buildSt_ext _ _ ?_ ?_ ?_ ?_ ?_ ?_ ?_ ?_ ?_ ?_ ?_ ?_ rfl rfl
  · show foldWrites st.myrem _ = _
    simp only [stepSt, hw]
    rfl
  · show foldWrites st.mypcm _ = _
    simp only [stepSt, hw]
    rfl
  · show foldWrites st.mysolvent _ = _
    simp only [stepSt, hw]
    rfl
  · show foldWrites st.mysmx _ = _
    simp only [stepSt, hw]
    rfl
  · show foldWrites st.myvdw _ = _
    simp only [stepSt, hw]
    rfl
  · show foldWrites st.myplots _ = _
    simp only [stepSt, hw]
    rfl
  · show foldWrites st.myopt _ = _
    simp only [stepSt, hw]
    rfl
  · show foldWrites st.myscan _ = _
    simp only [stepSt, hw]
    rfl
  · show foldWrites st.mysvp _ = _
    simp only [stepSt, hw]
    rfl
  · show napplyFold st.mypcm_nonels _ = _
    simp only [stepSt, hno]
    rfl
  · show st.mynbo.map _ = _
    simp only [stepSt, hw]
    cases st.mynbo <;> rfl
  · show st.my_geom_opt.map _ = _
    simp only [stepSt, hw]
    cases st.my_geom_opt <;> rfl

theorem stepSt_write_plots (a : QCArgs) (table : CMIRSTable) (t : Sec) (st : BuildSt) :
    stepSt a table (t.map (fun kv => Instr.write .plotsS kv.1 kv.2)) st =
      { st with myplots := mergeKVs st.myplots t } := by
  have hw : ∀ x : SecId, writesTo x (t.map (fun kv => Instr.write .plotsS kv.1 kv.2)) =
      if SecId.plotsS = x then t else [] := fun x => writesTo_map_write x .plotsS t
  have hno : nonelsOps a table st.aliasRho
      (t.map (fun kv => Instr.write .plotsS kv.1 kv.2)) = [] :=
    nonelsOps_map_write a table st.aliasRho .plotsS t (by decide)
  refine buildSt_ext _ _ ?_ ?_ ?_ ?_ ?_ ?_ ?_ ?_ ?_ ?_ ?_ ?_ rfl rfl
  · show foldWrites st.myrem _ = _
    simp only [stepSt, hw]
    rfl
  · show foldWrites st.mypcm _ = _
    simp only [stepSt, hw]
    rfl
  · show foldWrites st.mysolvent _ = _
    simp only [stepSt, hw]
    rfl
  · show foldWrites st.mysmx _ = _
    simp only [stepSt, hw]
    rfl
  · show foldWrites st.myvdw _ = _
    simp only [stepSt, hw]
    rfl
  · show foldWrites st.myplots _ = _
    simp only [stepSt, hw]
    rfl
  · show foldWrites st.myopt _ = _
    simp only [stepSt, hw]
    rfl
  · show foldWrites st.myscan _ = _
    simp only [stepSt, hw]
    rfl
  · show foldWrites st.mysvp _ = _
    simp only [stepSt, hw]
    rfl
  · show napplyFold st.mypcm_nonels _ = _
    simp only [stepSt, hno]
    rfl
  · show st.mynbo.map _ = _
    simp only [stepSt, hw]
    cases st.mynbo <;> rfl
  · show st.my_geom_opt.map _ = _
    simp only [stepSt, hw]
    cases st.my_geom_opt <;> rfl

theorem stepSt_write_opt (a : QCArgs) (table : CMIRSTable) (t : Sec) (st : BuildSt) :
    stepSt a table (t.map (fun kv => Instr.write .optS kv.1 kv.2)) st =
      { st with myopt := mergeKVs st.myopt t } := by
  have hw : ∀ x : SecId, writesTo x (t.map (fun kv => Instr.write .optS kv.1 kv.2)) =
      if SecId.optS = x then t else [] := fun x => writesTo_map_write x .optS t
  have hno : nonelsOps a table st.aliasRho
      (t.map (fun kv => Instr.write .optS kv.1 kv.2)) = [] :=
    nonelsOps_map_write a table st.aliasRho .optS t (by decide)
  refine buildSt_ext _ _ ?_ ?_ ?_ ?_ ?_ ?_ ?_ ?_ ?_ ?_ ?_ ?_ rfl rfl
  · show foldWrites st.myrem _ = _
    simp only [stepSt, hw]
    rfl
  · show foldWrites st.mypcm _ = _
    simp only [stepSt, hw]
    rfl
  · show foldWrites st.mysolvent _ = _
    simp only [stepSt, hw]
    rfl
  · show foldWrites st.mysmx _ = _
    simp only [stepSt, hw]
    rfl
  · show foldWrites st.myvdw _ = _
    simp only [stepSt, hw]
    rfl
  · show foldWrites st.myplots _ = _
    simp only [stepSt, hw]
    rfl
  · show foldWrites st.myopt _ = _
    simp only [stepSt, hw]
    rfl
  · show foldWrites st.myscan _ = _
    simp only [stepSt, hw]
    rfl
  · show foldWrites st.mysvp _ = _
    simp only [stepSt, hw]
    rfl
  · show napplyFold st.mypcm_nonels _ = _
    simp only [stepSt, hno]
    rfl
  · show st.mynbo.map _ = _
    simp only [stepSt, hw]
    cases st.mynbo <;> rfl
  · show st.my_geom_opt.map _ = _
    simp only [stepSt, hw]
    cases st.my_geom_opt <;> rfl

theorem stepSt_write_scan (a : QCArgs) (table : CMIRSTable) (t : Sec) (st : BuildSt) :
    stepSt a table (t.map (fun kv => Instr.write .scanS kv.1 kv.2)) st =
      { st with myscan := mergeKVs st.myscan t } := by
  have hw : ∀ x : SecId, writesTo x (t.map (fun kv => Instr.write .scanS kv.1 kv.2)) =
      if SecId.scanS = x then t else [] := fun x => writesTo_map_write x .scanS t
  have hno : nonelsOps a table st.aliasRho
      (t.map (fun kv => Instr.write .scanS kv.1 kv.2)) = [] :=
    nonelsOps_map_write a table st.aliasRho .scanS t (by decide)
  refine buildSt_ext _ _ ?_ ?_ ?_ ?_ ?_ ?_ ?_ ?_ ?_ ?_ ?_ ?_ rfl rfl
  · show foldWrites st.myrem _ = _
    simp only [stepSt, hw]
    rfl
  · show foldWrites st.mypcm _ = _
    simp only [stepSt, hw]
    rfl
  · show foldWrites st.mysolvent _ = _
    simp only [stepSt, hw]
    rfl
  · show foldWrites st.mysmx _ = _
    simp only [stepSt, hw]
    rfl
  · show foldWrites st.myvdw _ = _
    simp only [stepSt, hw]
    rfl
  · show foldWrites st.myplots _ = _
    simp only [stepSt, hw]
    rfl
  · show foldWrites st.myopt _ = _
    simp only [stepSt, hw]
    rfl
  · show foldWrites st.myscan _ = _
    simp only [stepSt, hw]
    rfl
  · show foldWrites st.mysvp _ = _
    simp only [stepSt, hw]
    rfl
  · show napplyFold st.mypcm_nonels _ = _
    simp only [stepSt, hno]
    rfl
  · show st.mynbo.map _ = _
    simp only [stepSt, hw]
    cases st.mynbo <;> rfl
  · show st.my_geom_opt.map _ = _
    simp only [stepSt, hw]
    cases st.my_geom_opt <;> rfl

theorem stepSt_write_svp (a : QCArgs) (table : CMIRSTable) (t : Sec) (st : BuildSt) :
    stepSt a table (t.map (fun kv => Instr.write .svpS kv.1 kv.2)) st =
      { st with mysvp := mergeKVs st.mysvp t } := by
  have hw : ∀ x : SecId, writesTo x (t.map (fun kv => Instr.write .svpS kv.1 kv.2)) =
      if SecId.svpS = x then t else [] := fun x => writesTo_map_write x .svpS t
  have hno : nonelsOps a table st.aliasRho
      (t.map (fun kv => Instr.write .svpS kv.1 kv.2)) = [] :=
    nonelsOps_map_write a table st.aliasRho .svpS t (by decide)
  refine buildSt_ext _ _ ?_ ?_ ?_ ?_ ?_ ?_ ?_ ?_ ?_ ?_ ?_ ?_ rfl rfl
  · show foldWrites st.myrem _ = _
    simp only [stepSt, hw]
    rfl
  · show foldWrites st.mypcm _ = _
    simp only [stepSt, hw]
    rfl
  · show foldWrites st.mysolvent _ = _
    simp only [stepSt, hw]
    rfl
  · show foldWrites st.mysmx _ = _
    simp only [stepSt, hw]
    rfl
  · show foldWrites st.myvdw _ = _
    simp only [stepSt, hw]
    rfl
  · show foldWrites st.myplots _ = _
    simp only [stepSt, hw]
    rfl
  · show foldWrites st.myopt _ = _
    simp only [stepSt, hw]
    rfl
  · show foldWrites st.myscan _ = _
    simp only [stepSt, hw]
    rfl
  · show foldWrites st.mysvp _ = _
    simp only [stepSt, hw]
    rfl
  · show napplyFold st.mypcm_nonels _ = _
    simp only [stepSt, hno]
    rfl
  · show st.mynbo.map _ = _
    simp only [stepSt, hw]
    cases st.mynbo <;> rfl
  · show st.my_geom_opt.map _ = _
    simp only [stepSt, hw]
    cases st.my_geom_opt <;> rfl

theorem stepSt_write_nonels (a : QCArgs) (table : CMIRSTable) (t : Sec) (st : BuildSt) :
    stepSt a table (t.map (fun kv => Instr.write .nonelsS kv.1 kv.2)) st =
      { st with mypcm_nonels := mergeKVsO st.mypcm_nonels t } := by
  have hw : ∀ x : SecId, writesTo x (t.map (fun kv => Instr.write .nonelsS kv.1 kv.2)) =
      if SecId.nonelsS = x then t else [] := fun x => writesTo_map_write x .nonelsS t
  refine buildSt_ext _ _ ?_ ?_ ?_ ?_ ?_ ?_ ?_ ?_ ?_ ?_ ?_ ?_ rfl rfl
  · show foldWrites st.myrem _ = _
    simp only [stepSt, hw]
    rfl
  · show foldWrites st.mypcm _ = _
    simp only [stepSt, hw]
    rfl
  · show foldWrites st.mysolvent _ = _
    simp only [stepSt, hw]
    rfl
  · show foldWrites st.mysmx _ = _
    simp only [stepSt, hw]
    rfl
  · show foldWrites st.myvdw _ = _
    simp only [stepSt, hw]
    rfl
  · show foldWrites st.myplots _ = _
    simp only [stepSt, hw]
    rfl
  · show foldWrites st.myopt _ = _
    simp only [stepSt, hw]
    rfl
  · show foldWrites st.myscan _ = _
    simp only [stepSt, hw]
    rfl
  · show foldWrites st.mysvp _ = _
    simp only [stepSt, hw]
    rfl
  · show napplyFold st.mypcm_nonels _ = _
    simp only [stepSt, nonelsOps_map_write_nonels]
    exact (mergeKVsO_eq_napplyFold _ _).symm
  · show st.mynbo.map _ = _
    simp only [stepSt, hw]
    cases st.mynbo <;> rfl
  · show st.my_geom_opt.map _ = _
    simp only [stepSt, hw]
    cases st.my_geom_opt <;> rfl

theorem stepSt_write_nbo (a : QCArgs) (table : CMIRSTable) (t : Sec) (st : BuildSt) :
    stepSt a table (t.map (fun kv => Instr.write .nboS kv.1 kv.2)) st =
      { st with mynbo := st.mynbo.map (fun d => mergeKVs d t) } := by
  have hw : ∀ x : SecId, writesTo x (t.map (fun kv => Instr.write .nboS kv.1 kv.2)) =
      if SecId.nboS = x then t else [] := fun x => writesTo_map_write x .nboS t
  have hno : nonelsOps a table st.aliasRho
      (t.map (fun kv => Instr.write .nboS kv.1 kv.2)) = [] :=
    nonelsOps_map_write a table st.aliasRho .nboS t (by decide)
  refine buildSt_ext _ _ ?_ ?_ ?_ ?_ ?_ ?_ ?_ ?_ ?_ ?_ ?_ ?_ rfl rfl
  · show foldWrites st.myrem _ = _
    simp only [stepSt, hw]
    rfl
  · show foldWrites st.mypcm _ = _
    simp only [stepSt, hw]
    rfl
  · show foldWrites st.mysolvent _ = _
    simp only [stepSt, hw]
    rfl
  · show foldWrites st.mysmx _ = _
    simp only [stepSt, hw]
    rfl
  · show foldWrites st.myvdw _ = _
    simp only [stepSt, hw]
    rfl
  · show foldWrites st.myplots _ = _
    simp only [stepSt, hw]
    rfl
  · show foldWrites st.myopt _ = _
    simp only [stepSt, hw]
    rfl
  · show foldWrites st.myscan _ = _
    simp only [stepSt, hw]
    rfl
  · show foldWrites st.mysvp _ = _
    simp only [stepSt, hw]
    rfl
  · show napplyFold st.mypcm_nonels _ = _
    simp only [stepSt, hno]
    rfl
  · show st.mynbo.map _ = _
    simp only [stepSt, hw]
    cases st.mynbo <;> rfl
  · show st.my_geom_opt.map _ = _
    simp only [stepSt, hw]
    cases st.my_geom_opt <;> rfl

theorem stepSt_write_geom (a : QCArgs) (table : CMIRSTable) (t : Sec) (st : BuildSt) :
    stepSt a table (t.map (fun kv => Instr.write .geomS kv.1 kv.2)) st =
      { st with my_geom_opt := st.my_geom_opt.map (fun d => mergeKVs d t) } := by
  have hw : ∀ x : SecId, writesTo x (t.map (fun kv => Instr.write .geomS kv.1 kv.2)) =
      if SecId.geomS = x then t else [] := fun x => writesTo_map_write x .geomS t
  have hno : nonelsOps a table st.aliasRho
      (t.map (fun kv => Instr.write .geomS kv.1 kv.2)) = [] :=
    nonelsOps_map_write a table st.aliasRho .geomS t (by decide)
  refine buildSt_ext _ _ ?_ ?_ ?_ ?_ ?_ ?_ ?_ ?_ ?_ ?_ ?_ ?_ rfl rfl
  · show foldWrites st.myrem _ = _
    simp only [stepSt, hw]
    rfl
  · show foldWrites st.mypcm _ = _
    simp only [stepSt, hw]
    rfl
  · show foldWrites st.mysolvent _ = _
    simp only [stepSt, hw]
    rfl
  · show foldWrites st.mysmx _ = _
    simp only [stepSt, hw]
    rfl
  · show foldWrites st.myvdw _ = _
    simp only [stepSt, hw]
    rfl
  · show foldWrites st.myplots _ = _
    simp only [stepSt, hw]
    rfl
  · show foldWrites st.myopt _ = _
    simp only [stepSt, hw]
    rfl
  · show foldWrites st.myscan _ = _
    simp only [stepSt, hw]
    rfl
  · show foldWrites st.mysvp _ = _
    simp only [stepSt, hw]
    rfl
  · show napplyFold st.mypcm_nonels _ = _
    simp only [stepSt, hno]
    rfl
  · show st.mynbo.map _ = _
    simp only [stepSt, hw]
    cases st.mynbo <;> rfl
  · show st.my_geom_opt.map _ = _
    simp only [stepSt, hw]
    cases st.my_geom_opt <;> rfl

theorem stepSt_cons_solventCheck (a : QCArgs) (table : CMIRSTable) (L : List Instr)
    (st : BuildSt) : stepSt a table (Instr.solventCheck :: L) st = stepSt a table L st := rfl

theorem stepSt_cons_nboCheck (a : QCArgs) (table : CMIRSTable) (L : List Instr)
    (st : BuildSt) : stepSt a table (Instr.nboCheck :: L) st = stepSt a table L st := rfl

theorem stepSt_cons_geomCheck (a : QCArgs) (table : CMIRSTable) (L : List Instr)
    (st : BuildSt) : stepSt a table (Instr.geomCheck :: L) st = stepSt a table L st := rfl

theorem writesTo_flatMap_svp (x : SecId) (t : Sec) :
    writesTo x (t.flatMap instrsOfSvpKey) = if SecId.svpS = x then t else [] := by
  induction t with
  | nil => by_cases h : SecId.svpS = x <;> simp [writesTo, h]
  | cons kv rest ih =>
      have e : (kv :: rest).flatMap instrsOfSvpKey =
          instrsOfSvpKey kv ++ rest.flatMap instrsOfSvpKey := rfl
      rw [e, writesTo_append, ih]
      have g1 : writesTo x (if kv.1 = "rhoiso" then [Instr.rhoisoMerge kv.2] else []) = [] := by
        split <;> rfl
      have g2 : writesTo x (if kv.1 = "idefesr" then [Instr.idefesrWarn kv.2] else []) = [] := by
        split <;> rfl
      have g3 : writesTo x (if kv.1 = "dielst" then [Instr.dielstCheck] else []) = [] := by
        split <;> rfl
      have e2 : writesTo x (instrsOfSvpKey kv) = if SecId.svpS = x then [kv] else [] := by
        simp only [instrsOfSvpKey, writesTo_append, g1, g2, g3, List.nil_append]
        by_cases hx : SecId.svpS = x
        · simp [writesTo, hx]
        · simp [writesTo, hx]
      rw [e2]
      by_cases hx : SecId.svpS = x <;> simp [hx]

theorem stepSt_svp (a : QCArgs) (table : CMIRSTable) (t : Sec) (st : BuildSt) :
    stepSt a table (t.flatMap instrsOfSvpKey) st =
      { st with mysvp := foldWrites st.mysvp t,
                mypcm_nonels := napplyFold st.mypcm_nonels
                  (nonelsOps a table st.aliasRho (t.flatMap instrsOfSvpKey)) } := by
  refine buildSt_ext _ _ ?_ ?_ ?_ ?_ ?_ ?_ ?_ ?_ ?_ rfl ?_ ?_ rfl rfl
  · show foldWrites st.myrem _ = _
    simp only [stepSt, writesTo_flatMap_svp]
    rfl
  · show foldWrites st.mypcm _ = _
    simp only [stepSt, writesTo_flatMap_svp]
    rfl
  · show foldWrites st.mysolvent _ = _
    simp only [stepSt, writesTo_flatMap_svp]
    rfl
  · show foldWrites st.mysmx _ = _
    simp only [stepSt, writesTo_flatMap_svp]
    rfl
  · show foldWrites st.myvdw _ = _
    simp only [stepSt, writesTo_flatMap_svp]
    rfl
  · show foldWrites st.myplots _ = _
    simp only [stepSt, writesTo_flatMap_svp]
    rfl
  · show foldWrites st.myopt _ = _
    simp only [stepSt, writesTo_flatMap_svp]
    rfl
  · show foldWrites st.myscan _ = _
    simp only [stepSt, writesTo_flatMap_svp]
    rfl
  · show foldWrites st.mysvp _ = _
    simp only [stepSt, writesTo_flatMap_svp]
    rfl
  · show st.mynbo.map _ = _
    simp only [stepSt, writesTo_flatMap_svp]
    cases st.mynbo <;> rfl
  · show st.my_geom_opt.map _ = _
    simp only [stepSt, writesTo_flatMap_svp]
    cases st.my_geom_opt <;> rfl


theorem applyItem_decomp (a : QCArgs) (table : CMIRSTable) (st : BuildSt)
    (item : String × Sec) (st' : BuildSt) (w : List String)
    (hok : applyItem a table st item = .ok (st', w))
    (hn : (secKeys st.mypcm_nonels).Nodup) :
    ∃ Li, instrsOfItem item = .ok Li ∧ st' = stepSt a table Li st := by
  obtain ⟨sec, body⟩ := item
  by_cases h1 : sec = "rem"
  · subst h1
    have hok2 : (match lowerAndCheckUnique body with
        | .error e => Except.error e
        | .ok t => Except.ok ({ st with myrem := mergeKVs st.myrem t }, ([] : List String))) = .ok (st', w) := hok
    cases hlcu : lowerAndCheckUnique body with
    | error e =>
        simp only [hlcu] at hok2
        exact absurd hok2 (by simp)
    | ok t =>
        simp only [hlcu, Except.ok.injEq, Prod.mk.injEq] at hok2
        obtain ⟨hst, -⟩ := hok2
        refine ⟨t.map (fun kv => Instr.write .remS kv.1 kv.2), ?_, ?_⟩
        · show (lowerAndCheckUnique body).map
            (List.map (fun kv => Instr.write .remS kv.1 kv.2)) = _
          rw [hlcu]
          rfl
        · rw [← hst, stepSt_write_rem]
  by_cases h2 : sec = "pcm"
  · subst h2
    have hok2 : (match lowerAndCheckUnique body with
        | .error e => Except.error e
        | .ok t => Except.ok ({ st with mypcm := mergeKVs st.mypcm t }, ([] : List String))) = .ok (st', w) := hok
    cases hlcu : lowerAndCheckUnique body with
    | error e =>
        simp only [hlcu] at hok2
        exact absurd hok2 (by simp)
    | ok t =>
        simp only [hlcu, Except.ok.injEq, Prod.mk.injEq] at hok2
        obtain ⟨hst, -⟩ := hok2
        refine ⟨t.map (fun kv => Instr.write .pcmS kv.1 kv.2), ?_, ?_⟩
        · show (lowerAndCheckUnique body).map
            (List.map (fun kv => Instr.write .pcmS kv.1 kv.2)) = _
          rw [hlcu]
          rfl
        · rw [← hst, stepSt_write_pcm]
  by_cases h3 : sec = "solvent"
  · subst h3
    have hok2 : (match lowerAndCheckUnique body with
        | .error e => Except.error e
        | .ok t => match getKV st.myrem "solvent_method" with
            | none => Except.error (Err.keyError "solvent_method")
            | some m =>
                Except.ok ({ st with mysolvent := mergeKVs st.mysolvent t },
                  if m ≠ "pcm" then [solventWarnMsg] else [])) = .ok (st', w) := hok
    cases hlcu : lowerAndCheckUnique body with
    | error e =>
        simp only [hlcu] at hok2
        exact absurd hok2 (by simp)
    | ok t =>
        simp only [hlcu] at hok2
        cases hg : getKV st.myrem "solvent_method" with
        | none =>
            simp only [hg] at hok2
            exact absurd hok2 (by simp)
        | some m =>
            simp only [hg, Except.ok.injEq, Prod.mk.injEq] at hok2
            obtain ⟨hst, -⟩ := hok2
            refine ⟨Instr.solventCheck ::
              t.map (fun kv => Instr.write .solventS kv.1 kv.2), ?_, ?_⟩
            · show (lowerAndCheckUnique body).map
                (fun t => Instr.solventCheck ::
                  t.map (fun kv => Instr.write .solventS kv.1 kv.2)) = _
              rw [hlcu]
              rfl
            · rw [← hst, stepSt_cons_solventCheck, stepSt_write_solvent]
  by_cases h4 : sec = "smx"
  · subst h4
    have hok2 : (match lowerAndCheckUnique body with
        | .error e => Except.error e
        | .ok t => Except.ok ({ st with mysmx := mergeKVs st.mysmx t }, ([] : List String))) = .ok (st', w) := hok
    cases hlcu : lowerAndCheckUnique body with
    | error e =>
        simp only [hlcu] at hok2
        exact absurd hok2 (by simp)
    | ok t =>
        simp only [hlcu, Except.ok.injEq, Prod.mk.injEq] at hok2
        obtain ⟨hst, -⟩ := hok2
        refine ⟨t.map (fun kv => Instr.write .smxS kv.1 kv.2), ?_, ?_⟩
        · show (lowerAndCheckUnique body).map
            (List.map (fun kv => Instr.write .smxS kv.1 kv.2)) = _
          rw [hlcu]
          rfl
        · rw [← hst, stepSt_write_smx]
  by_cases h5 : sec = "scan"
  · subst h5
    have hok2 : (match lowerAndCheckUnique body with
        | .error e => Except.error e
        | .ok t => Except.ok ({ st with myscan := mergeKVs st.myscan t }, ([] : List String))) = .ok (st', w) := hok
    cases hlcu : lowerAndCheckUnique body with
    | error e =>
        simp only [hlcu] at hok2
        exact absurd hok2 (by simp)
    | ok t =>
        simp only [hlcu, Except.ok.injEq, Prod.mk.injEq] at hok2
        obtain ⟨hst, -⟩ := hok2
        refine ⟨t.map (fun kv => Instr.write .scanS kv.1 kv.2), ?_, ?_⟩
        · show (lowerAndCheckUnique body).map
            (List.map (fun kv => Instr.write .scanS kv.1 kv.2)) = _
          rw [hlcu]
          rfl
        · rw [← hst, stepSt_write_scan]
  by_cases h6 : sec = "van_der_waals"
  · subst h6
    have hok2 : (match lowerAndCheckUnique body with
        | .error e => Except.error e
        | .ok t => Except.ok ({ st with myvdw := mergeKVs st.myvdw t, mypcm := setKV st.mypcm "radii" "read" }, ([] : List String))) = .ok (st', w) := hok
    cases hlcu : lowerAndCheckUnique body with
    | error e =>
        simp only [hlcu] at hok2
        exact absurd hok2 (by simp)
    | ok t =>
        simp only [hlcu, Except.ok.injEq, Prod.mk.injEq] at hok2
        obtain ⟨hst, -⟩ := hok2
        refine ⟨t.map (fun kv => Instr.write .vdwS kv.1 kv.2) ++
          [Instr.write .pcmS "radii" "read"], ?_, ?_⟩
        · show (lowerAndCheckUnique body).map
            (fun t => t.map (fun kv => Instr.write .vdwS kv.1 kv.2) ++
              [Instr.write .pcmS "radii" "read"]) = _
          rw [hlcu]
          rfl
        · rw [← hst, stepSt_append, stepSt_write_vdw]
          have e := stepSt_write_pcm a table [("radii", "read")]
            { st with myvdw := mergeKVs st.myvdw t }
          exact e.symm
  by_cases h7 : sec = "plots"
  · subst h7
    have hok2 : (match lowerAndCheckUnique body with
        | .error e => Except.error e
        | .ok t => Except.ok ({ st with myplots := mergeKVs st.myplots t }, ([] : List String))) = .ok (st', w) := hok
    cases hlcu : lowerAndCheckUnique body with
    | error e =>
        simp only [hlcu] at hok2
        exact absurd hok2 (by simp)
    | ok t =>
        simp only [hlcu, Except.ok.injEq, Prod.mk.injEq] at hok2
        obtain ⟨hst, -⟩ := hok2
        refine ⟨t.map (fun kv => Instr.write .plotsS kv.1 kv.2), ?_, ?_⟩
        · show (lowerAndCheckUnique body).map
            (List.map (fun kv => Instr.write .plotsS kv.1 kv.2)) = _
          rw [hlcu]
          rfl
        · rw [← hst, stepSt_write_plots]
  by_cases h8 : sec = "nbo"
  · subst h8
    have hok2 : (match st.mynbo with
        | none => Except.error (Err.runtimeError nboOverrideMsg)
        | some nb =>
            match lowerAndCheckUnique body with
            | .error e => Except.error e
            | .ok t => Except.ok ({ st with mynbo := some (mergeKVs nb t) },
                ([] : List String))) = .ok (st', w) := hok
    cases hnb : st.mynbo with
    | none =>
        simp only [hnb] at hok2
        exact absurd hok2 (by simp)
    | some nb =>
        simp only [hnb] at hok2
        cases hlcu : lowerAndCheckUnique body with
        | error e =>
            simp only [hlcu] at hok2
            exact absurd hok2 (by simp)
        | ok t =>
            simp only [hlcu, Except.ok.injEq, Prod.mk.injEq] at hok2
            obtain ⟨hst, -⟩ := hok2
            refine ⟨Instr.nboCheck :: t.map (fun kv => Instr.write .nboS kv.1 kv.2), ?_, ?_⟩
            · show (lowerAndCheckUnique body).map
                (fun t => Instr.nboCheck ::
                  t.map (fun kv => Instr.write .nboS kv.1 kv.2)) = _
              rw [hlcu]
              rfl
            · rw [← hst, stepSt_cons_nboCheck, stepSt_write_nbo, hnb]
              rfl
  by_cases h9 : sec = "geom_opt"
  · subst h9
    have hok2 : (match st.my_geom_opt with
        | none => Except.error (Err.runtimeError geomOverrideMsg)
        | some go =>
            match lowerAndCheckUnique body with
            | .error e => Except.error e
            | .ok t => Except.ok ({ st with my_geom_opt := some (mergeKVs go t) },
                ([] : List String))) = .ok (st', w) := hok
    cases hgo : st.my_geom_opt with
    | none =>
        simp only [hgo] at hok2
        exact absurd hok2 (by simp)
    | some go =>
        simp only [hgo] at hok2
        cases hlcu : lowerAndCheckUnique body with
        | error e =>
            simp only [hlcu] at hok2
            exact absurd hok2 (by simp)
        | ok t =>
            simp only [hlcu, Except.ok.injEq, Prod.mk.injEq] at hok2
            obtain ⟨hst, -⟩ := hok2
            refine ⟨Instr.geomCheck :: t.map (fun kv => Instr.write .geomS kv.1 kv.2), ?_, ?_⟩
            · show (lowerAndCheckUnique body).map
                (fun t => Instr.geomCheck ::
                  t.map (fun kv => Instr.write .geomS kv.1 kv.2)) = _
              rw [hlcu]
              rfl
            · rw [← hst, stepSt_cons_geomCheck, stepSt_write_geom, hgo]
              rfl
  by_cases h10 : sec = "opt"
  · subst h10
    have hok2 : (match lowerAndCheckUnique body with
        | .error e => Except.error e
        | .ok t => Except.ok ({ st with myopt := mergeKVs st.myopt t }, ([] : List String))) = .ok (st', w) := hok
    cases hlcu : lowerAndCheckUnique body with
    | error e =>
        simp only [hlcu] at hok2
        exact absurd hok2 (by simp)
    | ok t =>
        simp only [hlcu, Except.ok.injEq, Prod.mk.injEq] at hok2
        obtain ⟨hst, -⟩ := hok2
        refine ⟨t.map (fun kv => Instr.write .optS kv.1 kv.2), ?_, ?_⟩
        · show (lowerAndCheckUnique body).map
            (List.map (fun kv => Instr.write .optS kv.1 kv.2)) = _
          rw [hlcu]
          rfl
        · rw [← hst, stepSt_write_opt]
  by_cases h11 : sec = "svp"
  · subst h11
    have hok2 : (match lowerAndCheckUnique body with
        | .error e => Except.error e
        | .ok t => applySvpKeys a table st [] t) = .ok (st', w) := hok
    cases hlcu : lowerAndCheckUnique body with
    | error e =>
        simp only [hlcu] at hok2
        exact absurd hok2 (by simp)
    | ok t =>
        simp only [hlcu] at hok2
        have hdec := applySvpKeys_decomp a table t st [] st' w hok2 hn
        refine ⟨t.flatMap instrsOfSvpKey, ?_, ?_⟩
        · show (lowerAndCheckUnique body).map (fun t => t.flatMap instrsOfSvpKey) = _
          rw [hlcu]
          rfl
        · rw [hdec, stepSt_svp]
  by_cases h12 : sec = "pcm_nonels"
  · subst h12
    have hok2 : (match lowerAndCheckUnique body with
        | .error e => Except.error e
        | .ok t => Except.ok ({ st with mypcm_nonels := mergeKVsO st.mypcm_nonels t },
            ([] : List String))) = .ok (st', w) := hok
    cases hlcu : lowerAndCheckUnique body with
    | error e =>
        simp only [hlcu] at hok2
        exact absurd hok2 (by simp)
    | ok t =>
        simp only [hlcu, Except.ok.injEq, Prod.mk.injEq] at hok2
        obtain ⟨hst, -⟩ := hok2
        refine ⟨t.map (fun kv => Instr.write .nonelsS kv.1 kv.2), ?_, ?_⟩
        · show (lowerAndCheckUnique body).map
            (List.map (fun kv => Instr.write .nonelsS kv.1 kv.2)) = _
          rw [hlcu]
          rfl
        · rw [← hst, stepSt_write_nonels]
  simp only [applyItem, if_neg h1, if_neg h2, if_neg h3, if_neg h4, if_neg h5, if_neg h6, if_neg h7, if_neg h8, if_neg h9, if_neg h10, if_neg h11, if_neg h12, Except.ok.injEq, Prod.mk.injEq] at hok
  obtain ⟨hst, -⟩ := hok
  refine ⟨[], ?_, ?_⟩
  · simp only [instrsOfItem, if_neg h1, if_neg h2, if_neg h3, if_neg h4, if_neg h5, if_neg h6, if_neg h7, if_neg h8, if_neg h9, if_neg h10, if_neg h11, if_neg h12]
  · rw [← hst, stepSt_nil]

theorem applyItem_replay (a : QCArgs) (table : CMIRSTable) (st : BuildSt)
    (item : String × Sec) (st' : BuildSt) (w : List String) (u : BuildSt)
    (hok : applyItem a table st item = .ok (st', w))
    (hm : stMono st u)
    (hn : (secKeys st.mypcm_nonels).Nodup)
    (hnu : (secKeys u.mypcm_nonels).Nodup) :
    ∃ p, applyItem a table u item = .ok p := by
  obtain ⟨sec, body⟩ := item
  by_cases h1 : sec = "rem"
  · subst h1
    have hok2 : (match lowerAndCheckUnique body with
        | .error e => Except.error e
        | .ok t => Except.ok ({ st with myrem := mergeKVs st.myrem t }, ([] : List String))) = .ok (st', w) := hok
    cases hlcu : lowerAndCheckUnique body with
    | error e =>
        simp only [hlcu] at hok2
        exact absurd hok2 (by simp)
    | ok t =>
        refine ⟨({ u with myrem := mergeKVs u.myrem t }, []), ?_⟩
        show (match lowerAndCheckUnique body with
        | .error e => Except.error e
        | .ok t => Except.ok ({ u with myrem := mergeKVs u.myrem t }, ([] : List String))) = _
        simp only [hlcu]
  by_cases h2 : sec = "pcm"
  · subst h2
    have hok2 : (match lowerAndCheckUnique body with
        | .error e => Except.error e
        | .ok t => Except.ok ({ st with mypcm := mergeKVs st.mypcm t }, ([] : List String))) = .ok (st', w) := hok
    cases hlcu : lowerAndCheckUnique body with
    | error e =>
        simp only [hlcu] at hok2
        exact absurd hok2 (by simp)
    | ok t =>
        refine ⟨({ u with mypcm := mergeKVs u.mypcm t }, []), ?_⟩
        show (match lowerAndCheckUnique body with
        | .error e => Except.error e
        | .ok t => Except.ok ({ u with mypcm := mergeKVs u.mypcm t }, ([] : List String))) = _
        simp only [hlcu]
  by_cases h3 : sec = "solvent"
  · subst h3
    have hok2 : (match lowerAndCheckUnique body with
        | .error e => Except.error e
        | .ok t => match getKV st.myrem "solvent_method" with
            | none => Except.error (Err.keyError "solvent_method")
            | some m =>
                Except.ok ({ st with mysolvent := mergeKVs st.mysolvent t },
                  if m ≠ "pcm" then [solventWarnMsg] else [])) = .ok (st', w) := hok
    cases hlcu : lowerAndCheckUnique body with
    | error e =>
        simp only [hlcu] at hok2
        exact absurd hok2 (by simp)
    | ok t =>
        simp only [hlcu] at hok2
        cases hg : getKV st.myrem "solvent_method" with
        | none =>
            simp only [hg] at hok2
            exact absurd hok2 (by simp)
        | some m =>
            have hsome : (getKV u.myrem "solvent_method").isSome := hm.2.1 (by rw [hg]; rfl)
            cases hgu : getKV u.myrem "solvent_method" with
            | none => rw [hgu] at hsome; simp at hsome
            | some m2 =>
                refine ⟨({ u with mysolvent := mergeKVs u.mysolvent t },
                  if m2 ≠ "pcm" then [solventWarnMsg] else []), ?_⟩
                show (match lowerAndCheckUnique body with
        | .error e => Except.error e
        | .ok t => match getKV u.myrem "solvent_method" with
            | none => Except.error (Err.keyError "solvent_method")
            | some m =>
                Except.ok ({ u with mysolvent := mergeKVs u.mysolvent t },
                  if m ≠ "pcm" then [solventWarnMsg] else [])) = _
                simp only [hlcu, hgu]
  by_cases h4 : sec = "smx"
  · subst h4
    have hok2 : (match lowerAndCheckUnique body with
        | .error e => Except.error e
        | .ok t => Except.ok ({ st with mysmx := mergeKVs st.mysmx t }, ([] : List String))) = .ok (st', w) := hok
    cases hlcu : lowerAndCheckUnique body with
    | error e =>
        simp only [hlcu] at hok2
        exact absurd hok2 (by simp)
    | ok t =>
        refine ⟨({ u with mysmx := mergeKVs u.mysmx t }, []), ?_⟩
        show (match lowerAndCheckUnique body with
        | .error e => Except.error e
        | .ok t => Except.ok ({ u with mysmx := mergeKVs u.mysmx t }, ([] : List String))) = _
        simp only [hlcu]
  by_cases h5 : sec = "scan"
  · subst h5
    have hok2 : (match lowerAndCheckUnique body with
        | .error e => Except.error e
        | .ok t => Except.ok ({ st with myscan := mergeKVs st.myscan t }, ([] : List String))) = .ok (st', w) := hok
    cases hlcu : lowerAndCheckUnique body with
    | error e =>
        simp only [hlcu] at hok2
        exact absurd hok2 (by simp)
    | ok t =>
        refine ⟨({ u with myscan := mergeKVs u.myscan t }, []), ?_⟩
        show (match lowerAndCheckUnique body with
        | .error e => Except.error e
        | .ok t => Except.ok ({ u with myscan := mergeKVs u.myscan t }, ([] : List String))) = _
        simp only [hlcu]
  by_cases h6 : sec = "van_der_waals"
  · subst h6
    have hok2 : (match lowerAndCheckUnique body with
        | .error e => Except.error e
        | .ok t => Except.ok ({ st with myvdw := mergeKVs st.myvdw t, mypcm := setKV st.mypcm "radii" "read" }, ([] : List String))) = .ok (st', w) := hok
    cases hlcu : lowerAndCheckUnique body with
    | error e =>
        simp only [hlcu] at hok2
        exact absurd hok2 (by simp)
    | ok t =>
        refine ⟨({ u with myvdw := mergeKVs u.myvdw t, mypcm := setKV u.mypcm "radii" "read" }, []), ?_⟩
        show (match lowerAndCheckUnique body with
        | .error e => Except.error e
        | .ok t => Except.ok ({ u with myvdw := mergeKVs u.myvdw t, mypcm := setKV u.mypcm "radii" "read" }, ([] : List String))) = _
        simp only [hlcu]
  by_cases h7 : sec = "plots"
  · subst h7
    have hok2 : (match lowerAndCheckUnique body with
        | .error e => Except.error e
        | .ok t => Except.ok ({ st with myplots := mergeKVs st.myplots t }, ([] : List String))) = .ok (st', w) := hok
    cases hlcu : lowerAndCheckUnique body with
    | error e =>
        simp only [hlcu] at hok2
        exact absurd hok2 (by simp)
    | ok t =>
        refine ⟨({ u with myplots := mergeKVs u.myplots t }, []), ?_⟩
        show (match lowerAndCheckUnique body with
        | .error e => Except.error e
        | .ok t => Except.ok ({ u with myplots := mergeKVs u.myplots t }, ([] : List String))) = _
        simp only [hlcu]
  by_cases h8 : sec = "nbo"
  · subst h8
    have hok2 : (match st.mynbo with
        | none => Except.error (Err.runtimeError nboOverrideMsg)
        | some nb =>
            match lowerAndCheckUnique body with
            | .error e => Except.error e
            | .ok t => Except.ok ({ st with mynbo := some (mergeKVs nb t) },
                ([] : List String))) = .ok (st', w) := hok
    cases hnb : st.mynbo with
    | none =>
        simp only [hnb] at hok2
        exact absurd hok2 (by simp)
    | some nb =>
        simp only [hnb] at hok2
        cases hlcu : lowerAndCheckUnique body with
        | error e =>
            simp only [hlcu] at hok2
            exact absurd hok2 (by simp)
        | ok t =>
            have hbu : u.mynbo.isSome := hm.2.2.1 (by rw [hnb]; rfl)
            cases hnbu : u.mynbo with
            | none => rw [hnbu] at hbu; simp at hbu
            | some nbu =>
                refine ⟨({ u with mynbo := some (mergeKVs nbu t) }, []), ?_⟩
                show (match u.mynbo with
                    | none => Except.error (Err.runtimeError nboOverrideMsg)
                    | some nb =>
                        match lowerAndCheckUnique body with
                        | .error e => Except.error e
                        | .ok t => Except.ok ({ u with mynbo := some (mergeKVs nb t) },
                            ([] : List String))) = _
                simp only [hnbu, hlcu]
  by_cases h9 : sec = "geom_opt"
  · subst h9
    have hok2 : (match st.my_geom_opt with
        | none => Except.error (Err.runtimeError geomOverrideMsg)
        | some go =>
            match lowerAndCheckUnique body with
            | .error e => Except.error e
            | .ok t => Except.ok ({ st with my_geom_opt := some (mergeKVs go t) },
                ([] : List String))) = .ok (st', w) := hok
    cases hgo : st.my_geom_opt with
    | none =>
        simp only [hgo] at hok2
        exact absurd hok2 (by simp)
    | some go =>
        simp only [hgo] at hok2
        cases hlcu : lowerAndCheckUnique body with
        | error e =>
            simp only [hlcu] at hok2
            exact absurd hok2 (by simp)
        | ok t =>
            have hgu2 : u.my_geom_opt.isSome := hm.2.2.2 (by rw [hgo]; rfl)
            cases hgou : u.my_geom_opt with
            | none => rw [hgou] at hgu2; simp at hgu2
            | some gou =>
                refine ⟨({ u with my_geom_opt := some (mergeKVs gou t) }, []), ?_⟩
                show (match u.my_geom_opt with
                    | none => Except.error (Err.runtimeError geomOverrideMsg)
                    | some go =>
                        match lowerAndCheckUnique body with
                        | .error e => Except.error e
                        | .ok t => Except.ok ({ u with my_geom_opt := some (mergeKVs go t) },
                            ([] : List String))) = _
                simp only [hgou, hlcu]
  by_cases h10 : sec = "opt"
  · subst h10
    have hok2 : (match lowerAndCheckUnique body with
        | .error e => Except.error e
        | .ok t => Except.ok ({ st with myopt := mergeKVs st.myopt t }, ([] : List String))) = .ok (st', w) := hok
    cases hlcu : lowerAndCheckUnique body with
    | error e =>
        simp only [hlcu] at hok2
        exact absurd hok2 (by simp)
    | ok t =>
        refine ⟨({ u with myopt := mergeKVs u.myopt t }, []), ?_⟩
        show (match lowerAndCheckUnique body with
        | .error e => Except.error e
        | .ok t => Except.ok ({ u with myopt := mergeKVs u.myopt t }, ([] : List String))) = _
        simp only [hlcu]
  by_cases h11 : sec = "svp"
  · subst h11
    have hok2 : (match lowerAndCheckUnique body with
        | .error e => Except.error e
        | .ok t => applySvpKeys a table st [] t) = .ok (st', w) := hok
    cases hlcu : lowerAndCheckUnique body with
    | error e =>
        simp only [hlcu] at hok2
        exact absurd hok2 (by simp)
    | ok t =>
        simp only [hlcu] at hok2
        obtain ⟨p, hp⟩ := applySvpKeys_replay a table t st [] st' w [] u hok2 hm hn hnu
        refine ⟨p, ?_⟩
        show (match lowerAndCheckUnique body with
            | .error e => Except.error e
            | .ok t => applySvpKeys a table u [] t) = _
        simp only [hlcu, hp]
  by_cases h12 : sec = "pcm_nonels"
  · subst h12
    have hok2 : (match lowerAndCheckUnique body with
        | .error e => Except.error e
        | .ok t => Except.ok ({ st with mypcm_nonels := mergeKVsO st.mypcm_nonels t },
            ([] : List String))) = .ok (st', w) := hok
    cases hlcu : lowerAndCheckUnique body with
    | error e =>
        simp only [hlcu] at hok2
        exact absurd hok2 (by simp)
    | ok t =>
        refine ⟨({ u with mypcm_nonels := mergeKVsO u.mypcm_nonels t }, []), ?_⟩
        show (match lowerAndCheckUnique body with
            | .error e => Except.error e
            | .ok t => Except.ok ({ u with mypcm_nonels := mergeKVsO u.mypcm_nonels t },
                ([] : List String))) = _
        simp only [hlcu]
  refine ⟨(u, []), ?_⟩
  simp only [applyItem, if_neg h1, if_neg h2, if_neg h3, if_neg h4, if_neg h5, if_neg h6, if_neg h7, if_neg h8, if_neg h9, if_neg h10, if_neg h11, if_neg h12]


theorem applyOverrides_main (a : QCArgs) (table : CMIRSTable) :
    ∀ (ov : List (String × Sec)) (st : BuildSt) (ws : List String) (st' : BuildSt)
      (w : List String),
      applyOverrides a table st ws ov = .ok (st', w) →
      NodupSt st →
      ∃ L, instrsOfOverrides ov = .ok L ∧ st' = stepSt a table L st := by
  intro ov
  induction ov with
  | nil =>
      intro st ws st' w hok hn
      have h2 : Except.ok (α := BuildSt × List String) (st, ws) = .ok (st', w) := hok
      injection h2 with e
      refine ⟨[], rfl, ?_⟩
      rw [stepSt_nil]
      exact (congrArg Prod.fst e).symm
  | cons item rest ih =>
      intro st ws st' w hok hn
      have hstep : applyOverrides a table st ws (item :: rest) =
          (match applyItem a table st item with
           | .error e => Except.error e
           | .ok (st1, w1) => applyOverrides a table st1 (ws ++ w1) rest) := rfl
      rw [hstep] at hok
      cases h1 : applyItem a table st item with
      | error e =>
          simp only [h1] at hok
          exact absurd hok (by simp)
      | ok p =>
          obtain ⟨st1, w1⟩ := p
          simp only [h1] at hok
          obtain ⟨Li, hLi, hdec⟩ := applyItem_decomp a table st item st1 w1 h1
            (by obtain ⟨-, -, -, -, -, -, -, -, -, h10, -, -⟩ := hn; exact h10)
          have hn1 : NodupSt st1 := by
            rw [hdec]
            exact stepSt_nodup a table Li st hn
          obtain ⟨L2, hL2, hdec2⟩ := ih st1 (ws ++ w1) st' w hok hn1
          refine ⟨Li ++ L2, ?_, ?_⟩
          · show (match instrsOfItem item with
              | .error e => Except.error e
              | .ok l1 =>
                  match instrsOfOverrides rest with
                  | .error e => Except.error e
                  | .ok l2 => Except.ok (l1 ++ l2)) = _
            simp only [hLi, hL2]
          · rw [hdec2, hdec, stepSt_append]

theorem applyOverrides_replay (a : QCArgs) (table : CMIRSTable) :
    ∀ (ov : List (String × Sec)) (st : BuildSt) (ws : List String) (st' : BuildSt)
      (w : List String) (u : BuildSt) (wsu : List String),
      applyOverrides a table st ws ov = .ok (st', w) →
      stMono st u → NodupSt st → NodupSt u →
      ∃ p, applyOverrides a table u wsu ov = .ok p := by
  intro ov
  induction ov with
  | nil =>
      intro st ws st' w u wsu _ _ _ _
      exact ⟨(u, wsu), rfl⟩
  | cons item rest ih =>
      intro st ws st' w u wsu hok hm hn hnu
      have hstep : applyOverrides a table st ws (item :: rest) =
          (match applyItem a table st item with
           | .error e => Except.error e
           | .ok (st1, w1) => applyOverrides a table st1 (ws ++ w1) rest) := rfl
      rw [hstep] at hok
      cases h1 : applyItem a table st item with
      | error e =>
          simp only [h1] at hok
          exact absurd hok (by simp)
      | ok p =>
          obtain ⟨st1, w1⟩ := p
          simp only [h1] at hok
          have hn10 : (secKeys st.mypcm_nonels).Nodup := by
            obtain ⟨-, -, -, -, -, -, -, -, -, h10, -, -⟩ := hn
            exact h10
          have hnu10 : (secKeys u.mypcm_nonels).Nodup := by
            obtain ⟨-, -, -, -, -, -, -, -, -, h10, -, -⟩ := hnu
            exact h10
          obtain ⟨⟨u1, wu1⟩, hu1⟩ := applyItem_replay a table st item st1 w1 u h1 hm hn10 hnu10
          obtain ⟨Li, hLi, hdec⟩ := applyItem_decomp a table st item st1 w1 h1 hn10
          obtain ⟨Li2, hLi2, hdecu⟩ := applyItem_decomp a table u item u1 wu1 hu1 hnu10
          rw [hLi] at hLi2
          injection hLi2 with e
          subst e
          have hm1 : stMono st1 u1 := by
            rw [hdec, hdecu]
            exact stepSt_mono_par a table Li st u hm
          have hn1 : NodupSt st1 := by
            rw [hdec]
            exact stepSt_nodup a table Li st hn
          have hnu1 : NodupSt u1 := by
            rw [hdecu]
            exact stepSt_nodup a table Li u hnu
          obtain ⟨q, hq⟩ := ih st1 (ws ++ w1) st' w u1 (wsu ++ wu1) hok hm1 hn1 hnu1
          refine ⟨q, ?_⟩
          have hstepu : applyOverrides a table u wsu (item :: rest) =
              (match applyItem a table u item with
               | .error e => Except.error e
               | .ok (u1, wu1) => applyOverrides a table u1 (wsu ++ wu1) rest) := rfl
          rw [hstepu]
          simp only [hu1]
          exact hq

theorem applyOverrides_idem (a : QCArgs) (table : CMIRSTable) (ov : List (String × Sec))
    (st : BuildSt) (ws1 : List String) (st1 : BuildSt) (w1 ws2 : List String)
    (h1 : applyOverrides a table st ws1 ov = .ok (st1, w1))
    (hn : NodupSt st) :
    ∃ w2, applyOverrides a table st1 ws2 ov = .ok (st1, w2) := by
  obtain ⟨L, hL, hdec⟩ := applyOverrides_main a table ov st ws1 st1 w1 h1 hn
  have hm : stMono st st1 := by
    rw [hdec]
    exact stepSt_mono a table L st
  have hn1 : NodupSt st1 := by
    rw [hdec]
    exact stepSt_nodup a table L st hn
  obtain ⟨⟨st2, w2⟩, h2⟩ := applyOverrides_replay a table ov st ws1 st1 w1 st1 ws2 h1 hm hn hn1
  obtain ⟨L2, hL2, hdec2⟩ := applyOverrides_main a table ov st1 ws2 st2 w2 h2 hn1
  rw [hL] at hL2
  injection hL2 with e
  subst e
  have hfix : st2 = st1 := by
    rw [hdec2, hdec, stepSt_idem a table L st hn]
  refine ⟨w2, ?_⟩
  rw [h2, hfix]

theorem getKV_mem {α : Type} (d : List (String × α)) (k : String) (v : α)
    (h : getKV d k = some v) : (k, v) ∈ d := by
  induction d with
  | nil => simp [getKV] at h
  | cons p t ih =>
      obtain ⟨k0, v0⟩ := p
      by_cases hk : k0 = k
      · subst hk
        have e : getKV ((k0, v0) :: t) k0 = some v0 := by simp [getKV]
        rw [e] at h
        injection h with e2
        rw [← e2]
        exact List.mem_cons_self _ _
      · have e : getKV ((k0, v0) :: t) k = getKV t k := by simp [getKV, hk]
        rw [e] at h
        exact List.mem_cons_of_mem _ (ih h)

theorem cmirs_tableNodup : tableNodup CMIRS_SETTINGS := by
  unfold tableNodup
  decide

theorem nodup_remSeed (a : QCArgs) : (secKeys (remSeed a)).Nodup := by
  show (["job_type", "basis", "max_scf_cycles", "gen_scfman", "xc_grid", "thresh",
    "s2thresh", "scf_algorithm", "resp_charges", "symmetry", "sym_ignore"] :
      List String).Nodup
  decide

theorem applyDftRung_nodup (r : Int) (rem rem' : Sec) (h : applyDftRung r rem = .ok rem')
    (hn : (secKeys rem).Nodup) : (secKeys rem').Nodup := by
  unfold applyDftRung at h
  split at h
  all_goals try split at h
  all_goals try split at h
  all_goals try split at h
  all_goals try split at h
  all_goals first
    | (simp only [Except.ok.injEq] at h; subst h;
       first
         | exact nodup_setKV _ _ _ hn
         | exact nodup_setKV _ _ _ (nodup_setKV _ _ _ hn))
    | exact absurd h (by simp)

theorem remWithGeomCycles_nodup (a : QCArgs) (rem : Sec) (hn : (secKeys rem).Nodup) :
    (secKeys (remWithGeomCycles a rem)).Nodup := by
  unfold remWithGeomCycles
  split
  · exact nodup_setKV _ _ _ hn
  · exact hn

theorem initSt_nodup (a : QCArgs) (rem : Sec) (hwf : a.WF) (hn : (secKeys rem).Nodup) :
    NodupSt (initSt a rem) := by
  obtain ⟨w1, w2, w3, w4⟩ := hwf
  refine ⟨hn, List.nodup_nil, List.nodup_nil, List.nodup_nil, List.nodup_nil,
    List.nodup_nil, w1, w2, List.nodup_nil, List.nodup_nil, ?_, ?_⟩
  · intro d hd
    simp [initSt] at hd
  · intro d hd
    simp [initSt] at hd

theorem stPCM_nodup (a : QCArgs) (st : BuildSt) (h : NodupSt st) : NodupSt (stPCM a st) := by
  obtain ⟨h1, h2, h3, h4, h5, h6, h7, h8, h9, h10, h11, h12⟩ := h
  cases hc : a.pcm_dielectric with
  | none =>
      simp only [stPCM, hc]
      exact ⟨h1, h2, h3, h4, h5, h6, h7, h8, h9, h10, h11, h12⟩
  | some diel =>
      simp only [stPCM, hc]
      exact ⟨nodup_setKV _ _ _ h1, (show (secKeys pcm_defaults).Nodup by decide),
        nodup_setKV _ _ _ h3, h4, h5, h6, h7, h8, h9, h10, h11, h12⟩

theorem stISOSVP_nodup (a : QCArgs) (st : BuildSt) (h : NodupSt st) :
    NodupSt (stISOSVP a st) := by
  obtain ⟨h1, h2, h3, h4, h5, h6, h7, h8, h9, h10, h11, h12⟩ := h
  cases hc : a.isosvp_dielectric with
  | none =>
      simp only [stISOSVP, hc]
      exact ⟨h1, h2, h3, h4, h5, h6, h7, h8, h9, h10, h11, h12⟩
  | some diel =>
      simp only [stISOSVP, hc]
      exact ⟨nodup_setKV _ _ _ (nodup_setKV _ _ _ h1), h2, h3, h4, h5, h6, h7, h8,
        nodup_setKV _ _ _ (show (secKeys svp_defaults).Nodup by decide), h10, h11, h12⟩

theorem stSMD_nodup (a : QCArgs) (st st' : BuildSt) (h : stSMD a st = .ok st')
    (hn : NodupSt st) : NodupSt st' := by
  obtain ⟨h1, h2, h3, h4, h5, h6, h7, h8, h9, h10, h11, h12⟩ := hn
  unfold stSMD at h
  cases hc : a.smd_solvent with
  | none =>
      simp only [hc, Except.ok.injEq] at h
      subst h
      exact ⟨h1, h2, h3, h4, h5, h6, h7, h8, h9, h10, h11, h12⟩
  | some solv =>
      simp only [hc] at h
      split at h
      · exact absurd h (by simp)
      · simp only [Except.ok.injEq] at h
        subst h
        exact ⟨nodup_setKV _ _ _ (nodup_setKV _ _ _ h1), h2, h3, nodup_setKV _ _ _ h4,
          h5, h6, h7, h8, h9, h10, h11, h12⟩

theorem stCMIRS_nodup (a : QCArgs) (table : CMIRSTable) (st st' : BuildSt)
    (h : stCMIRS a table st = .ok st') (hn : NodupSt st) (htab : tableNodup table) :
    NodupSt st' := by
  obtain ⟨h1, h2, h3, h4, h5, h6, h7, h8, h9, h10, h11, h12⟩ := hn
  unfold stCMIRS at h
  cases hc : a.cmirs_solvent with
  | none =>
      simp only [hc, Except.ok.injEq] at h
      subst h
      exact ⟨h1, h2, h3, h4, h5, h6, h7, h8, h9, h10, h11, h12⟩
  | some solv =>
      simp only [hc] at h
      cases ht : getKV table solv with
      | none =>
          simp only [ht] at h
          exact absurd h (by simp)
      | some entry =>
          simp only [ht] at h
          cases hr : getKV (setKV (setKV (setKV svp_defaults "dielst" entry.dielst)
              "idefesr" "1") "ipnrf" "1") "rhoiso" with
          | none =>
              simp only [hr] at h
              exact absurd h (by simp)
          | some rho =>
              simp only [hr] at h
              cases hcont : entry.contour rho with
              | none =>
                  simp only [hcont] at h
                  exact absurd h (by simp)
              | some nonels =>
                  simp only [hcont, Except.ok.injEq] at h
                  subst h
                  have hne : (secKeys nonels).Nodup := by
                    have hmem := getKV_mem table solv entry ht
                    have hpair := htab (solv, entry) hmem
                    unfold CMIRSEntry.contour at hcont
                    by_cases hrho : rho = "0.001"
                    · rw [if_pos hrho] at hcont
                      injection hcont with e
                      rw [← e]
                      exact hpair.1
                    · rw [if_neg hrho] at hcont
                      by_cases hrho2 : rho = "0.0005"
                      · rw [if_pos hrho2] at hcont
                        injection hcont with e
                        rw [← e]
                        exact hpair.2
                      · rw [if_neg hrho2] at hcont
                        exact absurd hcont (by simp)
                  exact ⟨nodup_setKV _ _ _ (nodup_setKV _ _ _ h1), h2, h3, h4, h5, h6, h7, h8,
                    nodup_setKV _ _ _ (nodup_setKV _ _ _ (nodup_setKV _ _ _
                      (show (secKeys svp_defaults).Nodup by decide))),
                    nodup_setKV _ _ _ (nodup_setKV _ _ _ hne), h11, h12⟩

theorem stPlots_nodup (a : QCArgs) (st : BuildSt) (h : NodupSt st) :
    NodupSt (stPlots a st) := by
  obtain ⟨h1, h2, h3, h4, h5, h6, h7, h8, h9, h10, h11, h12⟩ := h
  unfold stPlots
  split
  · exact ⟨nodup_setKV _ _ _ (nodup_setKV _ _ _ h1), h2, h3, h4, h5,
      (show (secKeys plots_defaults).Nodup by decide), h7, h8, h9, h10, h11, h12⟩
  · exact ⟨h1, h2, h3, h4, h5, h6, h7, h8, h9, h10, h11, h12⟩

theorem stNBO_nodup (a : QCArgs) (st st' : BuildSt) (h : stNBO a st = .ok st')
    (hn : NodupSt st) (hwf : ((a.nbo_params.getD []).map Prod.fst).Nodup) :
    NodupSt st' := by
  obtain ⟨h1, h2, h3, h4, h5, h6, h7, h8, h9, h10, h11, h12⟩ := hn
  unfold stNBO at h
  cases hc : a.nbo_params with
  | none =>
      simp only [hc, Except.ok.injEq] at h
      subst h
      exact ⟨h1, h2, h3, h4, h5, h6, h7, h8, h9, h10, h11, h12⟩
  | some d =>
      simp only [hc] at h
      have hd : (d.map Prod.fst).Nodup := by
        rw [hc] at hwf
        exact hwf
      have hfilter : (secKeys (d.filter (fun kv => kv.1 ≠ "version"))).Nodup :=
        List.Nodup.sublist (List.Sublist.map Prod.fst (List.filter_sublist d)) hd
      cases hv : getKV d "version" with
      | some v =>
          simp only [hv] at h
          split at h
          · simp only [Except.ok.injEq] at h
            subst h
            refine ⟨nodup_setKV _ _ _ (nodup_setKV _ _ _ h1), h2, h3, h4, h5, h6, h7, h8,
              h9, h10, ?_, h12⟩
            intro d0 hd0
            injection hd0 with e
            rw [← e]
            exact hfilter
          · exact absurd h (by simp)
      | none =>
          simp only [hv, Except.ok.injEq] at h
          subst h
          refine ⟨nodup_setKV _ _ _ h1, h2, h3, h4, h5, h6, h7, h8, h9, h10, ?_, h12⟩
          intro d0 hd0
          injection hd0 with e
          rw [← e]
          exact hfilter

theorem stGeom_nodup (a : QCArgs) (st st' : BuildSt) (h : stGeom a st = .ok st')
    (hn : NodupSt st) (hwf : ((a.new_geom_opt.getD []).map Prod.fst).Nodup) :
    NodupSt st' := by
  obtain ⟨h1, h2, h3, h4, h5, h6, h7, h8, h9, h10, h11, h12⟩ := hn
  unfold stGeom at h
  cases hc : a.new_geom_opt with
  | none =>
      simp only [hc, Except.ok.injEq] at h
      subst h
      exact ⟨h1, h2, h3, h4, h5, h6, h7, h8, h9, h10, h11, h12⟩
  | some d =>
      simp only [hc] at h
      have hd : (d.map Prod.fst).Nodup := by
        rw [hc] at hwf
        exact hwf
      cases hmx : getKV d "maxiter" with
      | some m =>
          simp only [hmx] at h
          split at h
          · exact absurd h (by simp)
          · simp only [Except.ok.injEq] at h
            subst h
            refine ⟨nodup_setKV _ _ _ h1, h2, h3, h4, h5, h6, h7, h8, h9, h10, h11, ?_⟩
            intro d0 hd0
            injection hd0 with e
            rw [← e]
            exact hd
      | none =>
          simp only [hmx, Except.ok.injEq] at h
          subst h
          refine ⟨nodup_setKV _ _ _ h1, h2, h3, h4, h5, h6, h7, h8, h9, h10, h11, ?_⟩
          intro d0 hd0
          injection hd0 with e
          rw [← e]
          exact nodup_setKV _ _ _ hd

theorem buildPre_nodup (a : QCArgs) (table : CMIRSTable) (st : BuildSt)
    (h : buildPre a table = .ok st) (hwf : a.WF) (htab : tableNodup table) :
    NodupSt st := by
  unfold buildPre at h
  cases hdr : applyDftRung a.dft_rung (remSeed a) with
  | error e =>
      simp only [hdr] at h
      exact absurd h (by simp)
  | ok rem1 =>
      simp only [hdr] at h
      split at h
      · exact absurd h (by simp)
      · cases hsmd : stSMD a (stISOSVP a (stPCM a (initSt a (remWithGeomCycles a rem1)))) with
        | error e =>
            simp only [hsmd] at h
            exact absurd h (by simp)
        | ok st2 =>
            simp only [hsmd] at h
            cases hcm : stCMIRS a table st2 with
            | error e =>
                simp only [hcm] at h
                exact absurd h (by simp)
            | ok st3 =>
                simp only [hcm] at h
                cases hnbo : stNBO a (stPlots a st3) with
                | error e =>
                    simp only [hnbo] at h
                    exact absurd h (by simp)
                | ok st4 =>
                    simp only [hnbo] at h
                    have hn0 : NodupSt (initSt a (remWithGeomCycles a rem1)) :=
                      initSt_nodup a _ hwf (remWithGeomCycles_nodup a rem1
                        (applyDftRung_nodup a.dft_rung (remSeed a) rem1 hdr (nodup_remSeed a)))
                    have hn2 : NodupSt st2 :=
                      stSMD_nodup a _ st2 hsmd (stISOSVP_nodup a _ (stPCM_nodup a _ hn0))
                    have hn3 : NodupSt st3 := stCMIRS_nodup a table st2 st3 hcm hn2 htab
                    have hn4 : NodupSt st4 :=
                      stNBO_nodup a _ st4 hnbo (stPlots_nodup a st3 hn3) hwf.2.2.1
                    exact stGeom_nodup a st4 st h hn4 hwf.2.2.2

theorem finalize_warnings (a : QCArgs) (table : CMIRSTable) (st : BuildSt)
    (ws ws' : List String) (r : BuildResult)
    (h : finalize a table st ws = .ok r) :
    finalize a table st ws' = .ok { r with warnings := ws' } := by
  unfold finalize at h ⊢
  cases hf : finalRem a st.myrem with
  | error e =>
      simp only [hf] at h
      exact absurd h (by simp)
  | ok m =>
      simp only [hf, Except.ok.injEq] at h ⊢
      rw [← h]

/-- C9: for every job specification and every override set for which the build
succeeds, the override merge is idempotent — running the `overwrite_inputs`
loop a second time over the already-merged sections reproduces exactly the
same section collection (all result components except the accumulated warning
list).  `a.WF` records that the caller-supplied dicts, being Python dicts,
have duplicate-free key lists. -/
theorem c9_override_merge_idempotent (a : QCArgs) (r : BuildResult)
    (hwf : a.WF) (hok : qchemBuild a CMIRS_SETTINGS = .ok r) :
    ∃ r', qchemBuildTwice a CMIRS_SETTINGS = .ok r' ∧
      r'.rem = r.rem ∧ r'.opt = r.opt ∧ r'.pcm = r.pcm ∧ r'.solvent = r.solvent ∧
      r'.smx = r.smx ∧ r'.scan = r.scan ∧ r'.van_der_waals = r.van_der_waals ∧
      r'.plots = r.plots ∧ r'.svp = r.svp ∧ r'.pcm_nonels = r.pcm_nonels ∧
      r'.nbo = r.nbo ∧ r'.geom_opt = r.geom_opt ∧ r'.vdw_mode = r.vdw_mode ∧
      r'.tableFinal = r.tableFinal ∧ r'.new_geom_opt_final = r.new_geom_opt_final ∧
      r'.opt_variables_final = r.opt_variables_final ∧
      r'.scan_variables_final = r.scan_variables_final := by
  unfold qchemBuild at hok
  cases hpre : buildPre a CMIRS_SETTINGS with
  | error e =>
      simp only [hpre] at hok
      exact absurd hok (by simp)
  | ok st =>
      simp only [hpre] at hok
      cases hov : applyOverrides a CMIRS_SETTINGS st [] (a.overwrite_inputs.getD []) with
      | error e =>
          simp only [hov] at hok
          exact absurd hok (by simp)
      | ok p =>
          obtain ⟨st1, ws1⟩ := p
          simp only [hov] at hok
          have hn : NodupSt st := buildPre_nodup a CMIRS_SETTINGS st hpre hwf cmirs_tableNodup
          obtain ⟨w2, h2⟩ := applyOverrides_idem a CMIRS_SETTINGS
            (a.overwrite_inputs.getD []) st [] st1 ws1 ws1 hov hn
          refine ⟨{ r with warnings := w2 }, ?_, rfl, rfl, rfl, rfl, rfl, rfl, rfl, rfl,
            rfl, rfl, rfl, rfl, rfl, rfl, rfl, rfl, rfl⟩
          unfold qchemBuildTwice
          simp only [hpre, hov, h2]
          exact finalize_warnings a CMIRS_SETTINGS st1 ws1 w2 r hok

theorem c9_witness :
    c9wA.WF ∧ qchemBuild c9wA CMIRS_SETTINGS = .ok c9wR ∧
    (∃ r', qchemBuildTwice c9wA CMIRS_SETTINGS = .ok r' ∧
      r'.rem = c9wR.rem ∧ r'.opt = c9wR.opt ∧ r'.pcm = c9wR.pcm ∧
      r'.solvent = c9wR.solvent ∧ r'.smx = c9wR.smx ∧ r'.scan = c9wR.scan ∧
      r'.van_der_waals = c9wR.van_der_waals ∧ r'.plots = c9wR.plots ∧
      r'.svp = c9wR.svp ∧ r'.pcm_nonels = c9wR.pcm_nonels ∧ r'.nbo = c9wR.nbo ∧
      r'.geom_opt = c9wR.geom_opt ∧ r'.vdw_mode = c9wR.vdw_mode ∧
      r'.tableFinal = c9wR.tableFinal ∧
      r'.new_geom_opt_final = c9wR.new_geom_opt_final ∧
      r'.opt_variables_final = c9wR.opt_variables_final ∧
      r'.scan_variables_final = c9wR.scan_variables_final) :=
  ⟨by decide, rfl, c9_override_merge_idempotent c9wA c9wR (by decide) rfl⟩

/-- C3: the build does NOT leave its caller-supplied inputs and the
module-level table unchanged: a CMIRS water build pollutes the global
`CMIRS_SETTINGS` entry it aliases with the fixed integration constants
(`delta`, `gaulag_n`), and requesting the new optimizer writes the derived
`maxiter` into the caller's own `new_geom_opt` dict. -/
theorem c3_build_mutates_caller_state :
    qchemBuild c3A CMIRS_SETTINGS = .ok c3R ∧
    (getKV CMIRS_SETTINGS "water").map (fun e => getKV e.e001 "delta") = some none ∧
    (getKV c3R.tableFinal "water").map (fun e => getKV e.e001 "delta") =
      some (some (some "7")) ∧
    c3R.tableFinal ≠ CMIRS_SETTINGS ∧
    c3A.new_geom_opt = some [] ∧
    c3R.new_geom_opt_final = some [("maxiter", "200")] ∧
    c3R.new_geom_opt_final ≠ c3A.new_geom_opt := by
  refine ⟨rfl, rfl, rfl, ?_, rfl, rfl, ?_⟩
  · intro heq
    have h2 : (getKV CMIRS_SETTINGS "water").map (fun e => getKV e.e001 "delta") =
        some (some (some "7")) :=
      heq ▸ (rfl : (getKV c3R.tableFinal "water").map (fun e => getKV e.e001 "delta") =
        some (some (some "7")))
    have h1 : (getKV CMIRS_SETTINGS "water").map (fun e => getKV e.e001 "delta") =
        some none := rfl
    rw [h1] at h2
    simp at h2
  · intro heq
    have h3 : c3R.new_geom_opt_final = some [("maxiter", "200")] := rfl
    have h4 : c3A.new_geom_opt = some ([] : Sec) := rfl
    rw [h3, h4] at heq
    simp at heq

end OverrideIdem
